import Mathlib

/-!
# leveldb-windows: port layer (`port_chromium`) and `WinEnv` background scheduler

A shallow embedding of the synchronisation code of
`src/LevelDB/port/port_chromium.{h,cc}`, of the scheduler and the clock of
`src/LevelDB/port/env_win.cc` and of `NormalizePath` of
`src/LevelDB/util/file_misc.cpp`, followed by the properties established about it.

Conventions.
* Every C++ function that takes part in a concurrent protocol is embedded as a
  small-step machine: a program counter with one value per source statement
  and a `step` function that executes the statement at the program counter.
  Threads are interleaved at statement granularity.  The one exception is
  `WinEnv::Schedule`, whose whole body runs with `mu_` held and is a single
  transition, enabled when `mu_` is free.
* Win32 primitives (`InterlockedCompareExchange`, `InterlockedExchangePointer`,
  `ReleaseSemaphore`, `WaitForSingleObject`) are functions on the value they
  act on, with the argument order of their Win32 prototypes.
* Pointers (`void*`, function pointers) are natural numbers, `0` being null.
* `InitOnce` is embedded for both targets of a Windows build (`Build`), as
  the store of line 134 has the width of a pointer while the once word is an
  `int`: the memory holds the four bytes behind the word as well.
* `int` and `long` variables are `Int`; an overflow of `waiting_` (more than
  `2^31 - 1` threads inside `Wait`) is not modelled.  The `uint64_t`
  arithmetic of `NowMicros` is taken modulo `2^64`.
* A call that may block returns `none` while the caller is blocked.  A failed
  `assert` and a call that Win32 leaves undefined are outcomes of their own
  (`Outcome.aborts`, `Outcome.undefined`); `assert` is modelled as active.
* Fields described as history record what has happened; no statement reads
  them.
* A wide character is a `Char`; the code only compares characters with
  constants.  An `LPCWSTR` is the list of the characters in memory from the
  pointer on: the string ends at the first `L'\0'`, and the end of the list
  reads as `L'\0'`.  `size_t` indices are `Nat`.
-/

namespace leveldb

namespace port

/-! ## `OnceType` and `InitOnce` (port_chromium.h 85-98, port_chromium.cc 120-143) -/

/-- The type `typedef int OnceType;`. -/
abbrev OnceType := Int

/-- The enumerator `ONCE_STATE_UNINITIALIZED = 0`. -/
def ONCE_STATE_UNINITIALIZED : OnceType := 0

/-- The enumerator `ONCE_STATE_EXECUTING_CLOSURE = 1`. -/
def ONCE_STATE_EXECUTING_CLOSURE : OnceType := 1

/-- The enumerator `ONCE_STATE_DONE = 2`. -/
def ONCE_STATE_DONE : OnceType := 2

/-- The macro `LEVELDB_ONCE_INIT`. -/
def LEVELDB_ONCE_INIT : OnceType := ONCE_STATE_UNINITIALIZED

/-- Win32 `LONG InterlockedCompareExchange(LONG volatile* Destination, LONG ExChange,
LONG Comperand)`: atomically compares `*Destination` with `Comperand` and, when they
are equal, stores `ExChange` into `*Destination`; the function returns the initial value
of `*Destination`.  The arguments are in the order of the Win32 prototype.  The result
is the pair (new value of the destination, returned value). -/
def InterlockedCompareExchange (destination exChange comperand : Int) : Int × Int :=
  (if destination = comperand then exChange else destination, destination)

/-- Win32 `InterlockedExchangePointer(Target, Value)`: atomically stores `Value` into
`*Target` and returns the previous value.  The result is the pair (new value of the
target, returned value).  The store has the width of a pointer; a caller that passes a
cast pointer to a narrower object (`InitOnce`, line 134) accounts for the bytes behind
that object at the call. -/
def InterlockedExchangePointer {α : Type} (target value : α) : α × α :=
  (value, target)

/-- The targets of a Windows build: a pointer has four bytes on `Win32` and eight on
`x64`; `int` and `LONG` have four bytes on both, and both are little-endian. -/
inductive Build
  /-- The 32-bit target. -/
  | win32
  /-- The 64-bit target. -/
  | x64
deriving DecidableEq, Repr

/-- The value of `sizeof(PVOID)`. -/
def Build.sizeofPVOID : Build → Nat
  | Build.win32 => 4
  | Build.x64 => 8

/-- The memory `InitOnce` works on: the once word `*once`, the four bytes that follow it,
and the rest of the program state.  The initializer can read and write everything but the
once word. -/
structure OnceMem (σ : Type) where
  /-- The word `*once`, an `int` of four bytes. -/
  once : OnceType
  /-- The four bytes that follow the word `*once` in memory, read as an `int`.  The layout
  of the program decides what they are: padding, or part of another object (in
  env_win.cc the word is the static `once` of line 504, declared right before the static
  `default_env`). -/
  behind : Int
  /-- The rest of the state the initializer acts on. -/
  user : σ
  /-- History: how many times `(*initializer)()` has been invoked. -/
  calls : Nat
  /-- History: how many invocations of the initializer have returned. -/
  finished : Nat
deriving DecidableEq, Repr

/-- Program counter of one activation of `InitOnce`; the numbers are source lines of
port_chromium.cc. -/
inductive OncePc
  /-- Line 121, `if (*once != ONCE_STATE_DONE)`. -/
  | check
  /-- Lines 122-124, `OnceType state = *once; if (state == ONCE_STATE_DONE) return;`. -/
  | load
  /-- Lines 126-131, `state = InterlockedCompareExchange(...)` and the test of `state`. -/
  | cas
  /-- Line 133, the call `(*initializer)()` is made. -/
  | call
  /-- Line 133, the initializer runs and returns. -/
  | running
  /-- Line 134, `InterlockedExchangePointer((PVOID*)once, (PVOID*)ONCE_STATE_DONE)`. -/
  | store
  /-- Lines 137-140, `while (state == ONCE_STATE_EXECUTING_CLOSURE) { ::Sleep(0); state = *once; }`. -/
  | poll
  /-- The activation has returned. -/
  | returned
deriving DecidableEq, Repr

/-- One activation of `InitOnce`: its program counter and its local variable `state`. -/
structure OnceThread where
  /-- Where the activation stands. -/
  pc : OncePc
  /-- The local `state` (declared at line 122; its value before that is never read). -/
  state : OnceType
deriving DecidableEq, Repr

/-- An activation that has just been entered. -/
def OnceThread.enter : OnceThread := ⟨OncePc.check, 0⟩

/-- One statement of `InitOnce(once, initializer)` executed by the activation `t`
on the memory `m`.  The initializer is a function of the memory other than the once word:
the four bytes behind the word and the rest.

Line 134 casts `once`, an `int*`, to `PVOID*`, so `InterlockedExchangePointer` stores the
pointer value `(PVOID)ONCE_STATE_DONE`, which is `2`, over `sizeof(PVOID)` bytes from the
address of the word, low bytes first.  The first four bytes are the word, which becomes
`2`; with eight-byte pointers the other four are the bytes behind the word, which become
`0`. -/
def InitOnce.step {σ : Type} (build : Build) (initializer : Int × σ → Int × σ)
    (m : OnceMem σ) (t : OnceThread) : OnceMem σ × OnceThread :=
  match t.pc with
  | OncePc.check =>
      if m.once ≠ ONCE_STATE_DONE then (m, { t with pc := OncePc.load })
      else (m, { t with pc := OncePc.returned })
  | OncePc.load =>
      let state := m.once
      if state = ONCE_STATE_DONE then (m, ⟨OncePc.returned, state⟩)
      else (m, ⟨OncePc.cas, state⟩)
  | OncePc.cas =>
      let r := InterlockedCompareExchange m.once ONCE_STATE_UNINITIALIZED
        ONCE_STATE_EXECUTING_CLOSURE
      let state := r.2
      if state = ONCE_STATE_UNINITIALIZED then ({ m with once := r.1 }, ⟨OncePc.call, state⟩)
      else ({ m with once := r.1 }, ⟨OncePc.poll, state⟩)
  | OncePc.call => ({ m with calls := m.calls + 1 }, { t with pc := OncePc.running })
  | OncePc.running =>
      ({ m with behind := (initializer (m.behind, m.user)).1,
                user := (initializer (m.behind, m.user)).2,
                finished := m.finished + 1 },
        { t with pc := OncePc.store })
  | OncePc.store =>
      ({ m with once := (InterlockedExchangePointer m.once ONCE_STATE_DONE).1,
                behind := if build.sizeofPVOID = 8 then 0 else m.behind },
        { t with pc := OncePc.returned })
  | OncePc.poll =>
      if t.state = ONCE_STATE_EXECUTING_CLOSURE then (m, { t with state := m.once })
      else (m, { t with pc := OncePc.returned })
  | OncePc.returned => (m, t)

/-- Runs the activation `t` with no other thread active, for at most `fuel` statements;
`some m` is the memory at the moment the activation returns. -/
def InitOnce.run {σ : Type} (build : Build) (initializer : Int × σ → Int × σ) :
    Nat → OnceMem σ → OnceThread → Option (OnceMem σ)
  | 0, _, _ => none
  | fuel + 1, m, t =>
      if t.pc = OncePc.returned then some m
      else InitOnce.run build initializer fuel (InitOnce.step build initializer m t).1
        (InitOnce.step build initializer m t).2

/-- A whole call `InitOnce(once, initializer)` during which no other thread runs.
Ten statements are more than any such call executes. -/
def InitOnce {σ : Type} (build : Build) (initializer : Int × σ → Int × σ) (m : OnceMem σ) :
    Option (OnceMem σ) :=
  InitOnce.run build initializer 10 m OnceThread.enter

/-- The memory after `n` consecutive, non-overlapping calls of `InitOnce`. -/
def InitOnce.consecutive {σ : Type} (build : Build) (initializer : Int × σ → Int × σ) :
    Nat → OnceMem σ → Option (OnceMem σ)
  | 0, m => some m
  | n + 1, m =>
      (InitOnce build initializer m).bind (InitOnce.consecutive build initializer n)

/-- Any number of threads inside `InitOnce` on the same once word. -/
structure OnceSys (σ : Type) where
  /-- The shared memory. -/
  mem : OnceMem σ
  /-- The activations, one per thread. -/
  threads : List OnceThread
deriving DecidableEq, Repr

/-- The system in which `n` threads have just entered `InitOnce` on a word holding
`LEVELDB_ONCE_INIT`; `b` is what the four bytes behind the word hold and `u` the rest of
the state. -/
def OnceSys.init {σ : Type} (b : Int) (u : σ) (n : Nat) : OnceSys σ :=
  ⟨⟨LEVELDB_ONCE_INIT, b, u, 0, 0⟩, List.replicate n OnceThread.enter⟩

/-- Thread `i` executes its next statement (nothing happens when there is no thread `i`). -/
def OnceSys.step {σ : Type} (build : Build) (initializer : Int × σ → Int × σ)
    (s : OnceSys σ) (i : Nat) : OnceSys σ :=
  match s.threads.get? i with
  | none => s
  | some t =>
      ⟨(InitOnce.step build initializer s.mem t).1,
        s.threads.set i (InitOnce.step build initializer s.mem t).2⟩

/-- Runs an interleaving, given as the list of the threads that move, in order. -/
def OnceSys.run {σ : Type} (build : Build) (initializer : Int × σ → Int × σ)
    (s : OnceSys σ) (sched : List Nat) : OnceSys σ :=
  sched.foldl (OnceSys.step build initializer) s

/-- What holds of one activation in a system of overlapping calls: a call that has
returned, or that has reached the waiting loop, has seen the word Done; a call inside the
initializer has invoked it, and a call about to store Done has seen it return. -/
def OnceThread.Inv {σ : Type} (m : OnceMem σ) (t : OnceThread) : Prop :=
  (t.pc = OncePc.returned → m.once = ONCE_STATE_DONE) ∧
  (t.pc = OncePc.poll → t.state = ONCE_STATE_DONE ∧ m.once = ONCE_STATE_DONE) ∧
  (t.pc = OncePc.running ∨ t.pc = OncePc.store → 1 ≤ m.calls) ∧
  (t.pc = OncePc.store → 1 ≤ m.finished)

/-- What holds of the memory in a system of overlapping calls on a word that started as
`LEVELDB_ONCE_INIT`: the word is never Executing, and a word that is Done witnesses an
invocation of the initializer that has returned. -/
def OnceMem.Inv {σ : Type} (m : OnceMem σ) : Prop :=
  (m.once = ONCE_STATE_UNINITIALIZED ∨ m.once = ONCE_STATE_DONE) ∧
  (m.once = ONCE_STATE_DONE → 1 ≤ m.calls ∧ 1 ≤ m.finished)

/-- The invariant of any number of overlapping `InitOnce` calls on a word that started as
`LEVELDB_ONCE_INIT`. -/
def OnceSys.Inv {σ : Type} (s : OnceSys σ) : Prop :=
  s.mem.Inv ∧ ∀ t ∈ s.threads, t.Inv s.mem

/-- The statements that separate an activation from its return when the waiting loop, if
reached, is left at once. -/
def OncePc.togo : OncePc → Nat
  | OncePc.check => 6
  | OncePc.load => 5
  | OncePc.cas => 4
  | OncePc.call => 3
  | OncePc.running => 2
  | OncePc.store => 1
  | OncePc.poll => 1
  | OncePc.returned => 0

end port

/-! ## `WinEnv`: `Schedule` and `BGThread` (env_win.cc 178-180, 429-500) -/

/-- The record `struct BGItem { void* arg; void (*function)(void*); };`. -/
structure BGItem where
  /-- The field `void* arg`. -/
  arg : Nat
  /-- The field `void (*function)(void*)`. -/
  function : Nat
deriving DecidableEq, Repr

/-- The value-initialised `BGItem()`: both pointers null. -/
def BGItem.zero : BGItem := ⟨0, 0⟩

/-- Applies `f` to `q.back()`, as an assignment through `queue_.back()` does. -/
def modifyBack {α : Type} (f : α → α) : List α → List α
  | [] => []
  | [x] => [f x]
  | x :: y :: r => x :: modifyBack f (y :: r)

/-- The member functions of `port::CondVar`, as called on `bgsignal_`. -/
inductive CvCall
  /-- The call `Wait()`. -/
  | Wait
  /-- The call `Signal()`. -/
  | Signal
  /-- The call `SignalAll()`. -/
  | SignalAll
deriving DecidableEq, Repr

/-- Who holds `mu_`. -/
inductive MuOwner
  /-- A thread inside `Schedule`. -/
  | caller
  /-- The background thread. -/
  | bgthread
deriving DecidableEq, Repr

/-- Program counter of the background thread; the numbers are source lines of env_win.cc
(port_chromium.cc for the three values inside `bgsignal_.Wait()`). -/
inductive BGPc
  /-- Line 468, `mu_.Lock()`. -/
  | lock
  /-- Line 469, the test `queue_.empty()` of the inner loop. -/
  | test
  /-- Line 470, `bgsignal_.Wait()` from its entry to `mu_->Unlock()`
  (port_chromium.cc 60-66). -/
  | wait
  /-- Inside `Wait()`: blocked in `WaitForSingleObject(sem1_)`, then
  `ReleaseSemaphore(sem2_)` (port_chromium.cc 69-70). -/
  | parked
  /-- Inside `Wait()`: `mu_->Lock()` (port_chromium.cc 71). -/
  | relock
  /-- Lines 473-474, `function = queue_.front().function; arg = queue_.front().arg`. -/
  | front
  /-- Line 475, `queue_.pop_front()`. -/
  | pop
  /-- Line 477, `mu_.Unlock()`. -/
  | unlock
  /-- Line 478, `(*function)(arg)`. -/
  | invoke
  /-- Reached by `front()` or `pop_front()` on an empty deque, whose behaviour C++ leaves
  undefined. -/
  | undefined
deriving DecidableEq, Repr

/-- The background thread: its program counter and the locals of `BGThread`. -/
structure BGWorker where
  /-- Where the thread stands. -/
  pc : BGPc
  /-- The local `function`. -/
  function : Nat
  /-- The local `arg`. -/
  arg : Nat
deriving DecidableEq, Repr

/-- A thread that has just been created by `StartThread`, about to run `BGThread()`. -/
def BGWorker.start : BGWorker := ⟨BGPc.lock, 0, 0⟩

/-- The scheduler part of a `WinEnv`, the thread it starts, and history variables. -/
structure WinEnv where
  /-- The member `bool started_bgthread_`. -/
  started_bgthread_ : Bool
  /-- The member `BGQueue queue_`, front first. -/
  queue_ : List BGItem
  /-- The member `mu_`: its holder, if any. -/
  mu_ : Option MuOwner
  /-- The counter `waiting_` of the member `bgsignal_`. -/
  waiting_ : Int
  /-- The thread created by `StartThread(&WinEnv::BGThreadWrapper, this)`, once created. -/
  bgthread : Option BGWorker
  /-- History: the items passed to `Schedule`, in call order. -/
  scheduled : List BGItem
  /-- History: the items the background thread has removed with `pop_front`, in order. -/
  taken : List BGItem
  /-- History: the invocations `(*function)(arg)` made, in order, each with the holder of
  `mu_` at that moment. -/
  invoked : List (BGItem × Option MuOwner)
  /-- History: the calls made on `bgsignal_`, in order. -/
  bgsignal_calls : List CvCall
  /-- History: the number of calls of `StartThread`. -/
  threads_started : Nat
deriving DecidableEq, Repr

/-- The constructor `WinEnv() : bgsignal_(&mu_), started_bgthread_(false) { }`; the deque
is default-constructed empty, the mutex free, `waiting_(0)`. -/
def WinEnv.new : WinEnv :=
  { started_bgthread_ := false, queue_ := [], mu_ := none, waiting_ := 0, bgthread := none,
    scheduled := [], taken := [], invoked := [], bgsignal_calls := [], threads_started := 0 }

/-- The call `StartThread(&WinEnv::BGThreadWrapper, this)` (env_win.cc 493-500):
`_beginthread` creates a thread that runs `BGThread()`.  The model holds one background
thread; `Schedule` guards the call with `started_bgthread_`. -/
def WinEnv.StartThread (e : WinEnv) : WinEnv :=
  { e with bgthread := some BGWorker.start, threads_started := e.threads_started + 1 }

/-- The effect of the handshake of `Signal()` on the background thread: a thread parked in
`Wait()` passes `WaitForSingleObject(sem1_)` and `ReleaseSemaphore(sem2_)`
(port_chromium.cc 69-70) and stands before `mu_->Lock()`. -/
def BGWorker.wake (w : BGWorker) : BGWorker :=
  if w.pc = BGPc.parked then { w with pc := BGPc.relock } else w

/-- The call `bgsignal_.Signal()` (port_chromium.cc 74-84) made by a thread that holds
`mu_`.  When `waiting_ > 0` the counter is decremented, `sem1_` is released and the caller
waits for `sem2_`, which the parked thread releases.  When `waiting_` is `0` nothing
happens. -/
def WinEnv.Signal (e : WinEnv) : WinEnv :=
  let e1 := { e with bgsignal_calls := e.bgsignal_calls ++ [CvCall.Signal] }
  if e1.waiting_ > 0 then
    { e1 with waiting_ := e1.waiting_ - 1, bgthread := e1.bgthread.map BGWorker.wake }
  else e1

/-- The body of `WinEnv::Schedule(function, arg)` (env_win.cc 442-463), statement by
statement. -/
def WinEnv.Schedule (e : WinEnv) (function arg : Nat) : WinEnv :=
  -- mu_.Lock();
  let e1 := { e with mu_ := some MuOwner.caller,
                     scheduled := e.scheduled ++ [⟨arg, function⟩] }
  -- if (!started_bgthread_) { started_bgthread_ = true; StartThread(...); }
  let e2 := if !e1.started_bgthread_ then
      WinEnv.StartThread { e1 with started_bgthread_ := true }
    else e1
  -- if (queue_.empty()) { bgsignal_.Signal(); }
  let e3 := if e2.queue_.isEmpty then WinEnv.Signal e2 else e2
  -- queue_.push_back(BGItem());
  let e4 := { e3 with queue_ := e3.queue_ ++ [BGItem.zero] }
  -- queue_.back().function = function;
  let e5 := { e4 with queue_ := modifyBack (fun b => { b with function := function }) e4.queue_ }
  -- queue_.back().arg = arg;
  let e6 := { e5 with queue_ := modifyBack (fun b => { b with arg := arg }) e5.queue_ }
  -- mu_.Unlock();
  { e6 with mu_ := none }

/-- One statement of `WinEnv::BGThread()` (env_win.cc 465-480) executed by the background
thread; `none` when there is no such thread or it is blocked. -/
def WinEnv.BGThread_step (e : WinEnv) : Option WinEnv :=
  match e.bgthread with
  | none => none
  | some w =>
    match w.pc with
    | BGPc.lock =>
        if e.mu_ = none then
          some { e with mu_ := some MuOwner.bgthread, bgthread := some { w with pc := BGPc.test } }
        else none
    | BGPc.test =>
        if e.queue_.isEmpty then some { e with bgthread := some { w with pc := BGPc.wait } }
        else some { e with bgthread := some { w with pc := BGPc.front } }
    | BGPc.wait =>
        some { e with
          waiting_ := e.waiting_ + 1
          mu_ := none
          bgsignal_calls := e.bgsignal_calls ++ [CvCall.Wait]
          bgthread := some { w with pc := BGPc.parked } }
    | BGPc.parked => none
    | BGPc.relock =>
        if e.mu_ = none then
          some { e with mu_ := some MuOwner.bgthread, bgthread := some { w with pc := BGPc.test } }
        else none
    | BGPc.front =>
        match e.queue_.head? with
        | none => some { e with bgthread := some { w with pc := BGPc.undefined } }
        | some it =>
            some { e with
              bgthread := some { pc := BGPc.pop, function := it.function, arg := it.arg } }
    | BGPc.pop =>
        match e.queue_ with
        | [] => some { e with bgthread := some { w with pc := BGPc.undefined } }
        | it :: rest =>
            some { e with
              queue_ := rest
              taken := e.taken ++ [it]
              bgthread := some { w with pc := BGPc.unlock } }
    | BGPc.unlock =>
        some { e with mu_ := none, bgthread := some { w with pc := BGPc.invoke } }
    | BGPc.invoke =>
        some { e with
          invoked := e.invoked ++ [(⟨w.arg, w.function⟩, e.mu_)]
          bgthread := some { w with pc := BGPc.lock } }
    | BGPc.undefined => none

/-- What can happen next in a `WinEnv`. -/
inductive EnvAction
  /-- Some thread calls `Schedule(function, arg)`; the call runs from `mu_.Lock()` to
  `mu_.Unlock()`.  While it holds `mu_` the background thread can only pass lines 69-70
  of `Wait()`, which `WinEnv.Signal` accounts for. -/
  | schedule (function arg : Nat)
  /-- The background thread executes its next statement. -/
  | bgstep
deriving DecidableEq, Repr

/-- One action; `none` when the action cannot take place: `Schedule` needs `mu_` free. -/
def WinEnv.step (e : WinEnv) : EnvAction → Option WinEnv
  | EnvAction.schedule function arg =>
      if e.mu_ = none then some (e.Schedule function arg) else none
  | EnvAction.bgstep => e.BGThread_step

/-- Runs a list of actions; `none` when one of them cannot take place. -/
def WinEnv.run (e : WinEnv) : List EnvAction → Option WinEnv
  | [] => some e
  | a :: as => (e.step a).bind fun e1 => e1.run as

/-- The states a fresh `WinEnv` can reach. -/
def WinEnv.Reachable (e : WinEnv) : Prop :=
  ∃ as : List EnvAction, WinEnv.new.run as = some e

/-- The statements of `BGThread` at which the background thread holds `mu_`: from after
`mu_.Lock()` to `mu_.Unlock()`, except while it is inside `bgsignal_.Wait()`. -/
def BGPc.holdsMu : BGPc → Bool
  | BGPc.test => true
  | BGPc.wait => true
  | BGPc.front => true
  | BGPc.pop => true
  | BGPc.unlock => true
  | _ => false

/-- The item the background thread has removed from the queue and not yet invoked. -/
def WinEnv.inHand (e : WinEnv) : List BGItem :=
  match e.bgthread with
  | some w => if w.pc = BGPc.unlock ∨ w.pc = BGPc.invoke then [⟨w.arg, w.function⟩] else []
  | none => []

/-- The invariant of the scheduler, between any two actions. -/
structure WinEnv.Inv (e : WinEnv) : Prop where
  /-- What was taken, then what is queued, is what was scheduled. -/
  fifo : e.taken ++ e.queue_ = e.scheduled
  /-- The flag is set exactly when the background thread exists. -/
  started : e.started_bgthread_ = e.bgthread.isSome
  /-- One thread was started if the flag is set, none otherwise. -/
  count : e.threads_started = if e.started_bgthread_ then 1 else 0
  /-- The mutex is held by the background thread at the statements of `BGPc.holdsMu`, and is
  free otherwise. -/
  mu : e.mu_ = match e.bgthread with
    | some w => if w.pc.holdsMu then some MuOwner.bgthread else none
    | none => none
  /-- The counter of `bgsignal_` is `1` while the background thread is parked, else `0`. -/
  waiting : e.waiting_ = match e.bgthread with
    | some w => if w.pc = BGPc.parked then 1 else 0
    | none => 0
  /-- At `front()` the queue is not empty. -/
  front : ∀ w, e.bgthread = some w → w.pc = BGPc.front → e.queue_ ≠ []
  /-- At `pop_front()` the front of the queue is the item just read. -/
  pop : ∀ w, e.bgthread = some w → w.pc = BGPc.pop →
    e.queue_.head? = some ⟨w.arg, w.function⟩
  /-- No undefined behaviour has occurred. -/
  defined : ∀ w, e.bgthread = some w → w.pc ≠ BGPc.undefined
  /-- The invoked items, then the one in hand, are the taken items. -/
  pending : e.invoked.map Prod.fst ++ e.inHand = e.taken
  /-- Each invocation was made with `mu_` free. -/
  invoked_free : ∀ x ∈ e.invoked, x.2 = none

/-- Whether an action is a `Schedule` call. -/
def EnvAction.isSchedule : EnvAction → Bool
  | EnvAction.schedule _ _ => true
  | EnvAction.bgstep => false

/-- A run: a task is scheduled and executed, the thread finds the queue empty and parks
in `Wait()`, a second task is scheduled, and the thread re-acquires `mu_`. -/
def WinEnv.sampleActions : List EnvAction :=
  [EnvAction.schedule 7 70, EnvAction.bgstep, EnvAction.bgstep, EnvAction.bgstep,
    EnvAction.bgstep, EnvAction.bgstep, EnvAction.bgstep, EnvAction.bgstep, EnvAction.bgstep,
    EnvAction.bgstep, EnvAction.schedule 8 80, EnvAction.bgstep]

/-- The state at the end of `WinEnv.sampleActions`. -/
def WinEnv.sample : WinEnv :=
  { started_bgthread_ := true
    queue_ := [⟨80, 8⟩]
    mu_ := some MuOwner.bgthread
    waiting_ := 0
    bgthread := some ⟨BGPc.test, 7, 70⟩
    scheduled := [⟨70, 7⟩, ⟨80, 8⟩]
    taken := [⟨70, 7⟩]
    invoked := [(⟨70, 7⟩, none)]
    bgsignal_calls := [CvCall.Signal, CvCall.Wait, CvCall.Signal]
    threads_started := 1 }

/-- A run: two tasks are scheduled and the thread takes the first one. -/
def WinEnv.atInvokeActions : List EnvAction :=
  [EnvAction.schedule 7 70, EnvAction.schedule 8 80, EnvAction.bgstep, EnvAction.bgstep,
    EnvAction.bgstep, EnvAction.bgstep, EnvAction.bgstep]

/-- The state at the end of `WinEnv.atInvokeActions`: the thread is about to invoke the
first task. -/
def WinEnv.atInvoke : WinEnv :=
  { started_bgthread_ := true
    queue_ := [⟨80, 8⟩]
    mu_ := none
    waiting_ := 0
    bgthread := some ⟨BGPc.invoke, 7, 70⟩
    scheduled := [⟨70, 7⟩, ⟨80, 8⟩]
    taken := [⟨70, 7⟩]
    invoked := []
    bgsignal_calls := [CvCall.Signal]
    threads_started := 1 }

namespace port

/-! ## `CondVar::SignalAll` (port_chromium.h 49-69, port_chromium.cc 44-51, 86-96) -/

/-- Win32 `ReleaseSemaphore(h, 1, NULL)` on a semaphore created with
`CreateSemaphore(NULL, 0, 10000, NULL)`: the count grows by one; when that would exceed the
maximum of 10000 the call fails and the count stays. -/
def ReleaseSemaphore (count : Nat) : Nat :=
  if count + 1 ≤ 10000 then count + 1 else count

/-- Win32 `WaitForSingleObject(h, INFINITE)` on a semaphore: when the count is positive the
call returns and the count drops by one; `none` when the caller stays blocked. -/
def WaitForSingleObject (count : Nat) : Option Nat :=
  if 0 < count then some (count - 1) else none

/-- The members of `class CondVar` that its protocol uses. -/
structure CondVar where
  /-- The member `long waiting_`. -/
  waiting_ : Int
  /-- The member `wait_mtx_`: `true` while some thread holds it. -/
  wait_mtx_ : Bool
  /-- The count of the semaphore `sem1_`. -/
  sem1_ : Nat
  /-- The count of the semaphore `sem2_`. -/
  sem2_ : Nat
deriving DecidableEq, Repr

/-- The constructor `CondVar(Mutex* mu)`: `waiting_(0)`, a fresh `wait_mtx_`, two
semaphores of initial count `0`. -/
def CondVar.new : CondVar := ⟨0, false, 0, 0⟩

/-- The operations a member function of `CondVar` performs on the private mutex and on
the semaphores. -/
inductive CvOp
  /-- The call `wait_mtx_->Lock()`. -/
  | waitMtxLock
  /-- The call `wait_mtx_->Unlock()`. -/
  | waitMtxUnlock
  /-- The call `::ReleaseSemaphore(sem1_, 1, NULL)`. -/
  | sem1Release
  /-- A completed `::WaitForSingleObject(sem1_, INFINITE)`. -/
  | sem1Wait
  /-- The call `::ReleaseSemaphore(sem2_, 1, NULL)`. -/
  | sem2Release
  /-- A completed `::WaitForSingleObject(sem2_, INFINITE)`. -/
  | sem2Wait
deriving DecidableEq, Repr

/-- Program counter of one activation of `CondVar::SignalAll`; the numbers are source
lines of port_chromium.cc. -/
inductive SignalAllPc
  /-- Line 87, `wait_mtx_->Lock()`. -/
  | lock
  /-- Line 88, `long i = 0`. -/
  | forInit
  /-- Line 88, the test `i < waiting_`. -/
  | forTest
  /-- Line 89, `::ReleaseSemaphore(sem1_, 1, NULL)`. -/
  | release
  /-- Line 90, the test `waiting_ > 0`. -/
  | whileTest
  /-- Line 91, `--waiting_`. -/
  | dec
  /-- Line 92, `::WaitForSingleObject(sem2_, INFINITE)`. -/
  | waitSem2
  /-- Line 88, `++i`. -/
  | forInc
  /-- Line 95, `wait_mtx_->Unlock()`. -/
  | unlock
  /-- The activation has returned. -/
  | returned
deriving DecidableEq, Repr

/-- One activation of `SignalAll`: program counter, the local `i`, and the history of the
operations it has performed. -/
structure SignalAllThread where
  /-- Where the activation stands. -/
  pc : SignalAllPc
  /-- The loop variable `long i`. -/
  i : Int
  /-- History: the mutex and semaphore operations performed so far, in order. -/
  ops : List CvOp
deriving DecidableEq, Repr

/-- An activation that has just been entered. -/
def SignalAllThread.enter : SignalAllThread := ⟨SignalAllPc.lock, 0, []⟩

/-- One statement of `CondVar::SignalAll()` executed by the activation `t`; `none` when the
activation is blocked (on `wait_mtx_` or on `sem2_`) or has returned. -/
def CondVar.SignalAll_step (cv : CondVar) (t : SignalAllThread) :
    Option (CondVar × SignalAllThread) :=
  match t.pc with
  | SignalAllPc.lock =>
      if cv.wait_mtx_ then none
      else some ({ cv with wait_mtx_ := true },
        { t with pc := SignalAllPc.forInit, ops := t.ops ++ [CvOp.waitMtxLock] })
  | SignalAllPc.forInit => some (cv, { t with pc := SignalAllPc.forTest, i := 0 })
  | SignalAllPc.forTest =>
      if t.i < cv.waiting_ then some (cv, { t with pc := SignalAllPc.release })
      else some (cv, { t with pc := SignalAllPc.unlock })
  | SignalAllPc.release =>
      some ({ cv with sem1_ := ReleaseSemaphore cv.sem1_ },
        { t with pc := SignalAllPc.whileTest, ops := t.ops ++ [CvOp.sem1Release] })
  | SignalAllPc.whileTest =>
      if cv.waiting_ > 0 then some (cv, { t with pc := SignalAllPc.dec })
      else some (cv, { t with pc := SignalAllPc.forInc })
  | SignalAllPc.dec =>
      some ({ cv with waiting_ := cv.waiting_ - 1 }, { t with pc := SignalAllPc.waitSem2 })
  | SignalAllPc.waitSem2 =>
      match WaitForSingleObject cv.sem2_ with
      | none => none
      | some c =>
          some ({ cv with sem2_ := c },
            { t with pc := SignalAllPc.whileTest, ops := t.ops ++ [CvOp.sem2Wait] })
  | SignalAllPc.forInc => some (cv, { t with pc := SignalAllPc.forTest, i := t.i + 1 })
  | SignalAllPc.unlock =>
      some ({ cv with wait_mtx_ := false },
        { t with pc := SignalAllPc.returned, ops := t.ops ++ [CvOp.waitMtxUnlock] })
  | SignalAllPc.returned => none

/-- A `SignalAll` call together with the threads that were blocked in `Wait()` when it
began.  No thread enters `Wait()` during the call. -/
structure SignalAllSys where
  /-- The condition variable. -/
  cv : CondVar
  /-- The activation of `SignalAll`. -/
  t : SignalAllThread
  /-- The number of waiters blocked in `WaitForSingleObject(sem1_)` (line 69). -/
  parked : Nat
  /-- The number of waiters past line 69 that have not yet executed line 70. -/
  woken : Nat
  /-- The number of waiters that have executed `ReleaseSemaphore(sem2_)` (line 70): they
  have left the handshake. -/
  released : Nat
deriving DecidableEq, Repr

/-- What can happen next during a `SignalAll` call. -/
inductive SignalAllAction
  /-- The signalling thread executes its next statement. -/
  | signaller
  /-- A parked waiter completes `WaitForSingleObject(sem1_)` (line 69). -/
  | waiterWake
  /-- A woken waiter executes `ReleaseSemaphore(sem2_, 1, NULL)` (line 70). -/
  | waiterAck
deriving DecidableEq, Repr

/-- One action; `none` when it cannot take place. -/
def SignalAllSys.step (s : SignalAllSys) : SignalAllAction → Option SignalAllSys
  | SignalAllAction.signaller =>
      match s.cv.SignalAll_step s.t with
      | none => none
      | some r => some { s with cv := r.1, t := r.2 }
  | SignalAllAction.waiterWake =>
      if 0 < s.parked then
        match WaitForSingleObject s.cv.sem1_ with
        | none => none
        | some c =>
            some { s with cv := { s.cv with sem1_ := c }, parked := s.parked - 1,
                          woken := s.woken + 1 }
      else none
  | SignalAllAction.waiterAck =>
      if 0 < s.woken then
        some { s with cv := { s.cv with sem2_ := ReleaseSemaphore s.cv.sem2_ },
                      woken := s.woken - 1, released := s.released + 1 }
      else none

/-- Runs a list of actions; `none` when one of them cannot take place. -/
def SignalAllSys.run (s : SignalAllSys) : List SignalAllAction → Option SignalAllSys
  | [] => some s
  | a :: as => (s.step a).bind fun s1 => s1.run as

/-- The state in which `SignalAll` is entered: the counter is `w`, `wait_mtx_` is free,
the semaphores hold `c1` and `c2`, and `parked` waiters are blocked on `sem1_`. -/
def SignalAllSys.enter (w : Int) (c1 c2 parked : Nat) : SignalAllSys :=
  ⟨⟨w, false, c1, c2⟩, SignalAllThread.enter, parked, 0, 0⟩

/-- The state in which `SignalAll` is entered with `w` threads blocked in `Wait()` on a
condition variable whose semaphores are at their initial count `0`. -/
def SignalAllSys.blocked (w : Nat) : SignalAllSys :=
  SignalAllSys.enter w 0 0 w

/-- The run of `SignalAll` with two parked waiters: the signaller goes up to its first
wait on `sem2_`, a waiter wakes and acknowledges, the signaller goes on to its second wait
on `sem2_`. -/
def SignalAllSys.stuckActions : List SignalAllAction :=
  [SignalAllAction.signaller, SignalAllAction.signaller, SignalAllAction.signaller,
    SignalAllAction.signaller, SignalAllAction.signaller, SignalAllAction.signaller,
    SignalAllAction.waiterWake, SignalAllAction.waiterAck,
    SignalAllAction.signaller, SignalAllAction.signaller, SignalAllAction.signaller]

/-- The state at the end of `SignalAllSys.stuckActions`. -/
def SignalAllSys.stuck : SignalAllSys :=
  { cv := ⟨0, true, 0, 0⟩
    t := ⟨SignalAllPc.waitSem2, 0, [CvOp.waitMtxLock, CvOp.sem1Release, CvOp.sem2Wait]⟩
    parked := 1
    woken := 0
    released := 1 }

/-- The complete run of `SignalAll` with one parked waiter. -/
def SignalAllSys.oneWaiterActions : List SignalAllAction :=
  [SignalAllAction.signaller, SignalAllAction.signaller, SignalAllAction.signaller,
    SignalAllAction.signaller, SignalAllAction.signaller, SignalAllAction.signaller,
    SignalAllAction.waiterWake, SignalAllAction.waiterAck,
    SignalAllAction.signaller, SignalAllAction.signaller, SignalAllAction.signaller,
    SignalAllAction.signaller, SignalAllAction.signaller]

/-- The state at the end of `SignalAllSys.oneWaiterActions`. -/
def SignalAllSys.oneWaiterEnd : SignalAllSys :=
  { cv := ⟨0, false, 0, 0⟩
    t := ⟨SignalAllPc.returned, 1,
      [CvOp.waitMtxLock, CvOp.sem1Release, CvOp.sem2Wait, CvOp.waitMtxUnlock]⟩
    parked := 0
    woken := 0
    released := 1 }

/-- The invariant of a `SignalAll` call entered with a non-negative counter: the counter
stays non-negative, `sem1_` is released at most once, and what holds at each statement. -/
def SignalAllSys.Inv (s : SignalAllSys) : Prop :=
  0 ≤ s.cv.waiting_ ∧ s.t.ops.count CvOp.sem1Release ≤ 1 ∧
  match s.t.pc with
  | SignalAllPc.lock => s.t.ops.count CvOp.sem1Release = 0
  | SignalAllPc.forInit => s.cv.wait_mtx_ = true ∧ s.t.ops.count CvOp.sem1Release = 0
  | SignalAllPc.forTest =>
      s.cv.wait_mtx_ = true ∧
        ((s.t.i = 0 ∧ s.t.ops.count CvOp.sem1Release = 0) ∨ (s.t.i = 1 ∧ s.cv.waiting_ = 0))
  | SignalAllPc.release =>
      s.cv.wait_mtx_ = true ∧ s.t.i = 0 ∧ s.t.ops.count CvOp.sem1Release = 0
  | SignalAllPc.whileTest => s.cv.wait_mtx_ = true ∧ s.t.i = 0
  | SignalAllPc.dec => s.cv.wait_mtx_ = true ∧ s.t.i = 0 ∧ 0 < s.cv.waiting_
  | SignalAllPc.waitSem2 => s.cv.wait_mtx_ = true ∧ s.t.i = 0
  | SignalAllPc.forInc => s.cv.wait_mtx_ = true ∧ s.t.i = 0 ∧ s.cv.waiting_ = 0
  | SignalAllPc.unlock => s.cv.wait_mtx_ = true ∧ s.cv.waiting_ = 0
  | SignalAllPc.returned => s.cv.wait_mtx_ = false ∧ s.cv.waiting_ = 0

/-- The invariant of a `SignalAll` call entered with `n ≥ 2` threads blocked in `Wait()`
and both semaphores at `0`: every release of `sem1_` is still in the semaphore or has let
one waiter through, every release of `sem2_` is still in the semaphore or has been
consumed by `SignalAll`, and the call never gets past its inner loop. -/
def SignalAllSys.BlockedInv (n : Nat) (s : SignalAllSys) : Prop :=
  s.cv.sem1_ + s.woken + s.released = s.t.ops.count CvOp.sem1Release ∧
  s.cv.sem2_ + s.t.ops.count CvOp.sem2Wait = s.released ∧
  s.t.ops.count CvOp.sem1Release ≤ 1 ∧
  s.parked + s.woken + s.released = n ∧
  match s.t.pc with
  | SignalAllPc.lock => s.t.ops.count CvOp.sem1Release = 0 ∧ s.cv.waiting_ = n
  | SignalAllPc.forInit => s.t.ops.count CvOp.sem1Release = 0 ∧ s.cv.waiting_ = n
  | SignalAllPc.forTest =>
      s.t.ops.count CvOp.sem1Release = 0 ∧ s.cv.waiting_ = n ∧ s.t.i = 0
  | SignalAllPc.release => s.t.ops.count CvOp.sem1Release = 0 ∧ s.cv.waiting_ = n
  | SignalAllPc.whileTest =>
      s.t.ops.count CvOp.sem1Release = 1 ∧
        s.cv.waiting_ = (n : Int) - (s.t.ops.count CvOp.sem2Wait : Nat)
  | SignalAllPc.dec =>
      s.t.ops.count CvOp.sem1Release = 1 ∧
        s.cv.waiting_ = (n : Int) - (s.t.ops.count CvOp.sem2Wait : Nat)
  | SignalAllPc.waitSem2 =>
      s.t.ops.count CvOp.sem1Release = 1 ∧
        s.cv.waiting_ = (n : Int) - (s.t.ops.count CvOp.sem2Wait : Nat) - 1
  | SignalAllPc.forInc => False
  | SignalAllPc.unlock => False
  | SignalAllPc.returned => False

end port

/-- A run: two tasks are scheduled and the thread reads the first one. -/
def WinEnv.atPopActions : List EnvAction :=
  [EnvAction.schedule 7 70, EnvAction.schedule 8 80, EnvAction.bgstep, EnvAction.bgstep,
    EnvAction.bgstep]

/-- The state at the end of `WinEnv.atPopActions`: the thread is about to execute
`queue_.pop_front()`. -/
def WinEnv.atPop : WinEnv :=
  { started_bgthread_ := true
    queue_ := [⟨70, 7⟩, ⟨80, 8⟩]
    mu_ := some MuOwner.bgthread
    waiting_ := 0
    bgthread := some ⟨BGPc.pop, 7, 70⟩
    scheduled := [⟨70, 7⟩, ⟨80, 8⟩]
    taken := []
    invoked := []
    bgsignal_calls := [CvCall.Signal]
    threads_started := 1 }

namespace port

/-! ## `AtomicPointer` (port_chromium.h 71-83, port_chromium.cc 98-118) -/

/-- The class `AtomicPointer`: its one member `void* rep_`. -/
structure AtomicPointer where
  /-- The member `void* rep_`. -/
  rep_ : Nat
deriving DecidableEq, Repr

/-- The constructor `AtomicPointer() : rep_(nullptr) {}`. -/
def AtomicPointer.default : AtomicPointer := ⟨0⟩

/-- The member `void Release_Store(void* v)`: `InterlockedExchangePointer(&rep_, v)`. -/
def AtomicPointer.Release_Store (a : AtomicPointer) (v : Nat) : AtomicPointer :=
  { a with rep_ := (InterlockedExchangePointer a.rep_ v).1 }

/-- The constructor `explicit AtomicPointer(void* p)`: `Release_Store(p)` on the new
object, whose `rep_` has no initializer; `junk` is what the storage held. -/
def AtomicPointer.mk_from (junk p : Nat) : AtomicPointer :=
  (AtomicPointer.mk junk).Release_Store p

/-- The member `void* Acquire_Load() const`: `void* p = nullptr;
InterlockedExchangePointer(&p, rep_); return p;`.  The result is the cell after the call
and the value returned. -/
def AtomicPointer.Acquire_Load (a : AtomicPointer) : AtomicPointer × Nat :=
  let p : Nat := 0
  let p1 := (InterlockedExchangePointer p a.rep_).1
  (a, p1)

/-- The member `void* NoBarrier_Load() const`: `return rep_;`. -/
def AtomicPointer.NoBarrier_Load (a : AtomicPointer) : AtomicPointer × Nat :=
  (a, a.rep_)

/-- The member `void NoBarrier_Store(void* v)`: `rep_ = v;`. -/
def AtomicPointer.NoBarrier_Store (a : AtomicPointer) (v : Nat) : AtomicPointer :=
  { a with rep_ := v }

end port

/-! ## `WinEnv::NowMicros` (env_win.cc 399-409) -/

/-- The two function-local statics of `NowMicros`. -/
structure NowMicrosState where
  /-- The variable `static uint64_t rollover_ms`. -/
  rollover_ms : Nat
  /-- The variable `static DWORD last_seen_now`. -/
  last_seen_now : Nat
deriving DecidableEq, Repr

/-- The initial values `rollover_ms = 0`, `last_seen_now = 0`. -/
def NowMicrosState.init : NowMicrosState := ⟨0, 0⟩

/-- One call of `NowMicros()` in which `timeGetTime()` returns `now` (a `DWORD`): the
statics after the call and the value returned.  The sums and the product are `uint64_t`
operations, hence taken modulo `2^64`. -/
def NowMicros (s : NowMicrosState) (now : Nat) : NowMicrosState × Nat :=
  let rollover_ms :=
    if now < s.last_seen_now then (s.rollover_ms + 0x100000000) % 2 ^ 64 else s.rollover_ms
  (⟨rollover_ms, now⟩, ((now + rollover_ms) % 2 ^ 64 * 1000) % 2 ^ 64)

/-- Successive calls of `NowMicros()` with the given readings of `timeGetTime()`: the
statics after the last call and the values returned, in order. -/
def NowMicros.calls (s : NowMicrosState) : List Nat → NowMicrosState × List Nat
  | [] => (s, [])
  | now :: rest =>
      ((NowMicros.calls (NowMicros s now).1 rest).1,
        (NowMicros s now).2 :: (NowMicros.calls (NowMicros s now).1 rest).2)

/-- The number of strict decreases between consecutive readings, the first reading being
compared with `last`. -/
def NowMicros.decreases (last : Nat) : List Nat → Nat
  | [] => 0
  | now :: rest => (if now < last then 1 else 0) + NowMicros.decreases now rest

/-- The reading `last_seen_now` holds after a sequence of readings that began with
`last`. -/
def NowMicros.lastSeen (last : Nat) : List Nat → Nat
  | [] => last
  | now :: rest => NowMicros.lastSeen now rest

namespace port

/-! ## `CondVar::Signal` (port_chromium.cc 74-84) -/

/-- Program counter of one activation of `CondVar::Signal`; the numbers are source lines
of port_chromium.cc. -/
inductive SignalPc
  /-- Line 75, `wait_mtx_->Lock()`. -/
  | lock
  /-- Line 76, the test `waiting_ > 0`. -/
  | test
  /-- Line 77, `--waiting_`. -/
  | dec
  /-- Line 80, `::ReleaseSemaphore(sem1_, 1, NULL)`. -/
  | release
  /-- Line 81, `::WaitForSingleObject(sem2_, INFINITE)`. -/
  | waitSem2
  /-- Line 83, `wait_mtx_->Unlock()`. -/
  | unlock
  /-- The activation has returned. -/
  | returned
deriving DecidableEq, Repr

/-- One activation of `Signal`: program counter and the history of the operations it has
performed. -/
structure SignalThread where
  /-- Where the activation stands. -/
  pc : SignalPc
  /-- History: the mutex and semaphore operations performed so far, in order. -/
  ops : List CvOp
deriving DecidableEq, Repr

/-- An activation that has just been entered. -/
def SignalThread.enter : SignalThread := ⟨SignalPc.lock, []⟩

/-- One statement of `CondVar::Signal()` executed by the activation `t`; `none` when the
activation is blocked (on `wait_mtx_` or on `sem2_`) or has returned. -/
def CondVar.Signal_step (cv : CondVar) (t : SignalThread) : Option (CondVar × SignalThread) :=
  match t.pc with
  | SignalPc.lock =>
      if cv.wait_mtx_ then none
      else some ({ cv with wait_mtx_ := true },
        { t with pc := SignalPc.test, ops := t.ops ++ [CvOp.waitMtxLock] })
  | SignalPc.test =>
      if cv.waiting_ > 0 then some (cv, { t with pc := SignalPc.dec })
      else some (cv, { t with pc := SignalPc.unlock })
  | SignalPc.dec =>
      some ({ cv with waiting_ := cv.waiting_ - 1 }, { t with pc := SignalPc.release })
  | SignalPc.release =>
      some ({ cv with sem1_ := ReleaseSemaphore cv.sem1_ },
        { t with pc := SignalPc.waitSem2, ops := t.ops ++ [CvOp.sem1Release] })
  | SignalPc.waitSem2 =>
      match WaitForSingleObject cv.sem2_ with
      | none => none
      | some c =>
          some ({ cv with sem2_ := c },
            { t with pc := SignalPc.unlock, ops := t.ops ++ [CvOp.sem2Wait] })
  | SignalPc.unlock =>
      some ({ cv with wait_mtx_ := false },
        { t with pc := SignalPc.returned, ops := t.ops ++ [CvOp.waitMtxUnlock] })
  | SignalPc.returned => none

/-- Runs an activation of `Signal` with no other thread active, for at most `fuel`
statements; `some` is the state at the moment the activation returns, `none` when it has
not returned (it is blocked, or the fuel is spent). -/
def CondVar.Signal_run : Nat → CondVar → SignalThread → Option (CondVar × SignalThread)
  | 0, _, _ => none
  | fuel + 1, cv, t =>
      if t.pc = SignalPc.returned then some (cv, t)
      else
        match cv.Signal_step t with
        | none => none
        | some r => CondVar.Signal_run fuel r.1 r.2

/-- A `Signal` call together with the threads that were blocked in `Wait()` when it
began.  No thread enters `Wait()` during the call. -/
structure SignalSys where
  /-- The condition variable. -/
  cv : CondVar
  /-- The activation of `Signal`. -/
  t : SignalThread
  /-- The number of waiters blocked in `WaitForSingleObject(sem1_)` (line 69). -/
  parked : Nat
  /-- The number of waiters past line 69 that have not yet executed line 70. -/
  woken : Nat
  /-- The number of waiters that have executed `ReleaseSemaphore(sem2_)` (line 70). -/
  released : Nat
deriving DecidableEq, Repr

/-- One action of a `Signal` call or of a waiter; `none` when it cannot take place. -/
def SignalSys.step (s : SignalSys) : SignalAllAction → Option SignalSys
  | SignalAllAction.signaller =>
      match s.cv.Signal_step s.t with
      | none => none
      | some r => some { s with cv := r.1, t := r.2 }
  | SignalAllAction.waiterWake =>
      if 0 < s.parked then
        match WaitForSingleObject s.cv.sem1_ with
        | none => none
        | some c =>
            some { s with cv := { s.cv with sem1_ := c }, parked := s.parked - 1,
                          woken := s.woken + 1 }
      else none
  | SignalAllAction.waiterAck =>
      if 0 < s.woken then
        some { s with cv := { s.cv with sem2_ := ReleaseSemaphore s.cv.sem2_ },
                      woken := s.woken - 1, released := s.released + 1 }
      else none

/-- Runs a list of actions; `none` when one of them cannot take place. -/
def SignalSys.run (s : SignalSys) : List SignalAllAction → Option SignalSys
  | [] => some s
  | a :: as => (s.step a).bind fun s1 => s1.run as

/-- The state in which `Signal` is entered: the counter is `w`, `wait_mtx_` is free, the
semaphores hold `c1` and `c2`, and `parked` waiters are blocked on `sem1_`. -/
def SignalSys.enter (w : Int) (c1 c2 parked : Nat) : SignalSys :=
  ⟨⟨w, false, c1, c2⟩, SignalThread.enter, parked, 0, 0⟩

/-- What holds at each statement of a `Signal` call entered with a counter `w > 0`: the
operations performed so far, the counter, and who holds `wait_mtx_`. -/
def SignalSys.InvPos (w : Int) (s : SignalSys) : Prop :=
  match s.t.pc with
  | SignalPc.lock => s.t.ops = [] ∧ s.cv.waiting_ = w
  | SignalPc.test => s.t.ops = [CvOp.waitMtxLock] ∧ s.cv.waiting_ = w ∧ s.cv.wait_mtx_ = true
  | SignalPc.dec => s.t.ops = [CvOp.waitMtxLock] ∧ s.cv.waiting_ = w ∧ s.cv.wait_mtx_ = true
  | SignalPc.release =>
      s.t.ops = [CvOp.waitMtxLock] ∧ s.cv.waiting_ = w - 1 ∧ s.cv.wait_mtx_ = true
  | SignalPc.waitSem2 =>
      s.t.ops = [CvOp.waitMtxLock, CvOp.sem1Release] ∧ s.cv.waiting_ = w - 1 ∧
        s.cv.wait_mtx_ = true
  | SignalPc.unlock =>
      s.t.ops = [CvOp.waitMtxLock, CvOp.sem1Release, CvOp.sem2Wait] ∧
        s.cv.waiting_ = w - 1 ∧ s.cv.wait_mtx_ = true
  | SignalPc.returned =>
      s.t.ops = [CvOp.waitMtxLock, CvOp.sem1Release, CvOp.sem2Wait, CvOp.waitMtxUnlock] ∧
        s.cv.waiting_ = w - 1 ∧ s.cv.wait_mtx_ = false

/-- What holds at each statement of a `Signal` call entered with the counter at `0`: the
operations performed so far, the counter, and that the handshake is never entered. -/
def SignalSys.InvZero (s : SignalSys) : Prop :=
  s.cv.waiting_ = 0 ∧
  match s.t.pc with
  | SignalPc.lock => s.t.ops = []
  | SignalPc.test => s.t.ops = [CvOp.waitMtxLock] ∧ s.cv.wait_mtx_ = true
  | SignalPc.dec => False
  | SignalPc.release => False
  | SignalPc.waitSem2 => False
  | SignalPc.unlock => s.t.ops = [CvOp.waitMtxLock] ∧ s.cv.wait_mtx_ = true
  | SignalPc.returned => s.t.ops = [CvOp.waitMtxLock, CvOp.waitMtxUnlock] ∧
      s.cv.wait_mtx_ = false

/-- The complete run of `Signal` with one parked waiter. -/
def SignalSys.oneWaiterActions : List SignalAllAction :=
  [SignalAllAction.signaller, SignalAllAction.signaller, SignalAllAction.signaller,
    SignalAllAction.signaller, SignalAllAction.waiterWake, SignalAllAction.waiterAck,
    SignalAllAction.signaller, SignalAllAction.signaller]

/-- The state at the end of `SignalSys.oneWaiterActions` from one parked waiter and a
counter of `1`. -/
def SignalSys.oneWaiterEnd : SignalSys :=
  { cv := ⟨0, false, 0, 0⟩
    t := ⟨SignalPc.returned,
      [CvOp.waitMtxLock, CvOp.sem1Release, CvOp.sem2Wait, CvOp.waitMtxUnlock]⟩
    parked := 0
    woken := 0
    released := 1 }

end port

namespace port

/-! ## `Mutex` (port_chromium.h 26-43, port_chromium.cc 13-42) -/

/-- How a call that may block or fail ends. -/
inductive Outcome (α : Type)
  /-- The call returns, leaving the given state. -/
  | returns (a : α)
  /-- The caller stays blocked; nothing has changed. -/
  | blocks
  /-- An `assert` of the function has failed (builds in which `assert` is active). -/
  | aborts
  /-- The call has behaviour that Win32 leaves undefined. -/
  | undefined
deriving DecidableEq, Repr

/-- The class `Mutex`: the member `void* mu_` and the state of the `CRITICAL_SECTION` it
points to. -/
structure Mutex where
  /-- The member `void* mu_`; `0` is `nullptr`. -/
  mu_ : Nat
  /-- The thread that owns the critical section, if any. -/
  owner : Option Nat
  /-- The number of times the owner has entered the critical section without leaving. -/
  recursion : Nat
deriving DecidableEq, Repr

/-- The constructor `Mutex()`, `p` being the address `new CRITICAL_SECTION()` returns: the
critical section is initialised, nobody owns it.  The final `assert(mu_)` holds because
`new` returns no null pointer. -/
def Mutex.new (p : Nat) : Mutex := ⟨p, none, 0⟩

/-- The member `void Lock()` called by thread `self`: `assert(mu_)`, then
`::EnterCriticalSection`, which the owner may enter again and any other thread enters
only once the section is free. -/
def Mutex.Lock (m : Mutex) (self : Nat) : Outcome Mutex :=
  if m.mu_ = 0 then Outcome.aborts
  else
    match m.owner with
    | none => Outcome.returns { m with owner := some self, recursion := 1 }
    | some o =>
        if o = self then Outcome.returns { m with recursion := m.recursion + 1 }
        else Outcome.blocks

/-- The member `void Unlock()` called by thread `self`: `assert(mu_)`, then
`::LeaveCriticalSection`, which is defined only for the owner. -/
def Mutex.Unlock (m : Mutex) (self : Nat) : Outcome Mutex :=
  if m.mu_ = 0 then Outcome.aborts
  else if m.owner = some self then
    if m.recursion ≤ 1 then Outcome.returns { m with owner := none, recursion := 0 }
    else Outcome.returns { m with recursion := m.recursion - 1 }
  else Outcome.undefined

/-- The member `void AssertHeld()` called by thread `self`: `assert(mu_); assert(1);`.
Neither the owner nor the caller is looked at. -/
def Mutex.AssertHeld (m : Mutex) (_self : Nat) : Outcome Mutex :=
  if m.mu_ = 0 then Outcome.aborts
  else if (1 : Nat) = 0 then Outcome.aborts
  else Outcome.returns m

/-! ## `CondVar::Wait` (port_chromium.cc 59-72) -/

/-- The operations `Wait` performs on the two mutexes, the counter and the semaphores. -/
inductive WaitOp
  /-- An operation on the private mutex or on a semaphore. -/
  | cv (op : CvOp)
  /-- The statement `++waiting_`. -/
  | incWaiting
  /-- The call `mu_->Unlock()`. -/
  | muUnlock
  /-- The call `mu_->Lock()`. -/
  | muLock
deriving DecidableEq, Repr

/-- Program counter of one activation of `CondVar::Wait`; the numbers are source lines of
port_chromium.cc. -/
inductive WaitPc
  /-- Line 60, `mu_->AssertHeld()`. -/
  | assertHeld
  /-- Line 62, `wait_mtx_->Lock()`. -/
  | lockWaitMtx
  /-- Line 63, `++waiting_`. -/
  | inc
  /-- Line 64, `wait_mtx_->Unlock()`. -/
  | unlockWaitMtx
  /-- Line 66, `mu_->Unlock()`. -/
  | unlockMu
  /-- Line 69, `::WaitForSingleObject(sem1_, INFINITE)`. -/
  | waitSem1
  /-- Line 70, `::ReleaseSemaphore(sem2_, 1, NULL)`. -/
  | releaseSem2
  /-- Line 71, `mu_->Lock()`. -/
  | lockMu
  /-- The activation has returned. -/
  | returned
  /-- An `assert` has failed. -/
  | aborted
  /-- The activation has made a call whose behaviour Win32 leaves undefined. -/
  | undefined
deriving DecidableEq, Repr

/-- One activation of `Wait`: program counter and the history of the operations it has
performed. -/
structure WaitThread where
  /-- Where the activation stands. -/
  pc : WaitPc
  /-- History: the operations performed so far, in order. -/
  ops : List WaitOp
deriving DecidableEq, Repr

/-- An activation that has just been entered. -/
def WaitThread.enter : WaitThread := ⟨WaitPc.assertHeld, []⟩

/-- The effect of a call on the associated mutex within `Wait`: `next` and `op` when the
call returns, the fault otherwise; `none` when the caller stays blocked. -/
def WaitThread.afterMu (cv : CondVar) (mu : Mutex) (t : WaitThread) (o : Outcome Mutex)
    (next : WaitPc) (op : List WaitOp) : Option (CondVar × Mutex × WaitThread) :=
  match o with
  | Outcome.returns m => some (cv, m, { t with pc := next, ops := t.ops ++ op })
  | Outcome.blocks => none
  | Outcome.aborts => some (cv, mu, { t with pc := WaitPc.aborted })
  | Outcome.undefined => some (cv, mu, { t with pc := WaitPc.undefined })

/-- One statement of `CondVar::Wait()` executed by the activation `t` of thread `self`,
`mu` being the associated mutex `*mu_`; `none` when the activation is blocked or has
ended. -/
def CondVar.Wait_step (cv : CondVar) (mu : Mutex) (self : Nat) (t : WaitThread) :
    Option (CondVar × Mutex × WaitThread) :=
  match t.pc with
  | WaitPc.assertHeld =>
      WaitThread.afterMu cv mu t (mu.AssertHeld self) WaitPc.lockWaitMtx []
  | WaitPc.lockWaitMtx =>
      if cv.wait_mtx_ then none
      else some ({ cv with wait_mtx_ := true }, mu,
        { t with pc := WaitPc.inc, ops := t.ops ++ [WaitOp.cv CvOp.waitMtxLock] })
  | WaitPc.inc =>
      some ({ cv with waiting_ := cv.waiting_ + 1 }, mu,
        { t with pc := WaitPc.unlockWaitMtx, ops := t.ops ++ [WaitOp.incWaiting] })
  | WaitPc.unlockWaitMtx =>
      some ({ cv with wait_mtx_ := false }, mu,
        { t with pc := WaitPc.unlockMu, ops := t.ops ++ [WaitOp.cv CvOp.waitMtxUnlock] })
  | WaitPc.unlockMu =>
      WaitThread.afterMu cv mu t (mu.Unlock self) WaitPc.waitSem1 [WaitOp.muUnlock]
  | WaitPc.waitSem1 =>
      match WaitForSingleObject cv.sem1_ with
      | none => none
      | some c =>
          some ({ cv with sem1_ := c }, mu,
            { t with pc := WaitPc.releaseSem2, ops := t.ops ++ [WaitOp.cv CvOp.sem1Wait] })
  | WaitPc.releaseSem2 =>
      some ({ cv with sem2_ := ReleaseSemaphore cv.sem2_ }, mu,
        { t with pc := WaitPc.lockMu, ops := t.ops ++ [WaitOp.cv CvOp.sem2Release] })
  | WaitPc.lockMu =>
      WaitThread.afterMu cv mu t (mu.Lock self) WaitPc.returned [WaitOp.muLock]
  | WaitPc.returned => none
  | WaitPc.aborted => none
  | WaitPc.undefined => none

/-- Runs an activation of `Wait` with no other thread active, for at most `fuel`
statements; `some` is the state at the moment the activation returns, `none` when it has
not returned (it is blocked or has ended otherwise, or the fuel is spent). -/
def CondVar.Wait_run : Nat → CondVar → Mutex → Nat → WaitThread →
    Option (CondVar × Mutex × WaitThread)
  | 0, _, _, _, _ => none
  | fuel + 1, cv, mu, self, t =>
      if t.pc = WaitPc.returned then some (cv, mu, t)
      else
        match cv.Wait_step mu self t with
        | none => none
        | some r => CondVar.Wait_run fuel r.1 r.2.1 self r.2.2

/-- Runs exactly `n` statements of an activation of `Wait` with no other thread active;
`none` when the activation cannot take that many. -/
def CondVar.Wait_steps : Nat → CondVar → Mutex → Nat → WaitThread →
    Option (CondVar × Mutex × WaitThread)
  | 0, cv, mu, _, t => some (cv, mu, t)
  | n + 1, cv, mu, self, t =>
      match cv.Wait_step mu self t with
      | none => none
      | some r => CondVar.Wait_steps n r.1 r.2.1 self r.2.2

/-- The operations of a whole `Wait`, in order. -/
def WaitThread.allOps : List WaitOp :=
  [WaitOp.cv CvOp.waitMtxLock, WaitOp.incWaiting, WaitOp.cv CvOp.waitMtxUnlock,
    WaitOp.muUnlock, WaitOp.cv CvOp.sem1Wait, WaitOp.cv CvOp.sem2Release, WaitOp.muLock]

/-- The number of operations `Wait` has performed when it stands at a statement. -/
def WaitPc.done : WaitPc → Nat
  | WaitPc.assertHeld => 0
  | WaitPc.lockWaitMtx => 0
  | WaitPc.inc => 1
  | WaitPc.unlockWaitMtx => 2
  | WaitPc.unlockMu => 3
  | WaitPc.waitSem1 => 4
  | WaitPc.releaseSem2 => 5
  | WaitPc.lockMu => 6
  | WaitPc.returned => 7
  | WaitPc.aborted => 0
  | WaitPc.undefined => 0

/-- An activation of `Wait` whose history is what its program counter implies. -/
def WaitThread.InOrder (t : WaitThread) : Prop :=
  t.pc = WaitPc.aborted ∨ t.pc = WaitPc.undefined ∨ t.ops = WaitThread.allOps.take t.pc.done

end port

namespace port

/-! ## One `Wait` and one `Signal` on the same condition variable -/

/-- A thread (number `0`) inside `Wait` and a thread (number `1`) inside `Signal`, on the
same condition variable and associated mutex. -/
structure HandoffSys where
  /-- The condition variable. -/
  cv : CondVar
  /-- The associated mutex `*mu_`. -/
  mu : Mutex
  /-- The activation of `Wait`, by thread `0`. -/
  w : WaitThread
  /-- The activation of `Signal`, by thread `1`. -/
  s : SignalThread
deriving DecidableEq, Repr

/-- What can happen next. -/
inductive HandoffAction
  /-- Thread `0` executes the next statement of `Wait`. -/
  | waiter
  /-- Thread `1` executes the next statement of `Signal`. -/
  | signaller
  /-- Thread `1` locks the associated mutex, as `Schedule` does (env_win.cc 443) before it
  calls `Signal`. -/
  | signallerLock
  /-- Thread `1`, owning the associated mutex, unlocks it, as `Schedule` does
  (env_win.cc 462) after `Signal` has returned. -/
  | signallerUnlock
deriving DecidableEq, Repr

/-- One action; `none` when it cannot take place (the thread is blocked, or has ended, or
would unlock a mutex it does not own). -/
def HandoffSys.step (h : HandoffSys) : HandoffAction → Option HandoffSys
  | HandoffAction.waiter =>
      match h.cv.Wait_step h.mu 0 h.w with
      | none => none
      | some r => some { h with cv := r.1, mu := r.2.1, w := r.2.2 }
  | HandoffAction.signaller =>
      match h.cv.Signal_step h.s with
      | none => none
      | some r => some { h with cv := r.1, s := r.2 }
  | HandoffAction.signallerLock =>
      match h.mu.Lock 1 with
      | Outcome.returns m => some { h with mu := m }
      | _ => none
  | HandoffAction.signallerUnlock =>
      match h.mu.Unlock 1 with
      | Outcome.returns m => some { h with mu := m }
      | _ => none

/-- Runs a list of actions; `none` when one of them cannot take place. -/
def HandoffSys.run (h : HandoffSys) : List HandoffAction → Option HandoffSys
  | [] => some h
  | a :: as => (h.step a).bind fun h1 => h1.run as

/-- The state in which thread `0`, owning the associated mutex (constructed at address
`p`), enters `Wait` on a freshly constructed condition variable, and thread `1` enters
`Signal`. -/
def HandoffSys.init (p : Nat) : HandoffSys :=
  ⟨CondVar.new, ⟨p, some 0, 1⟩, WaitThread.enter, SignalThread.enter⟩

/-- A run in which `Signal` returns while `Wait` has not: the waiter parks, the signaller
releases `sem1_`, the waiter acknowledges on `sem2_`, the signaller returns. -/
def HandoffSys.signalFirst : List HandoffAction :=
  [HandoffAction.waiter, HandoffAction.waiter, HandoffAction.waiter, HandoffAction.waiter,
    HandoffAction.waiter, HandoffAction.signaller, HandoffAction.signaller,
    HandoffAction.signaller, HandoffAction.signaller, HandoffAction.waiter,
    HandoffAction.waiter, HandoffAction.signaller, HandoffAction.signaller]

/-- The state at the end of `HandoffSys.signalFirst` from `HandoffSys.init 8`. -/
def HandoffSys.signalFirstEnd : HandoffSys :=
  { cv := ⟨0, false, 0, 0⟩
    mu := ⟨8, none, 0⟩
    w := ⟨WaitPc.lockMu, WaitThread.allOps.take 6⟩
    s := ⟨SignalPc.returned,
      [CvOp.waitMtxLock, CvOp.sem1Release, CvOp.sem2Wait, CvOp.waitMtxUnlock]⟩ }

/-- The same run with the signaller locking the associated mutex before it calls
`Signal`, as `Schedule` does. -/
def HandoffSys.signalFirstLocked : List HandoffAction :=
  [HandoffAction.waiter, HandoffAction.waiter, HandoffAction.waiter, HandoffAction.waiter,
    HandoffAction.waiter, HandoffAction.signallerLock, HandoffAction.signaller,
    HandoffAction.signaller, HandoffAction.signaller, HandoffAction.signaller,
    HandoffAction.waiter, HandoffAction.waiter, HandoffAction.signaller,
    HandoffAction.signaller]

/-- The state at the end of `HandoffSys.signalFirstLocked` from `HandoffSys.init 8`. -/
def HandoffSys.signalFirstLockedEnd : HandoffSys :=
  { cv := ⟨0, false, 0, 0⟩
    mu := ⟨8, some 1, 1⟩
    w := ⟨WaitPc.lockMu, WaitThread.allOps.take 6⟩
    s := ⟨SignalPc.returned,
      [CvOp.waitMtxLock, CvOp.sem1Release, CvOp.sem2Wait, CvOp.waitMtxUnlock]⟩ }

/-- A run in which `Wait` has begun and `Signal` runs from entry to return before the
waiter increments `waiting_`. -/
def HandoffSys.signalEarly : List HandoffAction :=
  [HandoffAction.waiter, HandoffAction.signaller, HandoffAction.signaller,
    HandoffAction.signaller]

/-- The statements of `Wait` at which the caller owns the associated mutex, when it
owned it on entry: up to `mu_->Unlock()`, and after `mu_->Lock()`. -/
def WaitPc.ownsMu : WaitPc → Bool
  | WaitPc.assertHeld => true
  | WaitPc.lockWaitMtx => true
  | WaitPc.inc => true
  | WaitPc.unlockWaitMtx => true
  | WaitPc.unlockMu => true
  | WaitPc.returned => true
  | _ => false

/-- The histories an activation of `Signal` can have at each statement. -/
def SignalThread.InOrder (t : SignalThread) : Prop :=
  match t.pc with
  | SignalPc.lock => t.ops = []
  | SignalPc.test => t.ops = [CvOp.waitMtxLock]
  | SignalPc.dec => t.ops = [CvOp.waitMtxLock]
  | SignalPc.release => t.ops = [CvOp.waitMtxLock]
  | SignalPc.waitSem2 => t.ops = [CvOp.waitMtxLock, CvOp.sem1Release]
  | SignalPc.unlock =>
      t.ops = [CvOp.waitMtxLock] ∨ t.ops = [CvOp.waitMtxLock, CvOp.sem1Release, CvOp.sem2Wait]
  | SignalPc.returned =>
      t.ops = [CvOp.waitMtxLock, CvOp.waitMtxUnlock] ∨
        t.ops = [CvOp.waitMtxLock, CvOp.sem1Release, CvOp.sem2Wait, CvOp.waitMtxUnlock]

/-- The invariant of one `Wait` and one `Signal` on a mutex constructed at `p`. -/
structure HandoffSys.Inv (p : Nat) (h : HandoffSys) : Prop where
  /-- The mutex stays where it was constructed. -/
  mu_ptr : h.mu.mu_ = p
  /-- The waiter has met no failed `assert`. -/
  w_not_aborted : h.w.pc ≠ WaitPc.aborted
  /-- The waiter has made no undefined call. -/
  w_defined : h.w.pc ≠ WaitPc.undefined
  /-- The waiter has performed the operations that precede its statement. -/
  w_order : h.w.ops = WaitThread.allOps.take h.w.pc.done
  /-- The waiter owns the associated mutex exactly outside lines 69-71. -/
  w_owner : h.mu.owner = some 0 ↔ h.w.pc.ownsMu = true
  /-- The waiter has entered the associated mutex once. -/
  w_once : h.mu.owner = some 0 → h.mu.recursion = 1
  /-- The signaller has performed the operations that precede its statement. -/
  s_order : h.s.InOrder
  /-- Every release of `sem1_` is in the semaphore or has been consumed by the waiter. -/
  sem1 : h.cv.sem1_ + (if 5 ≤ h.w.pc.done then 1 else 0) = h.s.ops.count CvOp.sem1Release
  /-- Every release of `sem2_` is in the semaphore or has been consumed by the
  signaller. -/
  sem2 : h.cv.sem2_ + h.s.ops.count CvOp.sem2Wait = (if 6 ≤ h.w.pc.done then 1 else 0)

end port

namespace port

/-! ## Any number of threads on one condition variable -/

/-- A thread inside one of the three member functions of `CondVar`. -/
inductive CvThread
  /-- The thread is inside `Wait`. -/
  | wait (t : WaitThread)
  /-- The thread is inside `Signal`. -/
  | signal (t : SignalThread)
  /-- The thread is inside `SignalAll`. -/
  | signalAll (t : SignalAllThread)
deriving DecidableEq, Repr

/-- A thread that has just entered the given member function. -/
def CvThread.enter : CvCall → CvThread
  | CvCall.Wait => CvThread.wait WaitThread.enter
  | CvCall.Signal => CvThread.signal SignalThread.enter
  | CvCall.SignalAll => CvThread.signalAll SignalAllThread.enter

/-- The next statement of thread `self`, inside whichever member function it is. -/
def CvThread.step (cv : CondVar) (mu : Mutex) (self : Nat) :
    CvThread → Option (CondVar × Mutex × CvThread)
  | CvThread.wait t =>
      match cv.Wait_step mu self t with
      | none => none
      | some r => some (r.1, r.2.1, CvThread.wait r.2.2)
  | CvThread.signal t =>
      match cv.Signal_step t with
      | none => none
      | some r => some (r.1, mu, CvThread.signal r.2)
  | CvThread.signalAll t =>
      match cv.SignalAll_step t with
      | none => none
      | some r => some (r.1, mu, CvThread.signalAll r.2)

/-- `1` when the thread stands at a statement `--waiting_` (line 77 or 91), else `0`. -/
def CvThread.atDec : CvThread → Nat
  | CvThread.wait _ => 0
  | CvThread.signal t => if t.pc = SignalPc.dec then 1 else 0
  | CvThread.signalAll t => if t.pc = SignalAllPc.dec then 1 else 0

/-- `1` when the thread stands between `wait_mtx_->Lock()` and `wait_mtx_->Unlock()` at a
statement other than `--waiting_`, else `0`. -/
def CvThread.holding : CvThread → Nat
  | CvThread.wait t => if t.pc = WaitPc.inc ∨ t.pc = WaitPc.unlockWaitMtx then 1 else 0
  | CvThread.signal t =>
      if t.pc = SignalPc.test ∨ t.pc = SignalPc.release ∨ t.pc = SignalPc.waitSem2 ∨
          t.pc = SignalPc.unlock then 1 else 0
  | CvThread.signalAll t =>
      if t.pc = SignalAllPc.forInit ∨ t.pc = SignalAllPc.forTest ∨
          t.pc = SignalAllPc.release ∨ t.pc = SignalAllPc.whileTest ∨
          t.pc = SignalAllPc.waitSem2 ∨ t.pc = SignalAllPc.forInc ∨
          t.pc = SignalAllPc.unlock then 1 else 0

/-- Threads, numbered from `0`, each inside a member function of the same condition
variable, whose associated mutex is `mu`. -/
structure CvSys where
  /-- The condition variable. -/
  cv : CondVar
  /-- The associated mutex `*mu_`. -/
  mu : Mutex
  /-- The threads. -/
  threads : List CvThread
deriving DecidableEq, Repr

/-- What can happen next. -/
inductive CvAction
  /-- Thread `i` executes the next statement of the member function it is in. -/
  | step (i : Nat)
  /-- Thread `i` locks the associated mutex (code of the caller, outside `CondVar`). -/
  | lockMu (i : Nat)
  /-- Thread `i`, owning the associated mutex, unlocks it (code of the caller). -/
  | unlockMu (i : Nat)
deriving DecidableEq, Repr

/-- One action; `none` when it cannot take place. -/
def CvSys.step (s : CvSys) : CvAction → Option CvSys
  | CvAction.step i =>
      match s.threads.get? i with
      | none => none
      | some t =>
          match t.step s.cv s.mu i with
          | none => none
          | some r => some ⟨r.1, r.2.1, s.threads.set i r.2.2⟩
  | CvAction.lockMu i =>
      match s.mu.Lock i with
      | Outcome.returns m => some { s with mu := m }
      | _ => none
  | CvAction.unlockMu i =>
      match s.mu.Unlock i with
      | Outcome.returns m => some { s with mu := m }
      | _ => none

/-- Runs a list of actions; `none` when one of them cannot take place. -/
def CvSys.run (s : CvSys) : List CvAction → Option CvSys
  | [] => some s
  | a :: as => (s.step a).bind fun s1 => s1.run as

/-- A freshly constructed condition variable and associated mutex (at address `p`), and
one thread entering each of the given calls. -/
def CvSys.init (p : Nat) (calls : List CvCall) : CvSys :=
  ⟨CondVar.new, Mutex.new p, calls.map CvThread.enter⟩

/-- The invariant of any number of threads on one condition variable: `wait_mtx_` is
held exactly when one thread stands between its lock and its unlock, and no more than one
does; and `waiting_` is at least the number of threads that stand at a `--waiting_`. -/
def CvSys.Inv (s : CvSys) : Prop :=
  (s.threads.map CvThread.atDec).sum + (s.threads.map CvThread.holding).sum
    = (if s.cv.wait_mtx_ then 1 else 0) ∧
  ((s.threads.map CvThread.atDec).sum : Int) ≤ s.cv.waiting_

/-- A run of three threads, in `Wait`, `Signal` and `SignalAll`: the first, owning the
associated mutex, parks; the second locks `wait_mtx_` and finds `waiting_ > 0`. -/
def CvSys.sampleActions : List CvAction :=
  [CvAction.lockMu 0, CvAction.step 0, CvAction.step 0, CvAction.step 0, CvAction.step 0,
    CvAction.step 0, CvAction.step 1, CvAction.step 1]

/-- The state at the end of `CvSys.sampleActions` from `CvSys.init 8`: the signaller
stands at `--waiting_`. -/
def CvSys.sample : CvSys :=
  { cv := ⟨1, true, 0, 0⟩
    mu := ⟨8, none, 0⟩
    threads := [CvThread.wait ⟨WaitPc.waitSem1, WaitThread.allOps.take 4⟩,
      CvThread.signal ⟨SignalPc.dec, [CvOp.waitMtxLock]⟩,
      CvThread.signalAll SignalAllThread.enter] }

end port

/-! ## `NormalizePath` (util/file_misc.cpp 178-260) -/

/-- The terminator `L'\0'` of a wide string. -/
def NUL : Char := '\x00'

/-- The test `c == L'\\' || c == L'/'` of lines 187, 217 and 225. -/
def isSeparator (c : Char) : Bool := c == '\\' || c == '/'

/-- The characters of the null-terminated string that starts at `lpszDir`: the memory
up to the first `L'\0'`, which is what `std::wstring strDir = lpszDir;` copies
(line 180).  Memory is the list of the characters from the pointer on; the end of the
list reads as a terminator. -/
def c_str (lpszDir : List Char) : List Char := lpszDir.takeWhile (fun c => c != NUL)

/-- The call `s.substr(pos, n)` of `std::wstring`, for `pos` within the string. -/
def substr (s : List Char) (pos n : Nat) : List Char := (s.drop pos).take n

/-- The local variables of `NormalizePath` that the loop of lines 185-246 updates,
apart from the pointer `lpszDir`. -/
structure NormalizePathVars where
  iLast : Nat
  iCur : Nat
  vecParts : List (List Char)
deriving DecidableEq, Repr

/-- The read `*(lpszDir + i)` of the memory at `lpszDir`. -/
def deref (lpszDir : List Char) (i : Nat) : Char := lpszDir.getD i NUL

/-- The loop of lines 185-246, from the state in which `lpszDir` points at the given
memory.  `strDir` is the copy of the whole input made on line 180.  One equation of the
recursion is one iteration: the loop is left at the terminator (line 185), and an
iteration moves the pointer by one character or, on lines 219 and 239 together, by two,
or on line 232 by three.  `*(lpszDir + 1)` and `*(lpszDir + 2)` are read only behind a
character that is not the terminator; where the pointer moves by two or three the
characters it passes are not terminators, so the memory has that many characters and
the first alternative of the `match` is the one taken. -/
def NormalizePath.loop (strDir : List Char) : List Char → NormalizePathVars → NormalizePathVars
  | [], v => v
  | c :: p1, v =>
    if c = NUL then v
    else if isSeparator c then
      -- lines 187-198
      loop strDir p1
        { iLast := v.iCur + 1, iCur := v.iCur + 1,
          vecParts :=
            if v.iLast ≠ v.iCur then v.vecParts ++ [substr strDir v.iLast (v.iCur - v.iLast)]
            else v.vecParts }
    else if c = ':' then
      -- lines 200-213
      loop strDir p1
        { iLast := v.iCur + 1, iCur := v.iCur + 1,
          vecParts :=
            if v.iLast ≠ v.iCur then
              v.vecParts ++ [substr strDir v.iLast (v.iCur - v.iLast) ++ [':']]
            else v.vecParts }
    else if c = '.' then
      -- lines 215-242
      if deref p1 0 ≠ NUL ∧ isSeparator (deref p1 0) then
        -- lines 219-221, then lines 239-241
        match p1 with
        | _ :: p2 => loop strDir p2 { v with iLast := v.iCur + 1, iCur := v.iCur + 1 + 1 }
        | [] => v
      else if deref p1 0 ≠ NUL ∧ deref p1 0 = '.' ∧
          deref p1 1 ≠ NUL ∧ isSeparator (deref p1 1) then
        -- lines 227-235
        match p1 with
        | _ :: _ :: p3 =>
          loop strDir p3
            { iLast := v.iCur + 3, iCur := v.iCur + 3,
              vecParts := if v.vecParts.length > 0 then v.vecParts.dropLast else v.vecParts }
        | _ => v
      else
        -- lines 239-241
        loop strDir p1 { v with iCur := v.iCur + 1 }
    else
      -- lines 244-245
      loop strDir p1 { v with iCur := v.iCur + 1 }

/-- The function `std::wstring NormalizePath(LPCWSTR lpszDir)`.  The argument is the
memory at `lpszDir`; the input path is `c_str lpszDir`. -/
def NormalizePath (lpszDir : List Char) : List Char :=
  let strDir := c_str lpszDir
  let v := NormalizePath.loop strDir lpszDir { iLast := 0, iCur := 0, vecParts := [] }
  -- lines 248-251
  let vecParts :=
    if v.iCur ≠ v.iLast then v.vecParts ++ [substr strDir v.iLast (v.iCur - v.iLast)]
    else v.vecParts
  -- lines 253-259
  vecParts.foldl (fun strDir part => strDir ++ part ++ ['\\']) []

/-- Following the wording of the property, not the code: the maximal non-empty runs of
characters other than `\` and `/` of a path, in order.  Splitting the path at every
separator gives the pieces between consecutive separators, of which the non-empty ones
are the maximal runs. -/
def runs (path : List Char) : List (List Char) :=
  (path.splitOnP isSeparator).filter (fun r => r ≠ [])

/-- Used in the proofs only: the parts that `NormalizePath` collects from a path without
`.` and `:`, given the characters `cur` read since the last separator and the characters
`rest` still to be read.  A separator closes the current part, which is kept when it is
not empty. -/
def NormalizePath.collect (cur : List Char) : List Char → List (List Char)
  | [] => if cur = [] then [] else [cur]
  | c :: rest =>
    if isSeparator c then (if cur = [] then [] else [cur]) ++ collect [] rest
    else collect (cur ++ [c]) rest

/-- Used in the proofs only: each part is non-empty and holds no separator. -/
def NormalizePath.Parts (rs : List (List Char)) : Prop :=
  ∀ r ∈ rs, r ≠ [] ∧ ∀ c ∈ r, isSeparator c = false

/-- A sample argument of `NormalizePath`: the path `/ab/\c` followed by its terminator
and by memory behind the terminator. -/
def NormalizePath.sample : List Char := ['/', 'a', 'b', '/', '\\', 'c', NUL, '.', 'x']

/-! # Properties -/

namespace port

/-! ### `InitOnce`: calls that do not overlap -/

/-- A call entered with the word `ONCE_STATE_UNINITIALIZED` invokes the initializer once
and stores `ONCE_STATE_DONE`; with eight-byte pointers the store also clears the four
bytes behind the word, whatever the initializer has left there. -/
theorem InitOnce_uninitialized {σ : Type} (build : Build) (initializer : Int × σ → Int × σ)
    (b : Int) (u : σ) (k f : Nat) :
    InitOnce build initializer ⟨ONCE_STATE_UNINITIALIZED, b, u, k, f⟩
      = some ⟨ONCE_STATE_DONE,
          if build.sizeofPVOID = 8 then 0 else (initializer (b, u)).1,
          (initializer (b, u)).2, k + 1, f + 1⟩ := by
  cases build <;> rfl

/-- A call entered with the word `ONCE_STATE_DONE` returns at once and changes nothing. -/
theorem InitOnce_done {σ : Type} (build : Build) (initializer : Int × σ → Int × σ)
    (m : OnceMem σ) (h : m.once = ONCE_STATE_DONE) : InitOnce build initializer m = some m := by
  obtain ⟨o, b, u, k, f⟩ := m
  simp only at h
  subst h
  rfl

/-- Any number of further calls on a word that is `ONCE_STATE_DONE` changes nothing. -/
theorem InitOnce_consecutive_done {σ : Type} (build : Build)
    (initializer : Int × σ → Int × σ) (n : Nat) (m : OnceMem σ)
    (h : m.once = ONCE_STATE_DONE) : InitOnce.consecutive build initializer n m = some m := by
  induction n with
  | zero => rfl
  | succ n ih => simp [InitOnce.consecutive, InitOnce_done build initializer m h, ih]

/-- C1. For every `n ≥ 1` and on both builds, after `n` consecutive calls of `InitOnce` on
a word that starts `ONCE_STATE_UNINITIALIZED` (the initializer acting on the memory other
than the once word), the word is `ONCE_STATE_DONE` and the initializer has been invoked
exactly once in total and has returned once; as `n = 1` is included, the invocation
belongs to the first call and the word is Done after every call.  The rest of the memory is
what the one invocation has left, except that with eight-byte pointers the four bytes
behind the word are `0`.  A call that finds the word `ONCE_STATE_DONE` returns the memory
it found: no invocation, no change of the word. -/
theorem InitOnce_consecutive_calls {σ : Type} (build : Build)
    (initializer : Int × σ → Int × σ) (b : Int) (u : σ) (n : Nat) (hn : 1 ≤ n) :
    InitOnce.consecutive build initializer n ⟨LEVELDB_ONCE_INIT, b, u, 0, 0⟩
        = some ⟨ONCE_STATE_DONE,
            if build.sizeofPVOID = 8 then 0 else (initializer (b, u)).1,
            (initializer (b, u)).2, 1, 1⟩ ∧
    InitOnce build initializer ⟨LEVELDB_ONCE_INIT, b, u, 0, 0⟩
        = some ⟨ONCE_STATE_DONE,
            if build.sizeofPVOID = 8 then 0 else (initializer (b, u)).1,
            (initializer (b, u)).2, 1, 1⟩ ∧
    (∀ m : OnceMem σ, m.once = ONCE_STATE_DONE → InitOnce build initializer m = some m) := by
  refine ⟨?_, InitOnce_uninitialized build initializer b u 0 0,
    fun m h => InitOnce_done build initializer m h⟩
  obtain ⟨j, rfl⟩ : ∃ j, n = j + 1 := ⟨n - 1, by omega⟩
  show (InitOnce build initializer ⟨ONCE_STATE_UNINITIALIZED, b, u, 0, 0⟩).bind
    (InitOnce.consecutive build initializer j) = _
  rw [InitOnce_uninitialized]
  exact InitOnce_consecutive_done build initializer j _ rfl

/-- C1 at `n = 3` on the 64-bit build, with an initializer that counts in the rest of the
state and leaves the four bytes behind the word, which hold `7`, as they are: after the
calls those bytes hold `0`. -/
theorem InitOnce_consecutive_calls_witness :
    (1 ≤ 3) ∧
    (InitOnce.consecutive Build.x64 (fun p : Int × Nat => (p.1, p.2 + 1)) 3
        ⟨LEVELDB_ONCE_INIT, 7, 0, 0, 0⟩
        = some ⟨ONCE_STATE_DONE,
            if Build.x64.sizeofPVOID = 8 then 0
              else ((fun p : Int × Nat => (p.1, p.2 + 1)) (7, 0)).1,
            ((fun p : Int × Nat => (p.1, p.2 + 1)) (7, 0)).2, 1, 1⟩ ∧
    InitOnce Build.x64 (fun p : Int × Nat => (p.1, p.2 + 1)) ⟨LEVELDB_ONCE_INIT, 7, 0, 0, 0⟩
        = some ⟨ONCE_STATE_DONE,
            if Build.x64.sizeofPVOID = 8 then 0
              else ((fun p : Int × Nat => (p.1, p.2 + 1)) (7, 0)).1,
            ((fun p : Int × Nat => (p.1, p.2 + 1)) (7, 0)).2, 1, 1⟩ ∧
    (∀ m : OnceMem Nat, m.once = ONCE_STATE_DONE →
      InitOnce Build.x64 (fun p : Int × Nat => (p.1, p.2 + 1)) m = some m)) ∧
    InitOnce.consecutive Build.x64 (fun p : Int × Nat => (p.1, p.2 + 1)) 3
        ⟨LEVELDB_ONCE_INIT, 7, 0, 0, 0⟩ = some ⟨ONCE_STATE_DONE, 0, 1, 1, 1⟩ ∧
    InitOnce.consecutive Build.win32 (fun p : Int × Nat => (p.1, p.2 + 1)) 3
        ⟨LEVELDB_ONCE_INIT, 7, 0, 0, 0⟩ = some ⟨ONCE_STATE_DONE, 7, 1, 1, 1⟩ :=
  ⟨by decide,
    InitOnce_consecutive_calls Build.x64 (fun p : Int × Nat => (p.1, p.2 + 1)) 7 0 3
      (by decide),
    by decide, by decide⟩

/-- The function outside the states that calls produce: a call entered while the word is
`ONCE_STATE_EXECUTING_CLOSURE`, with no other thread touching the word, returns, and at
its return the word is `ONCE_STATE_UNINITIALIZED`, as the compare-exchange of line 126
replaces Executing by Uninitialized and the first poll of line 139 ends the loop.  No
statement of `InitOnce` stores Executing, so no call enters in this way. -/
theorem InitOnce_entered_executing_returns_not_done {σ : Type} (build : Build)
    (initializer : Int × σ → Int × σ) (b : Int) (u : σ) (k f : Nat) :
    InitOnce build initializer ⟨ONCE_STATE_EXECUTING_CLOSURE, b, u, k, f⟩
      = some ⟨ONCE_STATE_UNINITIALIZED, b, u, k, f⟩ ∧
    ONCE_STATE_UNINITIALIZED ≠ ONCE_STATE_DONE :=
  ⟨rfl, by decide⟩

/-! ### `InitOnce`: calls that overlap -/

/-- The invariant of overlapping calls holds when the threads enter. -/
theorem OnceSys_Inv_init {σ : Type} (b : Int) (u : σ) (n : Nat) : (OnceSys.init b u n).Inv := by
  refine ⟨⟨Or.inl rfl, fun h => ?_⟩, ?_⟩
  · simp [OnceSys.init, LEVELDB_ONCE_INIT, ONCE_STATE_UNINITIALIZED, ONCE_STATE_DONE] at h
  intro t ht
  simp only [OnceSys.init, List.mem_replicate] at ht
  obtain ⟨_, rfl⟩ := ht
  simp [OnceThread.Inv, OnceThread.enter]

/-- One statement of `InitOnce` preserves the invariant of the memory and of the thread
that executes it, never undoes a word that is Done, never lowers the history counters,
and brings the thread nearer to its return. -/
theorem InitOnce_step_inv {σ : Type} (build : Build) (initializer : Int × σ → Int × σ)
    (m : OnceMem σ) (t : OnceThread) (hm : m.Inv) (ht : t.Inv m) :
    (InitOnce.step build initializer m t).1.Inv ∧
    (InitOnce.step build initializer m t).2.Inv (InitOnce.step build initializer m t).1 ∧
    (m.once = ONCE_STATE_DONE →
      (InitOnce.step build initializer m t).1.once = ONCE_STATE_DONE) ∧
    m.calls ≤ (InitOnce.step build initializer m t).1.calls ∧
    m.finished ≤ (InitOnce.step build initializer m t).1.finished ∧
    (InitOnce.step build initializer m t).2.pc.togo ≤ t.pc.togo - 1 := by
  obtain ⟨o, b, u, k, f⟩ := m
  obtain ⟨pc, st⟩ := t
  obtain ⟨h0, h1⟩ := hm
  simp only [OnceThread.Inv] at ht
  simp only at h0 h1
  rcases h0 with rfl | rfl <;> cases pc <;>
    simp [InitOnce.step, InterlockedCompareExchange, InterlockedExchangePointer,
      OnceMem.Inv, OnceThread.Inv, OncePc.togo,
      ONCE_STATE_UNINITIALIZED, ONCE_STATE_DONE, ONCE_STATE_EXECUTING_CLOSURE] at h1 ht ⊢
  all_goals first | assumption | omega | (subst ht; simpa using h1)

/-- The invariant of overlapping calls is preserved by a statement of any thread. -/
theorem OnceSys_Inv_step {σ : Type} (build : Build) (initializer : Int × σ → Int × σ)
    (s : OnceSys σ) (i : Nat) (h : s.Inv) : (OnceSys.step build initializer s i).Inv := by
  obtain ⟨hm, hts⟩ := h
  unfold OnceSys.step
  cases hg : s.threads.get? i with
  | none => exact ⟨hm, hts⟩
  | some t =>
      have htm : t ∈ s.threads := List.get?_mem hg
      obtain ⟨km, kt, kdone, kcalls, kfinished, _⟩ :=
        InitOnce_step_inv build initializer s.mem t hm (hts t htm)
      refine ⟨km, ?_⟩
      intro t1 ht1
      rcases List.mem_or_eq_of_mem_set ht1 with hmem | rfl
      · obtain ⟨a, b, c, d⟩ := hts t1 hmem
        exact ⟨fun hp => kdone (a hp), fun hp => ⟨(b hp).1, kdone (b hp).2⟩,
          fun hp => le_trans (c hp) kcalls, fun hp => le_trans (d hp) kfinished⟩
      · exact kt

/-- The invariant of overlapping calls is preserved by every interleaving. -/
theorem OnceSys_Inv_run {σ : Type} (build : Build) (initializer : Int × σ → Int × σ)
    (sched : List Nat) (s : OnceSys σ) (h : s.Inv) :
    (OnceSys.run build initializer s sched).Inv := by
  induction sched generalizing s with
  | nil => exact h
  | cons i sched ih => exact ih _ (OnceSys_Inv_step build initializer s i h)

/-- For any number of threads that call `InitOnce` on a word that starts as
`LEVELDB_ONCE_INIT`, in every interleaving, the word is Uninitialized or Done: no
statement ever makes it Executing. -/
theorem InitOnce_overlapping_never_executing {σ : Type} (build : Build)
    (initializer : Int × σ → Int × σ) (b : Int) (u : σ) (n : Nat) (sched : List Nat) :
    (OnceSys.run build initializer (OnceSys.init b u n) sched).mem.once
      = ONCE_STATE_UNINITIALIZED ∨
    (OnceSys.run build initializer (OnceSys.init b u n) sched).mem.once = ONCE_STATE_DONE :=
  (OnceSys_Inv_run build initializer sched _ (OnceSys_Inv_init b u n)).1.1

/-- For any number of threads that call `InitOnce` on a word that starts as
`LEVELDB_ONCE_INIT`, in every interleaving: whenever a call has returned, the word is Done
and the initializer has been invoked at least once. -/
theorem InitOnce_overlapping_returned_done {σ : Type} (build : Build)
    (initializer : Int × σ → Int × σ) (b : Int) (u : σ) (n : Nat) (sched : List Nat)
    (t : OnceThread)
    (ht : t ∈ (OnceSys.run build initializer (OnceSys.init b u n) sched).threads)
    (hret : t.pc = OncePc.returned) :
    (OnceSys.run build initializer (OnceSys.init b u n) sched).mem.once = ONCE_STATE_DONE ∧
    1 ≤ (OnceSys.run build initializer (OnceSys.init b u n) sched).mem.calls := by
  obtain ⟨⟨_, h1⟩, hts⟩ := OnceSys_Inv_run build initializer sched _ (OnceSys_Inv_init b u n)
  have hd := (hts t ht).1 hret
  exact ⟨hd, (h1 hd).1⟩

/-- C3, evaluation at the failing input, on either build.  Two threads enter `InitOnce` on
a word that is `ONCE_STATE_UNINITIALIZED`; thread 0 executes lines 121-133 and is inside
the initializer when thread 1 executes lines 121-133.  The word is still Uninitialized
when thread 1 reads it, and the initializer has been invoked twice. -/
theorem InitOnce_two_threads_invoke_twice (build : Build) :
    (OnceSys.run build (fun p : Int × Nat => (p.1, p.2 + 1)) (OnceSys.init 7 0 2)
      [0, 0, 0, 0]).mem.once = ONCE_STATE_UNINITIALIZED ∧
    (OnceSys.run build (fun p : Int × Nat => (p.1, p.2 + 1)) (OnceSys.init 7 0 2)
      [0, 0, 0, 0, 1, 1, 1, 1]).mem.calls = 2 ∧
    (OnceSys.run build (fun p : Int × Nat => (p.1, p.2 + 1)) (OnceSys.init 7 0 2)
      [0, 0, 0, 0, 1, 1, 1, 1, 0, 0, 1, 1])
      = ⟨⟨ONCE_STATE_DONE, if build.sizeofPVOID = 8 then 0 else 7, 2, 2, 2⟩,
        [⟨OncePc.returned, 0⟩, ⟨OncePc.returned, 0⟩]⟩ := by
  cases build <;> decide

end port

/-! ### `Schedule` as a function of the state it finds -/

/-- An assignment through `back()` right after a `push_back` changes the pushed item. -/
theorem modifyBack_append_singleton {α : Type} (f : α → α) (q : List α) (x : α) :
    modifyBack f (q ++ [x]) = q ++ [f x] := by
  induction q with
  | nil => rfl
  | cons y r ih =>
      cases r with
      | nil => rfl
      | cons z r => simpa [modifyBack] using ih

/-- The queue after `Schedule`. -/
theorem Schedule_queue (e : WinEnv) (function arg : Nat) :
    (e.Schedule function arg).queue_ = e.queue_ ++ [⟨arg, function⟩] := by
  unfold WinEnv.Schedule
  simp only [modifyBack_append_singleton, BGItem.zero]
  unfold WinEnv.Signal WinEnv.StartThread
  by_cases hs : e.started_bgthread_ <;> by_cases hq : e.queue_ = [] <;> simp [hs, hq] <;>
    split <;> simp

/-- The flag after `Schedule`. -/
theorem Schedule_started (e : WinEnv) (function arg : Nat) :
    (e.Schedule function arg).started_bgthread_ = true := by
  unfold WinEnv.Schedule WinEnv.Signal WinEnv.StartThread
  by_cases hs : e.started_bgthread_ <;> by_cases hq : e.queue_ = [] <;> simp [hs, hq] <;>
    split <;> simp [hs]

/-- The mutex after `Schedule`. -/
theorem Schedule_mu (e : WinEnv) (function arg : Nat) :
    (e.Schedule function arg).mu_ = none := rfl

/-- The history of scheduled items after `Schedule`. -/
theorem Schedule_scheduled (e : WinEnv) (function arg : Nat) :
    (e.Schedule function arg).scheduled = e.scheduled ++ [⟨arg, function⟩] := by
  unfold WinEnv.Schedule WinEnv.Signal WinEnv.StartThread
  by_cases hs : e.started_bgthread_ <;> by_cases hq : e.queue_ = [] <;> simp [hs, hq] <;>
    split <;> simp

/-- `Schedule` takes nothing from the queue. -/
theorem Schedule_taken (e : WinEnv) (function arg : Nat) :
    (e.Schedule function arg).taken = e.taken := by
  unfold WinEnv.Schedule WinEnv.Signal WinEnv.StartThread
  by_cases hs : e.started_bgthread_ <;> by_cases hq : e.queue_ = [] <;> simp [hs, hq] <;>
    split <;> simp

/-- `Schedule` invokes no task. -/
theorem Schedule_invoked (e : WinEnv) (function arg : Nat) :
    (e.Schedule function arg).invoked = e.invoked := by
  unfold WinEnv.Schedule WinEnv.Signal WinEnv.StartThread
  by_cases hs : e.started_bgthread_ <;> by_cases hq : e.queue_ = [] <;> simp [hs, hq] <;>
    split <;> simp

/-- The number of threads started after `Schedule`. -/
theorem Schedule_threads_started (e : WinEnv) (function arg : Nat) :
    (e.Schedule function arg).threads_started
      = e.threads_started + (if e.started_bgthread_ then 0 else 1) := by
  unfold WinEnv.Schedule WinEnv.Signal WinEnv.StartThread
  by_cases hs : e.started_bgthread_ <;> by_cases hq : e.queue_ = [] <;> simp [hs, hq] <;>
    split <;> simp

/-- The calls on `bgsignal_` after `Schedule`. -/
theorem Schedule_bgsignal_calls (e : WinEnv) (function arg : Nat) :
    (e.Schedule function arg).bgsignal_calls
      = e.bgsignal_calls ++ (if e.queue_.isEmpty then [CvCall.Signal] else []) := by
  unfold WinEnv.Schedule WinEnv.Signal WinEnv.StartThread
  by_cases hs : e.started_bgthread_ <;> by_cases hq : e.queue_ = [] <;> simp [hs, hq] <;>
    split <;> simp

/-- The background thread after `Schedule`. -/
theorem Schedule_bgthread (e : WinEnv) (function arg : Nat) :
    (e.Schedule function arg).bgthread
      = if e.queue_.isEmpty ∧ e.waiting_ > 0 then
          (if e.started_bgthread_ then e.bgthread else some BGWorker.start).map BGWorker.wake
        else (if e.started_bgthread_ then e.bgthread else some BGWorker.start) := by
  unfold WinEnv.Schedule WinEnv.Signal WinEnv.StartThread
  by_cases hs : e.started_bgthread_ <;> by_cases hq : e.queue_ = [] <;> simp [hs, hq] <;>
    split <;> simp

/-- The counter of `bgsignal_` after `Schedule`. -/
theorem Schedule_waiting (e : WinEnv) (function arg : Nat) :
    (e.Schedule function arg).waiting_
      = if e.queue_.isEmpty ∧ e.waiting_ > 0 then e.waiting_ - 1 else e.waiting_ := by
  unfold WinEnv.Schedule WinEnv.Signal WinEnv.StartThread
  by_cases hs : e.started_bgthread_ <;> by_cases hq : e.queue_ = [] <;> simp [hs, hq] <;>
    split <;> simp

/-! ### The invariant of the scheduler -/

/-- A fresh `WinEnv` satisfies the invariant. -/
theorem WinEnv_Inv_new : WinEnv.new.Inv := by
  constructor <;> simp [WinEnv.new, WinEnv.inHand]

/-- A `Schedule` call that finds `mu_` free preserves the invariant. -/
theorem WinEnv_Inv_Schedule (e : WinEnv) (function arg : Nat) (h : e.Inv) (hmu : e.mu_ = none) :
    (e.Schedule function arg).Inv := by
  obtain ⟨fifo, started, count, mu, waiting, front, pop, defined, pending, ifree⟩ := h
  have hb := Schedule_bgthread e function arg
  cases hbg : e.bgthread with
  | none =>
      have hs : e.started_bgthread_ = false := by simp [started, hbg]
      have hw : e.waiting_ = 0 := by simp [waiting, hbg]
      simp only [hs, hw, hbg] at hb
      simp at hb
      constructor
      · rw [Schedule_taken, Schedule_queue, Schedule_scheduled, ← List.append_assoc, fifo]
      · rw [Schedule_started, hb]; rfl
      · rw [Schedule_threads_started, Schedule_started, count, hs]; rfl
      · rw [Schedule_mu, hb]; rfl
      · rw [Schedule_waiting, hb, hw]; simp [BGWorker.start]
      · intro w hw1 hw2; rw [hb] at hw1; cases hw1; simp [BGWorker.start] at hw2
      · intro w hw1 hw2; rw [hb] at hw1; cases hw1; simp [BGWorker.start] at hw2
      · intro w hw1 hw2; rw [hb] at hw1; cases hw1; simp [BGWorker.start] at hw2
      · rw [Schedule_taken, Schedule_invoked, ← pending]
        simp [WinEnv.inHand, hb, hbg, BGWorker.start]
      · rw [Schedule_invoked]; exact ifree
  | some w =>
      have hs : e.started_bgthread_ = true := by simp [started, hbg]
      simp only [hs, hbg, if_true] at hb
      have hfree : w.pc.holdsMu = false := by
        rw [hbg, hmu] at mu
        by_contra hc
        simp [hc] at mu
      simp only [hbg] at waiting
      -- the thread after the call: woken when it was parked and the queue empty
      obtain ⟨w1, hb1, hw1⟩ : ∃ w1, (e.Schedule function arg).bgthread = some w1 ∧
          ((w1 = w ∧ (w.pc = BGPc.parked → e.queue_.isEmpty = false)) ∨
            (w.pc = BGPc.parked ∧ e.queue_.isEmpty = true ∧ w1 = { w with pc := BGPc.relock })) := by
        by_cases hp : w.pc = BGPc.parked <;> by_cases hq : e.queue_.isEmpty = true
        · exact ⟨{ w with pc := BGPc.relock }, by simp [hb, hq, waiting, hp, BGWorker.wake],
            Or.inr ⟨hp, hq, rfl⟩⟩
        · exact ⟨w, by simp [hb, hq], Or.inl ⟨rfl, fun _ => by simpa using hq⟩⟩
        · exact ⟨w, by simp [hb, hq, waiting, hp], Or.inl ⟨rfl, fun h => absurd h hp⟩⟩
        · exact ⟨w, by simp [hb, hq], Or.inl ⟨rfl, fun h => absurd h hp⟩⟩
      constructor
      · rw [Schedule_taken, Schedule_queue, Schedule_scheduled, ← List.append_assoc, fifo]
      · rw [Schedule_started, hb1]; rfl
      · rw [Schedule_threads_started, Schedule_started, count, hs]; rfl
      · rw [Schedule_mu, hb1]
        rcases hw1 with ⟨rfl, _⟩ | ⟨_, _, rfl⟩
        · simp [hfree]
        · simp [BGPc.holdsMu]
      · rw [Schedule_waiting, hb1, waiting]
        rcases hw1 with ⟨rfl, hq⟩ | ⟨hp, hq, rfl⟩
        · by_cases hp : w1.pc = BGPc.parked
          · simp [hp, hq hp]
          · simp [hp]
        · simp [hp, hq]
      · intro w2 _ _
        rw [Schedule_queue]
        simp
      · intro w2 hw2 hpc
        rw [hb1] at hw2
        cases hw2
        rw [Schedule_queue]
        rcases hw1 with ⟨rfl, _⟩ | ⟨_, _, rfl⟩
        · have h1 := pop w1 hbg hpc
          cases hq : e.queue_ with
          | nil => simp [hq] at h1
          | cons x r => simpa [hq] using h1
        · simp at hpc
      · intro w2 hw2 hpc
        rw [hb1] at hw2
        cases hw2
        rcases hw1 with ⟨rfl, _⟩ | ⟨_, _, rfl⟩
        · exact defined _ hbg hpc
        · simp at hpc
      · rw [Schedule_taken, Schedule_invoked, ← pending]
        congr 1
        unfold WinEnv.inHand
        rw [hb1, hbg]
        rcases hw1 with ⟨rfl, _⟩ | ⟨hp, _, rfl⟩
        · rfl
        · simp [hp]
      · rw [Schedule_invoked]; exact ifree

/-- A statement of the background thread preserves the invariant. -/
theorem WinEnv_Inv_BGThread_step (e e1 : WinEnv) (h : e.Inv) (hstep : e.BGThread_step = some e1) :
    e1.Inv := by
  obtain ⟨fifo, started, count, mu, waiting, front, pop, defined, pending, ifree⟩ := h
  obtain ⟨st, q, m, wt, bg, sch, tk, inv, calls, n⟩ := e
  cases bg with
  | none => simp [WinEnv.BGThread_step] at hstep
  | some w =>
    obtain ⟨pc, fn, ar⟩ := w
    simp only [WinEnv.inHand] at pending
    simp only at fifo started count mu waiting front pop defined pending ifree
    simp only [Option.isSome_some] at started
    subst started
    simp only [if_true] at count
    subst count fifo mu waiting
    cases pc <;> simp [WinEnv.BGThread_step, BGPc.holdsMu] at hstep pending
    case lock =>
      subst hstep pending
      constructor <;> first | exact ifree | simp [WinEnv.inHand, BGPc.holdsMu]
    case test =>
      subst pending
      by_cases hq : q = []
      · simp [hq] at hstep
        subst hstep
        constructor <;> first | exact ifree | simp [WinEnv.inHand, BGPc.holdsMu]
      · simp [hq] at hstep
        subst hstep
        constructor <;> first | exact ifree | simp [WinEnv.inHand, BGPc.holdsMu, hq]
    case wait =>
      subst hstep pending
      constructor <;> first | exact ifree | simp [WinEnv.inHand, BGPc.holdsMu]
    case relock =>
      subst hstep pending
      constructor <;> first | exact ifree | simp [WinEnv.inHand, BGPc.holdsMu]
    case front =>
      subst pending
      cases q with
      | nil => simp at front
      | cons it rest =>
        simp at hstep
        subst hstep
        constructor <;> first | exact ifree | simp [WinEnv.inHand, BGPc.holdsMu]
    case pop =>
      subst pending
      cases q with
      | nil => simp at pop
      | cons it rest =>
        simp at hstep pop
        subst hstep pop
        constructor <;> first | exact ifree | simp [WinEnv.inHand, BGPc.holdsMu]
    case unlock =>
      subst hstep pending
      constructor <;> first | exact ifree | simp [WinEnv.inHand, BGPc.holdsMu]
    case invoke =>
      subst hstep pending
      constructor <;> first | simp [WinEnv.inHand, BGPc.holdsMu]
      intro a b hab
      rcases hab with hab | hab
      · exact ifree (a, b) hab
      · exact hab.2


/-- Every action preserves the invariant. -/
theorem WinEnv_Inv_step (e e1 : WinEnv) (a : EnvAction) (h : e.Inv) (hstep : e.step a = some e1) :
    e1.Inv := by
  cases a with
  | schedule function arg =>
      simp only [WinEnv.step] at hstep
      split at hstep
      · rename_i hmu
        simp only [Option.some.injEq] at hstep
        subst hstep
        exact WinEnv_Inv_Schedule e function arg h hmu
      · simp at hstep
  | bgstep => exact WinEnv_Inv_BGThread_step e e1 h hstep

/-- Every run preserves the invariant. -/
theorem WinEnv_Inv_run (as : List EnvAction) (e e1 : WinEnv) (h : e.Inv) (hrun : e.run as = some e1) :
    e1.Inv := by
  induction as generalizing e with
  | nil => simp [WinEnv.run] at hrun; subst hrun; exact h
  | cons a as ih =>
      simp only [WinEnv.run] at hrun
      cases hs : e.step a with
      | none => simp [hs] at hrun
      | some e2 =>
          simp [hs] at hrun
          exact ih e2 (WinEnv_Inv_step e e2 a h hs) hrun

/-- Every reachable state satisfies the invariant. -/
theorem WinEnv_Inv_of_Reachable (e : WinEnv) (h : e.Reachable) : e.Inv := by
  obtain ⟨as, hrun⟩ := h
  exact WinEnv_Inv_run as WinEnv.new e WinEnv_Inv_new hrun

/-- The background thread does not write `started_bgthread_`. -/
theorem BGThread_step_started (e e1 : WinEnv) (hstep : e.BGThread_step = some e1) :
    e1.started_bgthread_ = e.started_bgthread_ := by
  unfold WinEnv.BGThread_step at hstep
  cases hb : e.bgthread with
  | none => simp [hb] at hstep
  | some w =>
    obtain ⟨pc, fn, ar⟩ := w
    cases pc <;> simp [hb] at hstep
    case lock => obtain ⟨_, rfl⟩ := hstep; rfl
    case test => split at hstep <;> simp at hstep <;> subst hstep <;> rfl
    case wait => subst hstep; rfl
    case relock => obtain ⟨_, rfl⟩ := hstep; rfl
    case front => split at hstep <;> simp at hstep <;> subst hstep <;> rfl
    case pop => split at hstep <;> simp at hstep <;> subst hstep <;> rfl
    case unlock => subst hstep; rfl
    case invoke => subst hstep; rfl

/-- The flag after an action: set by `Schedule`, otherwise kept. -/
theorem WinEnv_step_started (e e1 : WinEnv) (a : EnvAction) (hstep : e.step a = some e1) :
    e1.started_bgthread_ = (e.started_bgthread_ || a.isSchedule) := by
  cases a with
  | schedule function arg =>
      simp only [WinEnv.step] at hstep
      split at hstep
      · simp only [Option.some.injEq] at hstep
        subst hstep
        simp [Schedule_started, EnvAction.isSchedule]
      · simp at hstep
  | bgstep =>
      simp [EnvAction.isSchedule, BGThread_step_started e e1 hstep]

/-- The flag after a run: set as soon as the run contains a `Schedule` call. -/
theorem WinEnv_run_started (as : List EnvAction) (e e1 : WinEnv) (hrun : e.run as = some e1) :
    e1.started_bgthread_ = (e.started_bgthread_ || as.any EnvAction.isSchedule) := by
  induction as generalizing e with
  | nil => simp [WinEnv.run] at hrun; subst hrun; simp
  | cons a as ih =>
      simp only [WinEnv.run] at hrun
      cases hs : e.step a with
      | none => simp [hs] at hrun
      | some e2 =>
          simp [hs] at hrun
          rw [ih e2 hrun, WinEnv_step_started e e2 a hs]
          simp [Bool.or_assoc]

/-! ### The scheduler: order, signalling, thread start, mutex -/

/-- C4. In every state a fresh `WinEnv` can reach by any interleaving of `Schedule` calls
and statements of the background thread, the items the thread has taken with
`pop_front`, followed by the items still queued, are the items passed to `Schedule`, in
call order.  Hence the taken items, and the invoked ones (which are the taken ones up to
the item in hand), are each an initial segment of the scheduled items. -/
theorem Schedule_BGThread_fifo (e : WinEnv) (h : e.Reachable) :
    e.taken ++ e.queue_ = e.scheduled ∧
    e.invoked.map Prod.fst ++ e.inHand = e.taken ∧
    e.taken <+: e.scheduled ∧
    e.invoked.map Prod.fst <+: e.scheduled := by
  have hi := WinEnv_Inv_of_Reachable e h
  refine ⟨hi.fifo, hi.pending, ⟨e.queue_, hi.fifo⟩, ⟨e.inHand ++ e.queue_, ?_⟩⟩
  rw [← List.append_assoc, hi.pending, hi.fifo]

/-- C4 on a run in which one task is scheduled and executed, the thread parks, and a second
task is scheduled. -/
theorem Schedule_BGThread_fifo_witness :
    WinEnv.sample.Reachable ∧
    (WinEnv.sample.taken ++ WinEnv.sample.queue_ = WinEnv.sample.scheduled ∧
    WinEnv.sample.invoked.map Prod.fst ++ WinEnv.sample.inHand = WinEnv.sample.taken ∧
    WinEnv.sample.taken <+: WinEnv.sample.scheduled ∧
    WinEnv.sample.invoked.map Prod.fst <+: WinEnv.sample.scheduled) :=
  ⟨⟨WinEnv.sampleActions, by decide⟩,
    Schedule_BGThread_fifo WinEnv.sample ⟨WinEnv.sampleActions, by decide⟩⟩

/-- C5. For every state of the queue and every `function` and `arg`, `Schedule(function,
arg)` leaves the queue it found with one item appended at the back, whose fields are the
values passed: the length grows by one and the items already queued keep their places. -/
theorem Schedule_appends_item (e : WinEnv) (function arg : Nat) :
    (e.Schedule function arg).queue_ = e.queue_ ++ [⟨arg, function⟩] ∧
    (e.Schedule function arg).queue_.length = e.queue_.length + 1 ∧
    (e.Schedule function arg).queue_.take e.queue_.length = e.queue_ ∧
    (e.Schedule function arg).queue_.getLast? = some ⟨arg, function⟩ := by
  rw [Schedule_queue]
  simp

/-- C6. The calls `Schedule` makes on `bgsignal_` are the single call `Signal()` when the
queue it finds is empty, and none when it is not; so the number of `Signal` calls grows by
one or by zero accordingly, and `Schedule` makes no call of `SignalAll`. -/
theorem Schedule_signals_when_empty (e : WinEnv) (function arg : Nat) :
    (e.Schedule function arg).bgsignal_calls
      = e.bgsignal_calls ++ (if e.queue_.isEmpty then [CvCall.Signal] else []) ∧
    (e.Schedule function arg).bgsignal_calls.count CvCall.Signal
      = e.bgsignal_calls.count CvCall.Signal + (if e.queue_.isEmpty then 1 else 0) ∧
    (e.Schedule function arg).bgsignal_calls.count CvCall.SignalAll
      = e.bgsignal_calls.count CvCall.SignalAll := by
  rw [Schedule_bgsignal_calls]
  refine ⟨rfl, ?_, ?_⟩ <;> split <;> simp

/-- C7. A fresh `WinEnv` has `started_bgthread_` false and no thread.  A `Schedule` call
calls `StartThread` exactly when it finds the flag false, and leaves the flag true.  No
action resets the flag.  So after any run from a fresh `WinEnv`, the flag is set exactly
when the run contains a `Schedule` call, and the number of threads started is one when it
contains at least one such call (zero otherwise). -/
theorem Schedule_starts_one_thread (as : List EnvAction) (e : WinEnv)
    (hrun : WinEnv.new.run as = some e) :
    WinEnv.new.started_bgthread_ = false ∧ WinEnv.new.threads_started = 0 ∧
    (∀ (e0 : WinEnv) (function arg : Nat),
      (e0.Schedule function arg).threads_started
        = e0.threads_started + (if e0.started_bgthread_ then 0 else 1) ∧
      (e0.Schedule function arg).started_bgthread_ = true) ∧
    (∀ (e0 e1 : WinEnv) (a : EnvAction), e0.step a = some e1 →
      e0.started_bgthread_ = true → e1.started_bgthread_ = true) ∧
    e.started_bgthread_ = decide (1 ≤ as.countP EnvAction.isSchedule) ∧
    e.threads_started = (if 1 ≤ as.countP EnvAction.isSchedule then 1 else 0) := by
  have hst : e.started_bgthread_ = decide (1 ≤ as.countP EnvAction.isSchedule) := by
    rw [WinEnv_run_started as WinEnv.new e hrun]
    simp only [WinEnv.new, Bool.false_or]
    cases h : as.any EnvAction.isSchedule
    · simp only [List.any_eq_false] at h
      have : as.countP EnvAction.isSchedule = 0 := by
        rw [List.countP_eq_zero]
        intro a ha
        exact h a ha
      simp [this]
    · simp only [List.any_eq_true] at h
      have : 0 < as.countP EnvAction.isSchedule := List.countP_pos_iff.mpr h
      exact (decide_eq_true (by omega)).symm
  refine ⟨rfl, rfl, fun e0 f a => ⟨Schedule_threads_started e0 f a, Schedule_started e0 f a⟩,
    ?_, hst, ?_⟩
  · intro e0 e1 a hstep h0
    rw [WinEnv_step_started e0 e1 a hstep, h0]
    rfl
  · have hc := (WinEnv_Inv_run as WinEnv.new e WinEnv_Inv_new hrun).count
    rw [hc, hst]
    by_cases hn : 1 ≤ as.countP EnvAction.isSchedule <;> simp [hn]

/-- C7 on a run with two `Schedule` calls. -/
theorem Schedule_starts_one_thread_witness :
    WinEnv.new.run WinEnv.sampleActions = some WinEnv.sample ∧
    (WinEnv.new.started_bgthread_ = false ∧ WinEnv.new.threads_started = 0 ∧
    (∀ (e0 : WinEnv) (function arg : Nat),
      (e0.Schedule function arg).threads_started
        = e0.threads_started + (if e0.started_bgthread_ then 0 else 1) ∧
      (e0.Schedule function arg).started_bgthread_ = true) ∧
    (∀ (e0 e1 : WinEnv) (a : EnvAction), e0.step a = some e1 →
      e0.started_bgthread_ = true → e1.started_bgthread_ = true) ∧
    WinEnv.sample.started_bgthread_
      = decide (1 ≤ WinEnv.sampleActions.countP EnvAction.isSchedule) ∧
    WinEnv.sample.threads_started
      = (if 1 ≤ WinEnv.sampleActions.countP EnvAction.isSchedule then 1 else 0)) :=
  ⟨by decide, Schedule_starts_one_thread WinEnv.sampleActions WinEnv.sample (by decide)⟩

/-- C8. In every reachable state: the background thread holds `mu_` exactly at the
statements from the test of the queue to `mu_.Unlock()` (outside `Wait()`), in particular
at `queue_.front()` and `queue_.pop_front()`; at `(*function)(arg)` and at `mu_.Lock()` it
does not hold it (the mutex is free); every invocation made so far was made with the mutex
free; and the statement `(*function)(arg)` leaves the mutex alone and leads to `mu_.Lock()`
of the next iteration, which is where the thread acquires it again. -/
theorem BGThread_invokes_unlocked (e : WinEnv) (h : e.Reachable) :
    (∀ x ∈ e.invoked, x.2 = none) ∧
    (∀ w, e.bgthread = some w →
      (e.mu_ = some MuOwner.bgthread ↔ w.pc.holdsMu = true) ∧
      (w.pc = BGPc.front ∨ w.pc = BGPc.pop → e.mu_ = some MuOwner.bgthread) ∧
      (w.pc = BGPc.invoke →
        e.mu_ = none ∧
        e.BGThread_step = some { e with
          invoked := e.invoked ++ [(⟨w.arg, w.function⟩, none)]
          bgthread := some { w with pc := BGPc.lock } }) ∧
      (w.pc = BGPc.lock →
        e.mu_ = none ∧
        e.BGThread_step = some { e with
          mu_ := some MuOwner.bgthread
          bgthread := some { w with pc := BGPc.test } })) := by
  have hi := WinEnv_Inv_of_Reachable e h
  refine ⟨hi.invoked_free, ?_⟩
  intro w hw
  have hmu := hi.mu
  rw [hw] at hmu
  simp only at hmu
  obtain ⟨pc, fn, ar⟩ := w
  refine ⟨?_, ?_, ?_, ?_⟩
  · rw [hmu]; split <;> simp_all
  · rintro (hp | hp) <;> simp only at hp <;> subst hp <;> simpa [BGPc.holdsMu] using hmu
  · intro hp
    simp only at hp
    subst hp
    have hm : e.mu_ = none := by simpa [BGPc.holdsMu] using hmu
    refine ⟨hm, ?_⟩
    simp [WinEnv.BGThread_step, hw, hm]
  · intro hp
    simp only at hp
    subst hp
    have hm : e.mu_ = none := by simpa [BGPc.holdsMu] using hmu
    refine ⟨hm, ?_⟩
    simp [WinEnv.BGThread_step, hw, hm]

/-- C8 on a run that ends with the thread at `(*function)(arg)`. -/
theorem BGThread_invokes_unlocked_witness :
    WinEnv.atInvoke.Reachable ∧
    ((∀ x ∈ WinEnv.atInvoke.invoked, x.2 = none) ∧
    (∀ w, WinEnv.atInvoke.bgthread = some w →
      (WinEnv.atInvoke.mu_ = some MuOwner.bgthread ↔ w.pc.holdsMu = true) ∧
      (w.pc = BGPc.front ∨ w.pc = BGPc.pop → WinEnv.atInvoke.mu_ = some MuOwner.bgthread) ∧
      (w.pc = BGPc.invoke →
        WinEnv.atInvoke.mu_ = none ∧
        WinEnv.atInvoke.BGThread_step = some { WinEnv.atInvoke with
          invoked := WinEnv.atInvoke.invoked ++ [(⟨w.arg, w.function⟩, none)]
          bgthread := some { w with pc := BGPc.lock } }) ∧
      (w.pc = BGPc.lock →
        WinEnv.atInvoke.mu_ = none ∧
        WinEnv.atInvoke.BGThread_step = some { WinEnv.atInvoke with
          mu_ := some MuOwner.bgthread
          bgthread := some { w with pc := BGPc.test } }))) :=
  ⟨⟨WinEnv.atInvokeActions, by decide⟩,
    BGThread_invokes_unlocked WinEnv.atInvoke ⟨WinEnv.atInvokeActions, by decide⟩⟩

namespace port

/-! ### The invariants of `SignalAll` -/

/-- The invariant holds when `SignalAll` is entered with a non-negative counter. -/
theorem SignalAll_Inv_enter (w : Int) (hw : 0 ≤ w) (c1 c2 parked : Nat) :
    (SignalAllSys.enter w c1 c2 parked).Inv := by
  simp [SignalAllSys.Inv, SignalAllSys.enter, SignalAllThread.enter, hw]

/-- Every action preserves the invariant of `SignalAll`. -/
theorem SignalAll_Inv_step (s s1 : SignalAllSys) (a : SignalAllAction) (h : s.Inv)
    (hstep : s.step a = some s1) : s1.Inv := by
  obtain ⟨⟨w, m, c1, c2⟩, ⟨pc, i, ops⟩, p, k, r⟩ := s
  cases a with
  | signaller =>
      simp only [SignalAllSys.step] at hstep
      cases hr : CondVar.SignalAll_step ⟨w, m, c1, c2⟩ ⟨pc, i, ops⟩ with
      | none => simp [hr] at hstep
      | some r1 =>
        simp only [hr, Option.some.injEq] at hstep
        subst hstep
        obtain ⟨cv1, t1⟩ := r1
        cases pc <;> simp only [CondVar.SignalAll_step] at hr <;>
          simp only [SignalAllSys.Inv] at h
        case lock =>
          split at hr
          · simp at hr
          · simp at hr; obtain ⟨rfl, rfl⟩ := hr; simp [SignalAllSys.Inv, h]
        case forInit =>
          simp at hr; obtain ⟨rfl, rfl⟩ := hr; simp [SignalAllSys.Inv, h]
        case forTest =>
          split at hr <;> simp at hr <;> obtain ⟨rfl, rfl⟩ := hr <;>
            simp [SignalAllSys.Inv, h] <;> omega
        case release =>
          simp at hr; obtain ⟨rfl, rfl⟩ := hr; simp [SignalAllSys.Inv, h]
        case whileTest =>
          split at hr <;> simp at hr <;> obtain ⟨rfl, rfl⟩ := hr <;>
            simp [SignalAllSys.Inv, h] <;> omega
        case dec =>
          simp at hr; obtain ⟨rfl, rfl⟩ := hr; simp [SignalAllSys.Inv, h]; omega
        case waitSem2 =>
          split at hr
          · simp at hr
          · simp at hr; obtain ⟨rfl, rfl⟩ := hr; simp [SignalAllSys.Inv, h]
        case forInc =>
          simp at hr; obtain ⟨rfl, rfl⟩ := hr; simp [SignalAllSys.Inv, h]
        case unlock =>
          simp at hr; obtain ⟨rfl, rfl⟩ := hr; simp [SignalAllSys.Inv, h]
        case returned => simp at hr
  | waiterWake =>
      simp only [SignalAllSys.step] at hstep
      split at hstep
      · split at hstep
        · simp at hstep
        · simp at hstep; subst hstep; exact h
      · simp at hstep
  | waiterAck =>
      simp only [SignalAllSys.step] at hstep
      split at hstep
      · simp at hstep; subst hstep; exact h
      · simp at hstep

/-- Every run preserves the invariant of `SignalAll`. -/
theorem SignalAll_Inv_run (as : List SignalAllAction) (s s1 : SignalAllSys) (h : s.Inv)
    (hrun : s.run as = some s1) : s1.Inv := by
  induction as generalizing s with
  | nil => simp [SignalAllSys.run] at hrun; subst hrun; exact h
  | cons a as ih =>
      simp only [SignalAllSys.run] at hrun
      cases hs : s.step a with
      | none => simp [hs] at hrun
      | some s2 =>
          simp [hs] at hrun
          exact ih s2 (SignalAll_Inv_step s s2 a h hs) hrun

/-- The invariant for blocked waiters holds when `SignalAll` is entered. -/
theorem SignalAll_BlockedInv_blocked (n : Nat) : (SignalAllSys.blocked n).BlockedInv n := by
  simp [SignalAllSys.BlockedInv, SignalAllSys.blocked, SignalAllSys.enter,
    SignalAllThread.enter]

/-- With at least two blocked waiters, every action preserves the invariant for blocked
waiters. -/
theorem SignalAll_BlockedInv_step (n : Nat) (hn : 2 ≤ n) (s s1 : SignalAllSys)
    (a : SignalAllAction) (h : s.BlockedInv n) (hstep : s.step a = some s1) :
    s1.BlockedInv n := by
  obtain ⟨⟨w, m, c1, c2⟩, ⟨pc, i, ops⟩, p, k, r⟩ := s
  obtain ⟨h1, h2, h3, h4, h5⟩ := h
  simp only at h1 h2 h3 h4 h5
  cases a with
  | signaller =>
      simp only [SignalAllSys.step] at hstep
      cases hr : CondVar.SignalAll_step ⟨w, m, c1, c2⟩ ⟨pc, i, ops⟩ with
      | none => simp [hr] at hstep
      | some r1 =>
        simp only [hr, Option.some.injEq] at hstep
        subst hstep
        obtain ⟨cv1, t1⟩ := r1
        cases pc <;> simp only [CondVar.SignalAll_step] at hr <;> simp only at h5
        case lock =>
          split at hr
          · simp at hr
          · simp at hr; obtain ⟨rfl, rfl⟩ := hr
            simp [SignalAllSys.BlockedInv, h1, h2, h3, h4, h5]
        case forInit =>
          simp at hr; obtain ⟨rfl, rfl⟩ := hr
          simp [SignalAllSys.BlockedInv, h1, h2, h3, h4, h5]
        case forTest =>
          split at hr
          · simp at hr; obtain ⟨rfl, rfl⟩ := hr
            simp [SignalAllSys.BlockedInv, h1, h2, h3, h4, h5]
          · rename_i hlt
            omega
        case release =>
          simp at hr; obtain ⟨rfl, rfl⟩ := hr
          have hc1 : c1 = 0 := by omega
          have hr0 : r = 0 := by omega
          have hk0 : k = 0 := by omega
          have hc : List.count CvOp.sem2Wait ops = 0 := by omega
          simp [SignalAllSys.BlockedInv, h5, hc1, hr0, hk0, hc, ReleaseSemaphore]
          omega
        case whileTest =>
          split at hr
          · simp at hr; obtain ⟨rfl, rfl⟩ := hr
            simp [SignalAllSys.BlockedInv, h1, h2, h3, h4, h5]
          · rename_i hle
            omega
        case dec =>
          simp at hr; obtain ⟨rfl, rfl⟩ := hr
          simp [SignalAllSys.BlockedInv, h1, h2, h3, h4, h5]
        case waitSem2 =>
          simp only [WaitForSingleObject] at hr
          split at hr
          · simp at hr
          · rename_i c hc
            split at hc
            · simp at hc hr
              obtain ⟨rfl, rfl⟩ := hr
              subst hc
              simp [SignalAllSys.BlockedInv, h1, h3, h4, h5]
              constructor <;> omega
            · simp at hc
  | waiterWake =>
      simp only [SignalAllSys.step, WaitForSingleObject] at hstep
      split at hstep
      · split at hstep
        · simp at hstep
        · rename_i c hc
          split at hc
          · simp at hc hstep
            subst hc hstep
            refine ⟨?_, h2, h3, ?_, h5⟩ <;> simp only <;> omega
          · simp at hc
      · simp at hstep
  | waiterAck =>
      simp only [SignalAllSys.step] at hstep
      split at hstep
      · simp at hstep; subst hstep
        have hc2 : c2 ≤ 1 := by omega
        refine ⟨?_, ?_, h3, ?_, h5⟩ <;> simp only [ReleaseSemaphore] <;>
          first | omega | (split <;> omega)
      · simp at hstep

/-- With at least two blocked waiters, every run preserves the invariant for blocked
waiters. -/
theorem SignalAll_BlockedInv_run (n : Nat) (hn : 2 ≤ n) (as : List SignalAllAction)
    (s s1 : SignalAllSys) (h : s.BlockedInv n) (hrun : s.run as = some s1) :
    s1.BlockedInv n := by
  induction as generalizing s with
  | nil => simp [SignalAllSys.run] at hrun; subst hrun; exact h
  | cons a as ih =>
      simp only [SignalAllSys.run] at hrun
      cases hs : s.step a with
      | none => simp [hs] at hrun
      | some s2 =>
          simp [hs] at hrun
          exact ih s2 (SignalAll_BlockedInv_step n hn s s2 a h hs) hrun

/-- With two or more threads blocked in `Wait()` on a condition variable whose semaphores
are at `0`, `SignalAll` never returns, releases `sem1_` at most once, and at most one
waiter ever leaves the handshake, in whatever order the threads take their steps. -/
theorem SignalAll_blocked_never_returns (n : Nat) (hn : 2 ≤ n) (as : List SignalAllAction)
    (s : SignalAllSys) (hrun : (SignalAllSys.blocked n).run as = some s) :
    s.t.pc ≠ SignalAllPc.returned ∧ s.t.ops.count CvOp.sem1Release ≤ 1 ∧ s.released ≤ 1 := by
  have hi := SignalAll_BlockedInv_run n hn as _ s (SignalAll_BlockedInv_blocked n) hrun
  obtain ⟨h1, _, h3, _, h5⟩ := hi
  refine ⟨?_, h3, by omega⟩
  intro hp
  rw [hp] at h5
  exact h5

/-- For every `w ≥ 0` and whatever the semaphores hold, `SignalAll` releases `sem1_` at
most once. -/
theorem SignalAll_releases_sem1_at_most_once (w : Int) (hw : 0 ≤ w) (c1 c2 parked : Nat)
    (as : List SignalAllAction) (s : SignalAllSys)
    (hrun : (SignalAllSys.enter w c1 c2 parked).run as = some s) :
    s.t.ops.count CvOp.sem1Release ≤ 1 :=
  (SignalAll_Inv_run as _ s (SignalAll_Inv_enter w hw c1 c2 parked) hrun).2.1

/-! ### `SignalAll` run by the signaller alone -/

/-- A run of two lists of actions is the run of the first followed by the run of the
second. -/
theorem SignalAllSys_run_append (as bs : List SignalAllAction) (s : SignalAllSys) :
    s.run (as ++ bs) = (s.run as).bind fun s1 => s1.run bs := by
  induction as generalizing s with
  | nil => simp [SignalAllSys.run]
  | cons a as ih =>
      simp only [List.cons_append, SignalAllSys.run]
      cases s.step a with
      | none => rfl
      | some s2 => simpa using ih s2

/-- The inner loop of `SignalAll` (lines 90-93) run by the signaller alone: with `k` on the
counter and at least `k` on `sem2_`, it takes `k` rounds and leaves the counter at `0`. -/
theorem SignalAll_inner_loop (k j c1 p wk r : Nat) (i : Int) (ops : List CvOp) :
    (⟨⟨(k : Int), true, c1, k + j⟩, ⟨SignalAllPc.whileTest, i, ops⟩, p, wk, r⟩ :
        SignalAllSys).run (List.replicate (3 * k) SignalAllAction.signaller)
      = some ⟨⟨0, true, c1, j⟩,
          ⟨SignalAllPc.whileTest, i, ops ++ List.replicate k CvOp.sem2Wait⟩, p, wk, r⟩ := by
  induction k generalizing ops with
  | zero => simp [SignalAllSys.run]
  | succ k ih =>
      have h3 : 3 * (k + 1) = (3 * k) + 1 + 1 + 1 := by ring
      rw [h3]
      simp only [List.replicate_succ, SignalAllSys.run, SignalAllSys.step,
        CondVar.SignalAll_step]
      have hpos : ((k + 1 : Nat) : Int) > 0 := by omega
      simp only [hpos, if_true, Option.some_bind, WaitForSingleObject]
      have hs : 0 < k + 1 + j := by omega
      simp only [hs, if_true, Option.some_bind]
      have e1 : ((k + 1 : Nat) : Int) - 1 = (k : Int) := by omega
      have e2 : k + 1 + j - 1 = k + j := by omega
      rw [e1, e2, ih]
      simp [List.replicate_succ]

/-- Given enough acknowledgements on `sem2_`, `SignalAll` returns for every `n`: entered
with `waiting_ = n` and at least `n` on `sem2_`, the signaller alone runs to its return.
It then has released `sem1_` once when `n ≥ 1` (not at all when `n = 0`) and has waited on
`sem2_` `n` times. -/
theorem SignalAll_returns_given_acknowledgements (n c1 j parked : Nat) :
    ∃ as s, (SignalAllSys.enter n c1 (n + j) parked).run as = some s ∧
      s.t.pc = SignalAllPc.returned ∧ s.cv.waiting_ = 0 ∧ s.cv.wait_mtx_ = false ∧
      s.t.ops = [CvOp.waitMtxLock] ++
        (if n = 0 then [] else CvOp.sem1Release :: List.replicate n CvOp.sem2Wait) ++
        [CvOp.waitMtxUnlock] := by
  cases n with
  | zero =>
      refine ⟨List.replicate 4 SignalAllAction.signaller,
        ⟨⟨0, false, c1, 0 + j⟩,
          ⟨SignalAllPc.returned, 0, [CvOp.waitMtxLock, CvOp.waitMtxUnlock]⟩, parked, 0, 0⟩,
        ?_, rfl, rfl, rfl, rfl⟩
      simp [SignalAllSys.run, SignalAllSys.step, CondVar.SignalAll_step, SignalAllSys.enter,
        SignalAllThread.enter, List.replicate_succ]
  | succ m =>
      refine ⟨List.replicate 4 SignalAllAction.signaller ++
        (List.replicate (3 * (m + 1)) SignalAllAction.signaller ++
          List.replicate 4 SignalAllAction.signaller), ?_⟩
      have hpos : (0 : Int) < ((m + 1 : Nat) : Int) := by omega
      have h1 : (SignalAllSys.enter ((m + 1 : Nat) : Int) c1 (m + 1 + j) parked).run
          (List.replicate 4 SignalAllAction.signaller)
          = some ⟨⟨((m + 1 : Nat) : Int), true, ReleaseSemaphore c1, m + 1 + j⟩,
              ⟨SignalAllPc.whileTest, 0, [CvOp.waitMtxLock, CvOp.sem1Release]⟩, parked, 0, 0⟩ := by
        simp [SignalAllSys.run, SignalAllSys.step, CondVar.SignalAll_step, SignalAllSys.enter,
          SignalAllThread.enter, List.replicate_succ, hpos]
      rw [SignalAllSys_run_append, h1, Option.some_bind, SignalAllSys_run_append,
        SignalAll_inner_loop, Option.some_bind]
      refine ⟨⟨⟨0, false, ReleaseSemaphore c1, j⟩,
          ⟨SignalAllPc.returned, 0 + 1,
            [CvOp.waitMtxLock, CvOp.sem1Release] ++ List.replicate (m + 1) CvOp.sem2Wait ++
              [CvOp.waitMtxUnlock]⟩, parked, 0, 0⟩,
        ?_, rfl, rfl, rfl, ?_⟩
      · simp [SignalAllSys.run, SignalAllSys.step, CondVar.SignalAll_step,
          List.replicate_succ]
      · simp

/-! ### `SignalAll`: waiters released, state at return -/

/-- C9, evaluation at the failing input.  `SignalAll` is entered with two threads blocked
in `Wait()` (`waiting_ = 2`, both semaphores at `0`).  The run below is the only one
possible up to the order of independent steps; at its end `SignalAll` has released `sem1_`
once and has completed one wait on `sem2_`, one waiter has left the handshake and the
other is still parked, the counter is already `0`, and `SignalAll` stands in its second
`WaitForSingleObject(sem2_)` holding `wait_mtx_`: no thread can take a step. -/
theorem SignalAll_two_waiters_one_release :
    (SignalAllSys.blocked 2).run SignalAllSys.stuckActions = some SignalAllSys.stuck ∧
    SignalAllSys.stuck.t.ops = [CvOp.waitMtxLock, CvOp.sem1Release, CvOp.sem2Wait] ∧
    SignalAllSys.stuck.t.ops.count CvOp.sem1Release = 1 ∧
    SignalAllSys.stuck.released = 1 ∧ SignalAllSys.stuck.parked = 1 ∧
    SignalAllSys.stuck.cv.waiting_ = 0 ∧ SignalAllSys.stuck.cv.wait_mtx_ = true ∧
    SignalAllSys.stuck.t.pc = SignalAllPc.waitSem2 ∧
    SignalAllSys.stuck.step SignalAllAction.signaller = none ∧
    SignalAllSys.stuck.step SignalAllAction.waiterWake = none ∧
    SignalAllSys.stuck.step SignalAllAction.waiterAck = none := by
  decide

/-- The state at a return of `SignalAll`.  For every `w ≥ 0`: in a state in which a call
entered with `waiting_ = w` has returned (whatever the counts of the semaphores and the
number of parked waiters, with no thread entering `Wait()` during the call, and in whatever
order the threads took their steps), `waiting_` is `0` and `wait_mtx_` is released.
Whether such a state is reached is another matter: see
`SignalAll_returns_given_acknowledgements` and `SignalAll_blocked_never_returns`. -/
theorem SignalAll_returns_zero_unlocked (w : Int) (hw : 0 ≤ w) (c1 c2 parked : Nat)
    (as : List SignalAllAction) (s : SignalAllSys)
    (hrun : (SignalAllSys.enter w c1 c2 parked).run as = some s)
    (hret : s.t.pc = SignalAllPc.returned) :
    s.cv.waiting_ = 0 ∧ s.cv.wait_mtx_ = false := by
  have hi := SignalAll_Inv_run as _ s (SignalAll_Inv_enter w hw c1 c2 parked) hrun
  unfold SignalAllSys.Inv at hi
  rw [hret] at hi
  exact ⟨hi.2.2.2, hi.2.2.1⟩

/-- The complete run of `SignalAll` with one thread blocked in `Wait()`: the call returns
with `waiting_ = 0` and `wait_mtx_` released. -/
theorem SignalAll_returns_zero_unlocked_witness :
    (0 : Int) ≤ 1 ∧
    (SignalAllSys.enter 1 0 0 1).run SignalAllSys.oneWaiterActions
      = some SignalAllSys.oneWaiterEnd ∧
    SignalAllSys.oneWaiterEnd.t.pc = SignalAllPc.returned ∧
    (SignalAllSys.oneWaiterEnd.cv.waiting_ = 0 ∧
      SignalAllSys.oneWaiterEnd.cv.wait_mtx_ = false) :=
  ⟨by decide, by decide, rfl,
    SignalAll_returns_zero_unlocked 1 (by decide) 0 0 1 SignalAllSys.oneWaiterActions
      SignalAllSys.oneWaiterEnd (by decide) rfl⟩

/-- C10, at the failing inputs.  `SignalAll` is entered with `n ≥ 2` threads blocked in
`Wait()` (`waiting_ = n`, both semaphores at `0`, no thread entering `Wait()` during the
call).  In whatever order the threads take their steps, the call never completes, and
from its `wait_mtx_->Lock()` on `wait_mtx_` is held: the state in which the call has
completed with the counter at `0` and the private mutex released is never reached. -/
theorem SignalAll_blocked_never_completes (n : Nat) (hn : 2 ≤ n)
    (as : List SignalAllAction) (s : SignalAllSys)
    (hrun : (SignalAllSys.blocked n).run as = some s) :
    s.t.pc ≠ SignalAllPc.returned ∧
    (s.t.pc ≠ SignalAllPc.lock → s.cv.wait_mtx_ = true) := by
  have hb := SignalAll_BlockedInv_run n hn as _ s (SignalAll_BlockedInv_blocked n) hrun
  have hi := SignalAll_Inv_run as _ s
    (SignalAll_Inv_enter (n : Int) (by omega) 0 0 n) hrun
  obtain ⟨_, _, _, _, h5⟩ := hb
  obtain ⟨_, _, h3⟩ := hi
  cases hpc : s.t.pc <;> rw [hpc] at h5 h3 <;> simp_all

/-- C10 with two threads blocked in `Wait()`: at the end of the run the counter is `0`,
`SignalAll` stands in its second `WaitForSingleObject(sem2_)` holding `wait_mtx_`, and no
thread can take a step. -/
theorem SignalAll_blocked_never_completes_witness :
    (2 ≤ 2) ∧
    (SignalAllSys.blocked 2).run SignalAllSys.stuckActions = some SignalAllSys.stuck ∧
    (SignalAllSys.stuck.t.pc ≠ SignalAllPc.returned ∧
      (SignalAllSys.stuck.t.pc ≠ SignalAllPc.lock → SignalAllSys.stuck.cv.wait_mtx_ = true)) ∧
    SignalAllSys.stuck.cv.waiting_ = 0 ∧
    SignalAllSys.stuck.step SignalAllAction.signaller = none ∧
    SignalAllSys.stuck.step SignalAllAction.waiterWake = none ∧
    SignalAllSys.stuck.step SignalAllAction.waiterAck = none :=
  ⟨by decide, by decide,
    SignalAll_blocked_never_completes 2 (by decide) SignalAllSys.stuckActions
      SignalAllSys.stuck (by decide),
    by decide, by decide, by decide, by decide⟩

end port

namespace port

/-! ### `AtomicPointer`: stores and loads -/

/-- C16. For every value `v` and every cell: after `Release_Store(v)` or
`NoBarrier_Store(v)` both `Acquire_Load` and `NoBarrier_Load` return `v`; the two stores
give the same cell; the two loads return the same value and leave the cell as it was; a
cell constructed from `p` loads `p` and a default-constructed cell loads null. -/
theorem AtomicPointer_store_load (a : AtomicPointer) (v p junk : Nat) :
    ((a.Release_Store v).Acquire_Load).2 = v ∧
    ((a.Release_Store v).NoBarrier_Load).2 = v ∧
    ((a.NoBarrier_Store v).Acquire_Load).2 = v ∧
    ((a.NoBarrier_Store v).NoBarrier_Load).2 = v ∧
    a.Release_Store v = a.NoBarrier_Store v ∧
    a.Acquire_Load.2 = a.NoBarrier_Load.2 ∧
    a.Acquire_Load.1 = a ∧ a.NoBarrier_Load.1 = a ∧
    ((AtomicPointer.mk_from junk p).Acquire_Load).2 = p ∧
    ((AtomicPointer.mk_from junk p).NoBarrier_Load).2 = p ∧
    AtomicPointer.default.Acquire_Load.2 = 0 ∧
    AtomicPointer.default.NoBarrier_Load.2 = 0 :=
  ⟨rfl, rfl, rfl, rfl, rfl, rfl, rfl, rfl, rfl, rfl, rfl, rfl⟩

/-! ### `InitOnce`: the word while the initializer runs -/

/-- C17, evaluation at the failing input, on either build.  One thread enters `InitOnce` on
a word that is `LEVELDB_ONCE_INIT`.  After the compare-exchange of line 126 the thread is
about to invoke the initializer and the word is still Uninitialized; it is still
Uninitialized once the initializer has been invoked and while it runs, and it is not
Executing; the word becomes Done with the statement of line 134, after the initializer has
returned. -/
theorem InitOnce_word_while_initializer_runs {σ : Type} (build : Build)
    (initializer : Int × σ → Int × σ) (b : Int) (u : σ) :
    OnceSys.run build initializer (OnceSys.init b u 1) [0, 0, 0]
      = ⟨⟨ONCE_STATE_UNINITIALIZED, b, u, 0, 0⟩,
          [⟨OncePc.call, ONCE_STATE_UNINITIALIZED⟩]⟩ ∧
    OnceSys.run build initializer (OnceSys.init b u 1) [0, 0, 0, 0]
      = ⟨⟨ONCE_STATE_UNINITIALIZED, b, u, 1, 0⟩,
          [⟨OncePc.running, ONCE_STATE_UNINITIALIZED⟩]⟩ ∧
    OnceSys.run build initializer (OnceSys.init b u 1) [0, 0, 0, 0, 0]
      = ⟨⟨ONCE_STATE_UNINITIALIZED, (initializer (b, u)).1, (initializer (b, u)).2, 1, 1⟩,
          [⟨OncePc.store, ONCE_STATE_UNINITIALIZED⟩]⟩ ∧
    OnceSys.run build initializer (OnceSys.init b u 1) [0, 0, 0, 0, 0, 0]
      = ⟨⟨ONCE_STATE_DONE, if build.sizeofPVOID = 8 then 0 else (initializer (b, u)).1,
            (initializer (b, u)).2, 1, 1⟩,
          [⟨OncePc.returned, ONCE_STATE_UNINITIALIZED⟩]⟩ ∧
    ONCE_STATE_UNINITIALIZED ≠ ONCE_STATE_EXECUTING_CLOSURE := by
  cases build <;> exact ⟨rfl, rfl, rfl, rfl, by decide⟩

end port

/-! ### The background thread and the front of the queue -/

/-- C18. In every reachable state the background thread has met no undefined behaviour,
and: at the test of line 469 an empty queue leads to `Wait()` and nowhere else, a
non-empty one to `queue_.front()`; at `queue_.front()` and at `queue_.pop_front()` the
queue is not empty; `queue_.front()` reads the fields of the first item; and
`queue_.pop_front()` removes exactly that item, which is the one just read, and leaves
the rest of the queue as it is. -/
theorem BGThread_front_of_nonempty_queue (e : WinEnv) (h : e.Reachable) :
    ∀ w, e.bgthread = some w →
      w.pc ≠ BGPc.undefined ∧
      (w.pc = BGPc.test → e.queue_ = [] →
        e.BGThread_step = some { e with bgthread := some { w with pc := BGPc.wait } }) ∧
      (w.pc = BGPc.test → e.queue_ ≠ [] →
        e.BGThread_step = some { e with bgthread := some { w with pc := BGPc.front } }) ∧
      (w.pc = BGPc.front → ∃ it rest, e.queue_ = it :: rest ∧
        e.BGThread_step = some { e with
          bgthread := some { pc := BGPc.pop, function := it.function, arg := it.arg } }) ∧
      (w.pc = BGPc.pop → ∃ it rest, e.queue_ = it :: rest ∧
        it = ⟨w.arg, w.function⟩ ∧
        e.BGThread_step = some { e with
          queue_ := rest
          taken := e.taken ++ [it]
          bgthread := some { w with pc := BGPc.unlock } }) := by
  have hi := WinEnv_Inv_of_Reachable e h
  intro w hw
  obtain ⟨pc, fn, ar⟩ := w
  refine ⟨hi.defined _ hw, ?_, ?_, ?_, ?_⟩
  · intro hp hq
    simp only at hp
    subst hp
    simp [WinEnv.BGThread_step, hw, hq]
  · intro hp hq
    simp only at hp
    subst hp
    simp [WinEnv.BGThread_step, hw, hq]
  · intro hp
    simp only at hp
    subst hp
    have hne := hi.front _ hw rfl
    cases hq : e.queue_ with
    | nil => exact absurd hq hne
    | cons it rest =>
        refine ⟨it, rest, rfl, ?_⟩
        simp [WinEnv.BGThread_step, hw, hq]
  · intro hp
    simp only at hp
    subst hp
    have hhd := hi.pop _ hw rfl
    cases hq : e.queue_ with
    | nil => simp [hq] at hhd
    | cons it rest =>
        simp only [hq, List.head?_cons, Option.some.injEq] at hhd
        refine ⟨it, rest, rfl, hhd, ?_⟩
        simp [WinEnv.BGThread_step, hw, hq]

/-- C18 on a run that ends with the thread at `queue_.pop_front()`. -/
theorem BGThread_front_of_nonempty_queue_witness :
    WinEnv.atPop.Reachable ∧
    (∀ w, WinEnv.atPop.bgthread = some w →
      w.pc ≠ BGPc.undefined ∧
      (w.pc = BGPc.test → WinEnv.atPop.queue_ = [] →
        WinEnv.atPop.BGThread_step
          = some { WinEnv.atPop with bgthread := some { w with pc := BGPc.wait } }) ∧
      (w.pc = BGPc.test → WinEnv.atPop.queue_ ≠ [] →
        WinEnv.atPop.BGThread_step
          = some { WinEnv.atPop with bgthread := some { w with pc := BGPc.front } }) ∧
      (w.pc = BGPc.front → ∃ it rest, WinEnv.atPop.queue_ = it :: rest ∧
        WinEnv.atPop.BGThread_step = some { WinEnv.atPop with
          bgthread := some { pc := BGPc.pop, function := it.function, arg := it.arg } }) ∧
      (w.pc = BGPc.pop → ∃ it rest, WinEnv.atPop.queue_ = it :: rest ∧
        it = ⟨w.arg, w.function⟩ ∧
        WinEnv.atPop.BGThread_step = some { WinEnv.atPop with
          queue_ := rest
          taken := WinEnv.atPop.taken ++ [it]
          bgthread := some { w with pc := BGPc.unlock } })) :=
  ⟨⟨WinEnv.atPopActions, by decide⟩,
    BGThread_front_of_nonempty_queue WinEnv.atPop ⟨WinEnv.atPopActions, by decide⟩⟩

/-! ### `NowMicros` and the rollover of the timer -/

/-- The calls for a sequence extended by one reading. -/
theorem NowMicros_calls_append (s : NowMicrosState) (rs : List Nat) (r : Nat) :
    NowMicros.calls s (rs ++ [r])
      = ((NowMicros (NowMicros.calls s rs).1 r).1,
          (NowMicros.calls s rs).2 ++ [(NowMicros (NowMicros.calls s rs).1 r).2]) := by
  induction rs generalizing s with
  | nil => rfl
  | cons a rs ih => simp [NowMicros.calls, ih]

/-- The last reading of a sequence extended by one reading. -/
theorem NowMicros_lastSeen_append (last : Nat) (rs : List Nat) (r : Nat) :
    NowMicros.lastSeen last (rs ++ [r]) = r := by
  induction rs generalizing last with
  | nil => rfl
  | cons a rs ih => simpa [NowMicros.lastSeen] using ih a

/-- The number of decreases of a sequence extended by one reading. -/
theorem NowMicros_decreases_append (last : Nat) (rs : List Nat) (r : Nat) :
    NowMicros.decreases last (rs ++ [r])
      = NowMicros.decreases last rs + (if r < NowMicros.lastSeen last rs then 1 else 0) := by
  induction rs generalizing last with
  | nil => simp [NowMicros.decreases, NowMicros.lastSeen]
  | cons a rs ih =>
      show (if a < last then 1 else 0) + NowMicros.decreases a (rs ++ [r])
        = (if a < last then 1 else 0) + NowMicros.decreases a rs
          + (if r < NowMicros.lastSeen a rs then 1 else 0)
      rw [ih a]
      omega

/-- The last reading seen is one of the readings, or the initial one. -/
theorem NowMicros_lastSeen_lt (last : Nat) (rs : List Nat) (b : Nat) (hl : last < b)
    (hrs : ∀ x ∈ rs, x < b) : NowMicros.lastSeen last rs < b := by
  induction rs generalizing last with
  | nil => exact hl
  | cons a rs ih =>
      exact ih a (hrs a (List.mem_cons_self a rs)) fun x hx => hrs x (List.mem_cons_of_mem a hx)

/-- After any sequence of 32-bit readings from the initial statics: `last_seen_now` is the
last reading, `rollover_ms` is `2^32` times the number of decreases modulo `2^64`, and no
value returned so far exceeds `1000 * (last reading + 2^32 * decreases)`. -/
theorem NowMicros_calls_invariant (rs : List Nat) (hrs : ∀ x ∈ rs, x < 2 ^ 32) :
    (NowMicros.calls NowMicrosState.init rs).1
      = ⟨(2 ^ 32 * NowMicros.decreases 0 rs) % 2 ^ 64, NowMicros.lastSeen 0 rs⟩ ∧
    ∀ v ∈ (NowMicros.calls NowMicrosState.init rs).2,
      v ≤ 1000 * (NowMicros.lastSeen 0 rs + 2 ^ 32 * NowMicros.decreases 0 rs) := by
  induction rs using List.reverseRecOn with
  | nil => simp [NowMicros.calls, NowMicrosState.init, NowMicros.decreases, NowMicros.lastSeen]
  | append_singleton rs r ih =>
      have hrs1 : ∀ x ∈ rs, x < 2 ^ 32 := fun x hx => hrs x (List.mem_append_left _ hx)
      have hr : r < 2 ^ 32 := hrs r (by simp)
      obtain ⟨hst, hv⟩ := ih hrs1
      have hlast : NowMicros.lastSeen 0 rs < 2 ^ 32 :=
        NowMicros_lastSeen_lt 0 rs _ (by norm_num) hrs1
      rw [NowMicros_calls_append, hst, NowMicros_lastSeen_append, NowMicros_decreases_append]
      simp only [NowMicros]
      constructor
      · by_cases hd : r < NowMicros.lastSeen 0 rs
        · simp only [hd, if_true, NowMicrosState.mk.injEq, and_true]
          omega
        · simp [hd]
      · intro v hmem
        rcases List.mem_append.mp hmem with hm | hm
        · have h1 := hv v hm
          by_cases hd : r < NowMicros.lastSeen 0 rs
          · simp only [hd, if_true]
            omega
          · simp only [hd, if_false]
            omega
        · simp only [List.mem_singleton] at hm
          subst hm
          by_cases hd : r < NowMicros.lastSeen 0 rs
          · simp only [hd, if_true]
            omega
          · simp only [hd, if_false]
            omega

/-- C20. From the statics `(0, 0)`, for every sequence of 32-bit readings `rs` fed to
successive calls and every further 32-bit reading `r`, with `k` the number of strict
decreases between consecutive readings of `rs ++ [r]` (the first compared with the initial
`last_seen_now = 0`): the call that reads `r` returns `1000 * (r + 2^32 * k)` reduced
modulo `2^64`; and as long as `1000 * (r + 2^32 * k)` is below `2^64` it returns exactly
that number, which is at least every value returned before. -/
theorem NowMicros_monotone_across_rollover (rs : List Nat) (r : Nat)
    (hrs : ∀ x ∈ rs, x < 2 ^ 32) (hr : r < 2 ^ 32) :
    (NowMicros (NowMicros.calls NowMicrosState.init rs).1 r).2
      = (1000 * (r + 2 ^ 32 * NowMicros.decreases 0 (rs ++ [r]))) % 2 ^ 64 ∧
    (1000 * (r + 2 ^ 32 * NowMicros.decreases 0 (rs ++ [r])) < 2 ^ 64 →
      (NowMicros (NowMicros.calls NowMicrosState.init rs).1 r).2
        = 1000 * (r + 2 ^ 32 * NowMicros.decreases 0 (rs ++ [r])) ∧
      ∀ v ∈ (NowMicros.calls NowMicrosState.init rs).2,
        v ≤ (NowMicros (NowMicros.calls NowMicrosState.init rs).1 r).2) := by
  have hall : ∀ x ∈ rs ++ [r], x < 2 ^ 32 := by
    intro x hx
    rcases List.mem_append.mp hx with h | h
    · exact hrs x h
    · simp only [List.mem_singleton] at h
      exact h ▸ hr
  obtain ⟨hst, _⟩ := NowMicros_calls_invariant rs hrs
  obtain ⟨_, hv⟩ := NowMicros_calls_invariant (rs ++ [r]) hall
  have hval : (NowMicros (NowMicros.calls NowMicrosState.init rs).1 r).2
      = (1000 * (r + 2 ^ 32 * NowMicros.decreases 0 (rs ++ [r]))) % 2 ^ 64 := by
    rw [hst, NowMicros_decreases_append]
    simp only [NowMicros]
    by_cases hd : r < NowMicros.lastSeen 0 rs
    · simp only [hd, if_true]
      omega
    · simp only [hd, if_false]
      omega
  refine ⟨hval, fun hlt => ?_⟩
  have hexact : (NowMicros (NowMicros.calls NowMicrosState.init rs).1 r).2
      = 1000 * (r + 2 ^ 32 * NowMicros.decreases 0 (rs ++ [r])) := by
    rw [hval]
    exact Nat.mod_eq_of_lt hlt
  refine ⟨hexact, fun v hm => ?_⟩
  rw [hexact]
  have h1 := hv v (by rw [NowMicros_calls_append]; exact List.mem_append_left _ hm)
  rw [NowMicros_lastSeen_append] at h1
  exact h1

/-- C20 on the readings `4294967290, 5, 3` followed by `4`: two decreases. -/
theorem NowMicros_monotone_across_rollover_witness :
    (∀ x ∈ [4294967290, 5, 3], x < 2 ^ 32) ∧ 4 < 2 ^ 32 ∧
    ((NowMicros (NowMicros.calls NowMicrosState.init [4294967290, 5, 3]).1 4).2
      = (1000 * (4 + 2 ^ 32 * NowMicros.decreases 0 ([4294967290, 5, 3] ++ [4]))) % 2 ^ 64 ∧
    (1000 * (4 + 2 ^ 32 * NowMicros.decreases 0 ([4294967290, 5, 3] ++ [4])) < 2 ^ 64 →
      (NowMicros (NowMicros.calls NowMicrosState.init [4294967290, 5, 3]).1 4).2
        = 1000 * (4 + 2 ^ 32 * NowMicros.decreases 0 ([4294967290, 5, 3] ++ [4])) ∧
      ∀ v ∈ (NowMicros.calls NowMicrosState.init [4294967290, 5, 3]).2,
        v ≤ (NowMicros (NowMicros.calls NowMicrosState.init [4294967290, 5, 3]).1 4).2)) :=
  ⟨by decide, by decide,
    NowMicros_monotone_across_rollover [4294967290, 5, 3] 4 (by decide) (by decide)⟩

namespace port

/-! ### `Signal`: with waiters, without waiters -/

/-- The statement-wise description of `Signal` with a positive counter holds at entry. -/
theorem Signal_InvPos_enter (w : Int) (c1 c2 parked : Nat) :
    (SignalSys.enter w c1 c2 parked).InvPos w := by
  simp [SignalSys.InvPos, SignalSys.enter, SignalThread.enter]

/-- Every action preserves the statement-wise description of `Signal` with a positive
counter. -/
theorem Signal_InvPos_step (w : Int) (hw : 0 < w) (s s1 : SignalSys) (a : SignalAllAction)
    (h : s.InvPos w) (hstep : s.step a = some s1) : s1.InvPos w := by
  obtain ⟨⟨w0, m, c1, c2⟩, ⟨pc, ops⟩, p, k, r⟩ := s
  cases a with
  | signaller =>
      simp only [SignalSys.step] at hstep
      cases hr : CondVar.Signal_step ⟨w0, m, c1, c2⟩ ⟨pc, ops⟩ with
      | none => simp [hr] at hstep
      | some r1 =>
        simp only [hr, Option.some.injEq] at hstep
        subst hstep
        obtain ⟨cv1, t1⟩ := r1
        cases pc <;> simp only [CondVar.Signal_step] at hr <;>
          simp only [SignalSys.InvPos] at h
        case lock =>
          split at hr
          · simp at hr
          · simp at hr; obtain ⟨rfl, rfl⟩ := hr; simp [SignalSys.InvPos, h]
        case test =>
          split at hr
          · simp at hr; obtain ⟨rfl, rfl⟩ := hr; simp [SignalSys.InvPos, h]
          · rename_i hle
            omega
        case dec =>
          simp at hr; obtain ⟨rfl, rfl⟩ := hr; simp [SignalSys.InvPos, h]
        case release =>
          simp at hr; obtain ⟨rfl, rfl⟩ := hr; simp [SignalSys.InvPos, h]
        case waitSem2 =>
          split at hr
          · simp at hr
          · simp at hr; obtain ⟨rfl, rfl⟩ := hr; simp [SignalSys.InvPos, h]
        case unlock =>
          simp at hr; obtain ⟨rfl, rfl⟩ := hr; simp [SignalSys.InvPos, h]
        case returned => simp at hr
  | waiterWake =>
      simp only [SignalSys.step] at hstep
      split at hstep
      · split at hstep
        · simp at hstep
        · simp at hstep; subst hstep; exact h
      · simp at hstep
  | waiterAck =>
      simp only [SignalSys.step] at hstep
      split at hstep
      · simp at hstep; subst hstep; exact h
      · simp at hstep

/-- Every run preserves the statement-wise description of `Signal` with a positive
counter. -/
theorem Signal_InvPos_run (w : Int) (hw : 0 < w) (as : List SignalAllAction)
    (s s1 : SignalSys) (h : s.InvPos w) (hrun : s.run as = some s1) : s1.InvPos w := by
  induction as generalizing s with
  | nil => simp [SignalSys.run] at hrun; subst hrun; exact h
  | cons a as ih =>
      simp only [SignalSys.run] at hrun
      cases hs : s.step a with
      | none => simp [hs] at hrun
      | some s2 =>
          simp [hs] at hrun
          exact ih s2 (Signal_InvPos_step w hw s s2 a h hs) hrun

/-- The statement-wise description of `Signal` with the counter at `0` holds at entry. -/
theorem Signal_InvZero_enter (c1 c2 parked : Nat) :
    (SignalSys.enter 0 c1 c2 parked).InvZero := by
  simp [SignalSys.InvZero, SignalSys.enter, SignalThread.enter]

/-- Every action preserves the statement-wise description of `Signal` with the counter at
`0`. -/
theorem Signal_InvZero_step (s s1 : SignalSys) (a : SignalAllAction)
    (h : s.InvZero) (hstep : s.step a = some s1) : s1.InvZero := by
  obtain ⟨⟨w0, m, c1, c2⟩, ⟨pc, ops⟩, p, k, r⟩ := s
  obtain ⟨hz, h⟩ := h
  simp only at hz
  subst hz
  cases a with
  | signaller =>
      simp only [SignalSys.step] at hstep
      cases hr : CondVar.Signal_step ⟨0, m, c1, c2⟩ ⟨pc, ops⟩ with
      | none => simp [hr] at hstep
      | some r1 =>
        simp only [hr, Option.some.injEq] at hstep
        subst hstep
        obtain ⟨cv1, t1⟩ := r1
        cases pc <;> simp only [CondVar.Signal_step] at hr <;> simp only at h
        case lock =>
          split at hr
          · simp at hr
          · simp at hr; obtain ⟨rfl, rfl⟩ := hr; simp [SignalSys.InvZero, h]
        case test =>
          simp at hr; obtain ⟨rfl, rfl⟩ := hr; simp [SignalSys.InvZero, h]
        case unlock =>
          simp at hr; obtain ⟨rfl, rfl⟩ := hr; simp [SignalSys.InvZero, h]
        case returned => simp at hr
  | waiterWake =>
      simp only [SignalSys.step] at hstep
      split at hstep
      · split at hstep
        · simp at hstep
        · simp at hstep; subst hstep; exact ⟨rfl, h⟩
      · simp at hstep
  | waiterAck =>
      simp only [SignalSys.step] at hstep
      split at hstep
      · simp at hstep; subst hstep; exact ⟨rfl, h⟩
      · simp at hstep

/-- Every run preserves the statement-wise description of `Signal` with the counter at
`0`. -/
theorem Signal_InvZero_run (as : List SignalAllAction) (s s1 : SignalSys) (h : s.InvZero)
    (hrun : s.run as = some s1) : s1.InvZero := by
  induction as generalizing s with
  | nil => simp [SignalSys.run] at hrun; subst hrun; exact h
  | cons a as ih =>
      simp only [SignalSys.run] at hrun
      cases hs : s.step a with
      | none => simp [hs] at hrun
      | some s2 =>
          simp [hs] at hrun
          exact ih s2 (Signal_InvZero_step s s2 a h hs) hrun

/-- C11. For every `w > 0`, in every run of a `Signal` call entered with `waiting_ = w`
(whatever the semaphores hold, no thread entering `Wait()` during the call): the
operations performed so far are an initial segment of lock `wait_mtx_`, release `sem1_`,
wait on `sem2_`, unlock `wait_mtx_`; from the test to the unlock `wait_mtx_` is held; and
when the call has returned it has performed exactly these four operations in this order,
`waiting_` is `w - 1` and `wait_mtx_` is free.  With a waiter parked on fresh semaphores
the call does return, after the waiter has acknowledged. -/
theorem Signal_with_waiters (w : Int) (hw : 0 < w) (c1 c2 parked : Nat)
    (as : List SignalAllAction) (s : SignalSys)
    (hrun : (SignalSys.enter w c1 c2 parked).run as = some s) :
    s.t.ops <+: [CvOp.waitMtxLock, CvOp.sem1Release, CvOp.sem2Wait, CvOp.waitMtxUnlock] ∧
    (s.t.pc ≠ SignalPc.lock → s.t.pc ≠ SignalPc.returned → s.cv.wait_mtx_ = true) ∧
    (s.t.pc = SignalPc.returned →
      s.t.ops = [CvOp.waitMtxLock, CvOp.sem1Release, CvOp.sem2Wait, CvOp.waitMtxUnlock] ∧
      s.cv.waiting_ = w - 1 ∧ s.cv.wait_mtx_ = false) ∧
    (SignalSys.enter w 0 0 (parked + 1)).run SignalSys.oneWaiterActions
      = some ⟨⟨w - 1, false, 0, 0⟩,
          ⟨SignalPc.returned,
            [CvOp.waitMtxLock, CvOp.sem1Release, CvOp.sem2Wait, CvOp.waitMtxUnlock]⟩,
          parked, 0, 1⟩ := by
  have hi := Signal_InvPos_run w hw as _ s (Signal_InvPos_enter w c1 c2 parked) hrun
  obtain ⟨cv, ⟨pc, ops⟩, p, k, r⟩ := s
  refine ⟨?_, ?_, ?_, ?_⟩
  · cases pc <;> simp only [SignalSys.InvPos] at hi <;> obtain ⟨h1, _⟩ := hi <;>
      simp only [h1] <;> decide
  · intro h1 h2
    cases pc <;> simp only [SignalSys.InvPos] at hi <;> simp_all
  · intro h1
    simp only at h1
    subst h1
    exact hi
  · simp [SignalSys.run, SignalSys.step, CondVar.Signal_step, SignalSys.enter,
      SignalThread.enter, SignalSys.oneWaiterActions, WaitForSingleObject, ReleaseSemaphore,
      hw]

/-- C11 on the complete run of `Signal` with one thread blocked in `Wait()`. -/
theorem Signal_with_waiters_witness :
    (0 : Int) < 1 ∧
    (SignalSys.enter 1 0 0 1).run SignalSys.oneWaiterActions = some SignalSys.oneWaiterEnd ∧
    (SignalSys.oneWaiterEnd.t.ops
        <+: [CvOp.waitMtxLock, CvOp.sem1Release, CvOp.sem2Wait, CvOp.waitMtxUnlock] ∧
    (SignalSys.oneWaiterEnd.t.pc ≠ SignalPc.lock →
      SignalSys.oneWaiterEnd.t.pc ≠ SignalPc.returned →
      SignalSys.oneWaiterEnd.cv.wait_mtx_ = true) ∧
    (SignalSys.oneWaiterEnd.t.pc = SignalPc.returned →
      SignalSys.oneWaiterEnd.t.ops
        = [CvOp.waitMtxLock, CvOp.sem1Release, CvOp.sem2Wait, CvOp.waitMtxUnlock] ∧
      SignalSys.oneWaiterEnd.cv.waiting_ = 1 - 1 ∧
      SignalSys.oneWaiterEnd.cv.wait_mtx_ = false) ∧
    (SignalSys.enter 1 0 0 (1 + 1)).run SignalSys.oneWaiterActions
      = some ⟨⟨1 - 1, false, 0, 0⟩,
          ⟨SignalPc.returned,
            [CvOp.waitMtxLock, CvOp.sem1Release, CvOp.sem2Wait, CvOp.waitMtxUnlock]⟩,
          1, 0, 1⟩) :=
  ⟨by decide, by decide,
    Signal_with_waiters 1 (by decide) 0 0 1 SignalSys.oneWaiterActions SignalSys.oneWaiterEnd
      (by decide)⟩

/-- C12. When `waiting_` is `0` (and `wait_mtx_` is free), `Signal` run on its own returns
after locking and unlocking `wait_mtx_` and nothing else: the condition variable is as it
was, counter and both semaphore counts included.  And in every run of such a call next to
other threads' semaphore operations, the call is never at its wait on `sem2_`, has
performed no semaphore operation, and the counter is `0`. -/
theorem Signal_without_waiters (cv : CondVar) (hz : cv.waiting_ = 0)
    (hfree : cv.wait_mtx_ = false) :
    cv.Signal_run 4 SignalThread.enter
      = some (cv, ⟨SignalPc.returned, [CvOp.waitMtxLock, CvOp.waitMtxUnlock]⟩) ∧
    (∀ (c1 c2 parked : Nat) (as : List SignalAllAction) (s : SignalSys),
      (SignalSys.enter 0 c1 c2 parked).run as = some s →
        s.t.pc ≠ SignalPc.waitSem2 ∧ CvOp.sem1Release ∉ s.t.ops ∧
        CvOp.sem2Wait ∉ s.t.ops ∧ s.cv.waiting_ = 0) := by
  constructor
  · obtain ⟨w, m, c1, c2⟩ := cv
    simp only at hz hfree
    subst hz hfree
    simp [CondVar.Signal_run, CondVar.Signal_step, SignalThread.enter]
  · intro c1 c2 parked as s hrun
    have hi := Signal_InvZero_run as _ s (Signal_InvZero_enter c1 c2 parked) hrun
    obtain ⟨cv1, ⟨pc, ops⟩, p, k, r⟩ := s
    obtain ⟨hz1, h⟩ := hi
    cases pc <;> simp only at h <;> simp_all

/-- C12 on a freshly constructed condition variable. -/
theorem Signal_without_waiters_witness :
    CondVar.new.waiting_ = 0 ∧ CondVar.new.wait_mtx_ = false ∧
    (CondVar.new.Signal_run 4 SignalThread.enter
      = some (CondVar.new, ⟨SignalPc.returned, [CvOp.waitMtxLock, CvOp.waitMtxUnlock]⟩) ∧
    (∀ (c1 c2 parked : Nat) (as : List SignalAllAction) (s : SignalSys),
      (SignalSys.enter 0 c1 c2 parked).run as = some s →
        s.t.pc ≠ SignalPc.waitSem2 ∧ CvOp.sem1Release ∉ s.t.ops ∧
        CvOp.sem2Wait ∉ s.t.ops ∧ s.cv.waiting_ = 0)) :=
  ⟨rfl, rfl, Signal_without_waiters CondVar.new rfl rfl⟩

end port

namespace port

/-! ### `Mutex::AssertHeld` and `Wait` -/

/-- C19. On every constructed `Mutex` (`mu_` not null), whoever owns it or nobody, and
whoever calls, `AssertHeld` returns and leaves the mutex as it was.  Consequently a thread
that calls `Wait` without owning the associated mutex passes line 60 with nothing changed,
and `Wait` goes on through lines 62-64: after five statements it has incremented
`waiting_`, no `assert` has failed, and it has made the call `mu_->Unlock()` of line 66,
which Win32 leaves undefined for a thread that is not the owner. -/
theorem AssertHeld_checks_no_ownership (m : Mutex) (self : Nat) (hm : m.mu_ ≠ 0) :
    m.AssertHeld self = Outcome.returns m ∧
    (∀ cv : CondVar, cv.wait_mtx_ = false → m.owner ≠ some self →
      cv.Wait_steps 1 m self WaitThread.enter = some (cv, m, ⟨WaitPc.lockWaitMtx, []⟩) ∧
      cv.Wait_steps 5 m self WaitThread.enter
        = some ({ cv with waiting_ := cv.waiting_ + 1 }, m,
            ⟨WaitPc.undefined, [WaitOp.cv CvOp.waitMtxLock, WaitOp.incWaiting,
              WaitOp.cv CvOp.waitMtxUnlock]⟩)) := by
  have ha : m.AssertHeld self = Outcome.returns m := by
    simp [Mutex.AssertHeld, hm]
  refine ⟨ha, ?_⟩
  intro cv hfree hown
  obtain ⟨w, wm, c1, c2⟩ := cv
  simp only at hfree
  subst hfree
  constructor
  · simp [CondVar.Wait_steps, CondVar.Wait_step, WaitThread.enter, ha, WaitThread.afterMu]
  · simp [CondVar.Wait_steps, CondVar.Wait_step, WaitThread.enter, ha, WaitThread.afterMu,
      Mutex.Unlock, hm, hown]

/-- C19 on a mutex owned by thread `1` and a `Wait` called by thread `2`. -/
theorem AssertHeld_checks_no_ownership_witness :
    (⟨8, some 1, 1⟩ : Mutex).mu_ ≠ 0 ∧
    ((⟨8, some 1, 1⟩ : Mutex).AssertHeld 2 = Outcome.returns ⟨8, some 1, 1⟩ ∧
    (∀ cv : CondVar, cv.wait_mtx_ = false → (⟨8, some 1, 1⟩ : Mutex).owner ≠ some 2 →
      cv.Wait_steps 1 ⟨8, some 1, 1⟩ 2 WaitThread.enter
        = some (cv, ⟨8, some 1, 1⟩, ⟨WaitPc.lockWaitMtx, []⟩) ∧
      cv.Wait_steps 5 ⟨8, some 1, 1⟩ 2 WaitThread.enter
        = some ({ cv with waiting_ := cv.waiting_ + 1 }, ⟨8, some 1, 1⟩,
            ⟨WaitPc.undefined, [WaitOp.cv CvOp.waitMtxLock, WaitOp.incWaiting,
              WaitOp.cv CvOp.waitMtxUnlock]⟩))) :=
  ⟨by decide, AssertHeld_checks_no_ownership ⟨8, some 1, 1⟩ 2 (by decide)⟩

/-- One statement of `Wait` changes `waiting_` by one at `++waiting_` and not at all
elsewhere. -/
theorem Wait_step_waiting (cv : CondVar) (mu : Mutex) (self : Nat) (t : WaitThread)
    (r : CondVar × Mutex × WaitThread) (h : cv.Wait_step mu self t = some r) :
    r.1.waiting_ = cv.waiting_ + (if t.pc = WaitPc.inc then 1 else 0) := by
  obtain ⟨pc, ops⟩ := t
  cases pc <;> simp only [CondVar.Wait_step, WaitThread.afterMu] at h
  case assertHeld => split at h <;> simp at h <;> subst h <;> simp
  case lockWaitMtx => split at h <;> simp at h; subst h; simp
  case inc => simp at h; subst h; simp
  case unlockWaitMtx => simp at h; subst h; simp
  case unlockMu => split at h <;> simp at h <;> subst h <;> simp
  case waitSem1 => split at h <;> simp at h; subst h; simp
  case releaseSem2 => simp at h; subst h; simp
  case lockMu => split at h <;> simp at h <;> subst h <;> simp
  case returned => simp at h
  case aborted => simp at h
  case undefined => simp at h

/-- One statement of `Wait` keeps the history in step with the program counter. -/
theorem Wait_step_InOrder (cv : CondVar) (mu : Mutex) (self : Nat) (t : WaitThread)
    (r : CondVar × Mutex × WaitThread) (h : cv.Wait_step mu self t = some r)
    (ht : t.InOrder) : r.2.2.InOrder := by
  obtain ⟨pc, ops⟩ := t
  unfold WaitThread.InOrder at ht ⊢
  cases pc <;> simp only [CondVar.Wait_step, WaitThread.afterMu] at h <;>
    simp [WaitPc.done, WaitThread.allOps] at ht
  case assertHeld => split at h <;> simp at h <;> subst h <;> simp [ht, WaitPc.done]
  case lockWaitMtx =>
    split at h <;> simp at h; subst h; simp [ht, WaitPc.done, WaitThread.allOps]
  case inc => simp at h; subst h; simp [ht, WaitPc.done, WaitThread.allOps]
  case unlockWaitMtx => simp at h; subst h; simp [ht, WaitPc.done, WaitThread.allOps]
  case unlockMu =>
    split at h <;> simp at h <;> subst h <;> simp [ht, WaitPc.done, WaitThread.allOps]
  case waitSem1 =>
    split at h <;> simp at h; subst h; simp [ht, WaitPc.done, WaitThread.allOps]
  case releaseSem2 => simp at h; subst h; simp [ht, WaitPc.done, WaitThread.allOps]
  case lockMu =>
    split at h <;> simp at h <;> subst h <;> simp [ht, WaitPc.done, WaitThread.allOps]
  case returned => simp at h
  case aborted => simp at h
  case undefined => simp at h

/-- A statement of `Wait` after which the activation has returned is the `mu_->Lock()` of
line 71, and leaves the associated mutex owned by the caller. -/
theorem Wait_step_returned_owner (cv : CondVar) (mu : Mutex) (self : Nat) (t : WaitThread)
    (r : CondVar × Mutex × WaitThread) (h : cv.Wait_step mu self t = some r)
    (hret : r.2.2.pc = WaitPc.returned) : t.pc = WaitPc.lockMu ∧ r.2.1.owner = some self := by
  obtain ⟨pc, ops⟩ := t
  cases pc <;> simp only [CondVar.Wait_step, WaitThread.afterMu] at h
  case assertHeld => split at h <;> simp at h <;> subst h <;> simp at hret
  case lockWaitMtx => split at h <;> simp at h; subst h; simp at hret
  case inc => simp at h; subst h; simp at hret
  case unlockWaitMtx => simp at h; subst h; simp at hret
  case unlockMu => split at h <;> simp at h <;> subst h <;> simp at hret
  case waitSem1 => split at h <;> simp at h; subst h; simp at hret
  case releaseSem2 => simp at h; subst h; simp at hret
  case lockMu =>
    refine ⟨rfl, ?_⟩
    split at h <;> simp at h <;> subst h <;> simp at hret
    rename_i m hm
    simp only [Mutex.Lock] at hm
    split at hm
    · simp at hm
    · split at hm
      · simp at hm; subst hm; rfl
      · split at hm
        · rename_i o ho heq
          simp at hm; subst hm; subst heq; exact ho
        · simp at hm
  case returned => simp at h
  case aborted => simp at h
  case undefined => simp at h

/-- C13. `Wait`, called by the owner of the associated mutex and run on its own with a
signal pending on `sem1_`, returns after exactly these operations in this order: lock
`wait_mtx_`, `++waiting_`, unlock `wait_mtx_`, unlock `mu_`, wait on `sem1_`, release
`sem2_`, lock `mu_`; the counter is one more than before, `sem1_` one less, `sem2_`
released once, and the associated mutex is owned by the caller as before.  Next to other
threads: every statement of `Wait` changes `waiting_` by `+1` at `++waiting_` and by
nothing elsewhere, keeps the operations performed an initial segment of that list, and a
`Wait` that returns does so from `mu_->Lock()` with the associated mutex owned by the
caller. -/
theorem Wait_operations_in_order (cv : CondVar) (mu : Mutex) (self : Nat)
    (hm : mu.mu_ ≠ 0) (hown : mu.owner = some self) (hrec : mu.recursion = 1)
    (hfree : cv.wait_mtx_ = false) (hs1 : 0 < cv.sem1_) :
    cv.Wait_run 9 mu self WaitThread.enter
      = some ({ cv with waiting_ := cv.waiting_ + 1, sem1_ := cv.sem1_ - 1,
                        sem2_ := ReleaseSemaphore cv.sem2_ }, mu,
          ⟨WaitPc.returned,
            [WaitOp.cv CvOp.waitMtxLock, WaitOp.incWaiting, WaitOp.cv CvOp.waitMtxUnlock,
              WaitOp.muUnlock, WaitOp.cv CvOp.sem1Wait, WaitOp.cv CvOp.sem2Release,
              WaitOp.muLock]⟩) ∧
    WaitThread.enter.InOrder ∧
    (∀ (cv0 : CondVar) (mu0 : Mutex) (t0 : WaitThread) (r : CondVar × Mutex × WaitThread),
      cv0.Wait_step mu0 self t0 = some r →
        r.1.waiting_ = cv0.waiting_ + (if t0.pc = WaitPc.inc then 1 else 0) ∧
        (t0.InOrder → r.2.2.InOrder) ∧
        (r.2.2.pc = WaitPc.returned → t0.pc = WaitPc.lockMu ∧ r.2.1.owner = some self)) ∧
    (∀ t : WaitThread, t.InOrder → t.pc = WaitPc.returned →
      t.ops = [WaitOp.cv CvOp.waitMtxLock, WaitOp.incWaiting, WaitOp.cv CvOp.waitMtxUnlock,
        WaitOp.muUnlock, WaitOp.cv CvOp.sem1Wait, WaitOp.cv CvOp.sem2Release,
        WaitOp.muLock]) := by
  refine ⟨?_, Or.inr (Or.inr rfl), ?_, ?_⟩
  · obtain ⟨w, wm, c1, c2⟩ := cv
    obtain ⟨p, o, n⟩ := mu
    simp only at hm hown hrec hfree hs1
    subst hown hrec hfree
    simp [CondVar.Wait_run, CondVar.Wait_step, WaitThread.enter, WaitThread.afterMu,
      Mutex.AssertHeld, Mutex.Unlock, Mutex.Lock, WaitForSingleObject, hm, hs1]
  · intro cv0 mu0 t0 r h
    exact ⟨Wait_step_waiting cv0 mu0 self t0 r h, Wait_step_InOrder cv0 mu0 self t0 r h,
      Wait_step_returned_owner cv0 mu0 self t0 r h⟩
  · intro t ht hp
    rcases ht with h | h | h
    · rw [hp] at h; cases h
    · rw [hp] at h; cases h
    · rw [h, hp]; rfl

/-- C13 on a condition variable with one signal pending and a mutex owned by the caller,
thread `0`. -/
theorem Wait_operations_in_order_witness :
    (⟨8, some 0, 1⟩ : Mutex).mu_ ≠ 0 ∧ (⟨8, some 0, 1⟩ : Mutex).owner = some 0 ∧
    (⟨8, some 0, 1⟩ : Mutex).recursion = 1 ∧ (⟨0, false, 1, 0⟩ : CondVar).wait_mtx_ = false ∧
    0 < (⟨0, false, 1, 0⟩ : CondVar).sem1_ ∧
    ((⟨0, false, 1, 0⟩ : CondVar).Wait_run 9 ⟨8, some 0, 1⟩ 0 WaitThread.enter
      = some ({ (⟨0, false, 1, 0⟩ : CondVar) with
                  waiting_ := (⟨0, false, 1, 0⟩ : CondVar).waiting_ + 1,
                  sem1_ := (⟨0, false, 1, 0⟩ : CondVar).sem1_ - 1,
                  sem2_ := ReleaseSemaphore (⟨0, false, 1, 0⟩ : CondVar).sem2_ },
          ⟨8, some 0, 1⟩,
          ⟨WaitPc.returned,
            [WaitOp.cv CvOp.waitMtxLock, WaitOp.incWaiting, WaitOp.cv CvOp.waitMtxUnlock,
              WaitOp.muUnlock, WaitOp.cv CvOp.sem1Wait, WaitOp.cv CvOp.sem2Release,
              WaitOp.muLock]⟩) ∧
    WaitThread.enter.InOrder ∧
    (∀ (cv0 : CondVar) (mu0 : Mutex) (t0 : WaitThread) (r : CondVar × Mutex × WaitThread),
      cv0.Wait_step mu0 0 t0 = some r →
        r.1.waiting_ = cv0.waiting_ + (if t0.pc = WaitPc.inc then 1 else 0) ∧
        (t0.InOrder → r.2.2.InOrder) ∧
        (r.2.2.pc = WaitPc.returned → t0.pc = WaitPc.lockMu ∧ r.2.1.owner = some 0)) ∧
    (∀ t : WaitThread, t.InOrder → t.pc = WaitPc.returned →
      t.ops = [WaitOp.cv CvOp.waitMtxLock, WaitOp.incWaiting, WaitOp.cv CvOp.waitMtxUnlock,
        WaitOp.muUnlock, WaitOp.cv CvOp.sem1Wait, WaitOp.cv CvOp.sem2Release,
        WaitOp.muLock])) :=
  ⟨by decide, rfl, rfl, rfl, by decide,
    Wait_operations_in_order ⟨0, false, 1, 0⟩ ⟨8, some 0, 1⟩ 0 (by decide) rfl rfl rfl
      (by decide)⟩

end port

namespace port

/-! ### `Wait` and `Signal`: the handshake -/

/-- C15, counterexample.  It is not the case that in every interleaving of one `Wait` and
one `Signal` the `Wait` has returned once the `Signal` has: in the run
`HandoffSys.signalFirst` the signaller has returned and the waiter stands at the
`mu_->Lock()` of line 71.  When the signaller holds the associated mutex while it signals
(run `HandoffSys.signalFirstLocked`), the waiter is moreover blocked there at the moment
`Signal` returns.  And a `Signal` that tests `waiting_` before the `Wait` that has begun
increments it returns without waking anyone (run `HandoffSys.signalEarly`). -/
theorem Signal_can_return_before_Wait :
    ¬ (∀ (as : List HandoffAction) (h : HandoffSys),
        (HandoffSys.init 8).run as = some h → h.s.pc = SignalPc.returned →
          h.w.pc = WaitPc.returned) ∧
    (HandoffSys.init 8).run HandoffSys.signalFirstLocked
      = some HandoffSys.signalFirstLockedEnd ∧
    HandoffSys.signalFirstLockedEnd.s.pc = SignalPc.returned ∧
    HandoffSys.signalFirstLockedEnd.w.pc = WaitPc.lockMu ∧
    HandoffSys.signalFirstLockedEnd.step HandoffAction.waiter = none ∧
    (HandoffSys.init 8).run HandoffSys.signalEarly
      = some ⟨CondVar.new, ⟨8, some 0, 1⟩, ⟨WaitPc.lockWaitMtx, []⟩,
          ⟨SignalPc.returned, [CvOp.waitMtxLock, CvOp.waitMtxUnlock]⟩⟩ := by
  refine ⟨?_, by decide, rfl, rfl, by decide, by decide⟩
  intro hall
  have h1 := hall HandoffSys.signalFirst HandoffSys.signalFirstEnd (by decide) rfl
  exact absurd h1 (by decide)

/-- The invariant of one `Wait` and one `Signal` holds when both are entered. -/
theorem Handoff_Inv_init (p : Nat) : (HandoffSys.init p).Inv p := by
  constructor <;>
    simp [HandoffSys.init, WaitThread.enter, SignalThread.enter, WaitPc.done, WaitPc.ownsMu,
      SignalThread.InOrder, CondVar.new]

/-- A statement of `Wait` preserves the invariant. -/
theorem Handoff_Inv_waiter (p : Nat) (hp : p ≠ 0) (h h1 : HandoffSys) (hi : h.Inv p)
    (hstep : h.step HandoffAction.waiter = some h1) : h1.Inv p := by
  obtain ⟨⟨wt, wm, c1, c2⟩, ⟨mp, mo, mr⟩, ⟨pc, wops⟩, ⟨spc, sops⟩⟩ := h
  obtain ⟨i1, i2, i3, i4, i5, i6, i7, i8, i9⟩ := hi
  simp only at i1 i2 i3 i4 i5 i6 i7 i8 i9
  subst i1
  simp only [HandoffSys.step] at hstep
  cases hr : CondVar.Wait_step ⟨wt, wm, c1, c2⟩ ⟨mp, mo, mr⟩ 0 ⟨pc, wops⟩ with
  | none => simp [hr] at hstep
  | some r =>
    simp only [hr, Option.some.injEq] at hstep
    subst hstep
    obtain ⟨cv1, mu1, t1⟩ := r
    cases pc <;> simp only [CondVar.Wait_step, WaitThread.afterMu] at hr <;>
      simp only [WaitPc.done, WaitPc.ownsMu] at i4 i5 i8 i9
    case assertHeld =>
      simp [Mutex.AssertHeld, hp] at hr
      obtain ⟨rfl, rfl, rfl⟩ := hr
      constructor <;> simp_all [WaitPc.done, WaitPc.ownsMu]
    case lockWaitMtx =>
      split at hr
      · simp at hr
      · simp at hr
        obtain ⟨rfl, rfl, rfl⟩ := hr
        constructor <;> simp_all [WaitPc.done, WaitPc.ownsMu, WaitThread.allOps]
    case inc =>
      simp at hr
      obtain ⟨rfl, rfl, rfl⟩ := hr
      constructor <;> simp_all [WaitPc.done, WaitPc.ownsMu, WaitThread.allOps]
    case unlockWaitMtx =>
      simp at hr
      obtain ⟨rfl, rfl, rfl⟩ := hr
      constructor <;> simp_all [WaitPc.done, WaitPc.ownsMu, WaitThread.allOps]
    case unlockMu =>
      have ho : mo = some 0 := by simpa using i5
      have hr1 : mr = 1 := i6 ho
      subst ho hr1
      simp [Mutex.Unlock, hp] at hr
      obtain ⟨rfl, rfl, rfl⟩ := hr
      constructor <;> simp_all [WaitPc.done, WaitPc.ownsMu, WaitThread.allOps]
    case waitSem1 =>
      simp only [WaitForSingleObject] at hr
      by_cases hc : 0 < c1
      · simp [hc] at hr
        obtain ⟨rfl, rfl, rfl⟩ := hr
        constructor <;> simp_all [WaitPc.done, WaitPc.ownsMu, WaitThread.allOps]
      · simp [hc] at hr
    case releaseSem2 =>
      simp at hr
      obtain ⟨rfl, rfl, rfl⟩ := hr
      have hc2 : c2 = 0 := by simp at i9; omega
      subst hc2
      constructor <;>
        simp_all [WaitPc.done, WaitPc.ownsMu, WaitThread.allOps, ReleaseSemaphore]
    case lockMu =>
      have ho : mo ≠ some 0 := by simpa using i5
      cases mo with
      | none =>
          simp [Mutex.Lock, hp] at hr
          obtain ⟨rfl, rfl, rfl⟩ := hr
          constructor <;> simp_all [WaitPc.done, WaitPc.ownsMu, WaitThread.allOps]
      | some o =>
          have ho1 : o ≠ 0 := fun hh => ho (by rw [hh])
          simp [Mutex.Lock, hp, ho1] at hr
    case returned => simp at hr
    case aborted => simp at hr
    case undefined => simp at hr

/-- A statement of `Signal` preserves the invariant. -/
theorem Handoff_Inv_signaller (p : Nat) (h h1 : HandoffSys) (hi : h.Inv p)
    (hstep : h.step HandoffAction.signaller = some h1) : h1.Inv p := by
  obtain ⟨⟨wt, wm, c1, c2⟩, ⟨mp, mo, mr⟩, ⟨pc, wops⟩, ⟨spc, sops⟩⟩ := h
  obtain ⟨i1, i2, i3, i4, i5, i6, i7, i8, i9⟩ := hi
  simp only at i1 i2 i3 i4 i5 i6 i7 i8 i9
  subst i1
  simp only [HandoffSys.step] at hstep
  cases hr : CondVar.Signal_step ⟨wt, wm, c1, c2⟩ ⟨spc, sops⟩ with
  | none => simp [hr] at hstep
  | some r =>
    simp only [hr, Option.some.injEq] at hstep
    subst hstep
    obtain ⟨cv1, t1⟩ := r
    cases spc <;> simp only [CondVar.Signal_step] at hr <;>
      simp only [SignalThread.InOrder] at i7
    case lock =>
      split at hr
      · simp at hr
      · simp at hr
        obtain ⟨rfl, rfl⟩ := hr
        subst i7
        constructor <;> simp_all [SignalThread.InOrder]
    case test =>
      subst i7
      split at hr <;> simp at hr <;> obtain ⟨rfl, rfl⟩ := hr <;>
        constructor <;> simp_all [SignalThread.InOrder]
    case dec =>
      simp at hr
      obtain ⟨rfl, rfl⟩ := hr
      subst i7
      constructor <;> simp_all [SignalThread.InOrder]
    case release =>
      simp at hr
      obtain ⟨rfl, rfl⟩ := hr
      subst i7
      have hc1 : c1 = 0 := by simp at i8; omega
      subst hc1
      constructor <;> simp_all [SignalThread.InOrder, ReleaseSemaphore]
    case waitSem2 =>
      subst i7
      simp only [WaitForSingleObject] at hr
      by_cases hc : 0 < c2
      · simp [hc] at hr
        obtain ⟨rfl, rfl⟩ := hr
        constructor <;> simp_all [SignalThread.InOrder]
        split at hc <;> simp_all
      · simp [hc] at hr
    case unlock =>
      simp at hr
      obtain ⟨rfl, rfl⟩ := hr
      rcases i7 with rfl | rfl <;> constructor <;> simp_all [SignalThread.InOrder]
    case returned => simp at hr

/-- The signaller locking or unlocking the associated mutex preserves the invariant. -/
theorem Handoff_Inv_client (p : Nat) (h h1 : HandoffSys) (a : HandoffAction)
    (ha : a = HandoffAction.signallerLock ∨ a = HandoffAction.signallerUnlock)
    (hi : h.Inv p) (hstep : h.step a = some h1) : h1.Inv p := by
  obtain ⟨⟨wt, wm, c1, c2⟩, ⟨mp, mo, mr⟩, ⟨pc, wops⟩, ⟨spc, sops⟩⟩ := h
  obtain ⟨i1, i2, i3, i4, i5, i6, i7, i8, i9⟩ := hi
  simp only at i1 i2 i3 i4 i5 i6 i7 i8 i9
  subst i1
  rcases ha with rfl | rfl
  · simp only [HandoffSys.step, Mutex.Lock] at hstep
    split at hstep
    · rename_i m hm
      split at hm
      · simp at hm
      · cases mo with
        | none =>
            simp at hm
            subst hm
            simp at hstep
            subst hstep
            constructor <;> simp_all
        | some o =>
            by_cases ho : o = 1
            · subst ho
              simp at hm
              subst hm
              simp at hstep
              subst hstep
              constructor <;> simp_all
            · simp [ho] at hm
    · simp at hstep
  · simp only [HandoffSys.step, Mutex.Unlock] at hstep
    split at hstep
    · rename_i m hm
      split at hm
      · simp at hm
      · split at hm
        · rename_i ho
          subst ho
          split at hm <;> simp at hm <;> subst hm <;> simp at hstep <;> subst hstep <;>
            constructor <;> simp_all
        · simp at hm
    · simp at hstep

/-- Every action preserves the invariant. -/
theorem Handoff_Inv_step (p : Nat) (hp : p ≠ 0) (h h1 : HandoffSys) (a : HandoffAction)
    (hi : h.Inv p) (hstep : h.step a = some h1) : h1.Inv p := by
  cases a with
  | waiter => exact Handoff_Inv_waiter p hp h h1 hi hstep
  | signaller => exact Handoff_Inv_signaller p h h1 hi hstep
  | signallerLock => exact Handoff_Inv_client p h h1 _ (Or.inl rfl) hi hstep
  | signallerUnlock => exact Handoff_Inv_client p h h1 _ (Or.inr rfl) hi hstep

/-- Every run preserves the invariant. -/
theorem Handoff_Inv_run (p : Nat) (hp : p ≠ 0) (as : List HandoffAction)
    (h h1 : HandoffSys) (hi : h.Inv p) (hrun : h.run as = some h1) : h1.Inv p := by
  induction as generalizing h with
  | nil => simp [HandoffSys.run] at hrun; subst hrun; exact hi
  | cons a as ih =>
      simp only [HandoffSys.run] at hrun
      cases hs : h.step a with
      | none => simp [hs] at hrun
      | some h2 =>
          simp [hs] at hrun
          exact ih h2 (Handoff_Inv_step p hp h h2 a hi hs) hrun

/-- C15, amended.  One `Wait`, called by the owner of the associated mutex (constructed,
`p` not null), and one `Signal`, in any interleaving, the signalling thread locking and
unlocking the associated mutex as it pleases: when `Signal` has returned after releasing
`sem1_` (it found `waiting_ > 0`), the waiter has completed its wait on `sem1_` and has
released `sem2_`: it stands at the `mu_->Lock()` of line 71 or has returned.  A `Wait`
that has returned owns the associated mutex; so while the signalling thread owns it, as
`Schedule` does when `Signal` returns, the waiter stands at line 71 and is blocked. -/
theorem Wait_acknowledges_before_Signal_returns (p : Nat) (hp : p ≠ 0)
    (as : List HandoffAction) (h : HandoffSys) (hrun : (HandoffSys.init p).run as = some h)
    (hret : h.s.pc = SignalPc.returned) (hsig : CvOp.sem1Release ∈ h.s.ops) :
    (h.w.pc = WaitPc.lockMu ∨ h.w.pc = WaitPc.returned) ∧
    WaitOp.cv CvOp.sem1Wait ∈ h.w.ops ∧ WaitOp.cv CvOp.sem2Release ∈ h.w.ops ∧
    (h.w.pc = WaitPc.returned → h.mu.owner = some 0) ∧
    (h.mu.owner = some 1 →
      h.w.pc = WaitPc.lockMu ∧ h.step HandoffAction.waiter = none) := by
  have hi := Handoff_Inv_run p hp as _ h (Handoff_Inv_init p) hrun
  obtain ⟨⟨wt, wm, c1, c2⟩, ⟨mp, mo, mr⟩, ⟨pc, wops⟩, ⟨spc, sops⟩⟩ := h
  obtain ⟨i1, i2, i3, i4, i5, i6, i7, i8, i9⟩ := hi
  simp only at i1 i2 i3 i4 i5 i6 i7 i8 i9 hret hsig
  subst i1 hret
  simp only [SignalThread.InOrder] at i7
  have hops : sops
      = [CvOp.waitMtxLock, CvOp.sem1Release, CvOp.sem2Wait, CvOp.waitMtxUnlock] := by
    rcases i7 with h1 | h1
    · rw [h1] at hsig; simp at hsig
    · exact h1
  subst hops
  have hdone : 6 ≤ pc.done := by
    by_contra hlt
    simp [hlt] at i9
  have hpc : pc = WaitPc.lockMu ∨ pc = WaitPc.returned := by
    cases pc <;> simp [WaitPc.done] at hdone <;> simp
  refine ⟨hpc, ?_, ?_, ?_, ?_⟩
  · rcases hpc with rfl | rfl <;> simp [i4, WaitPc.done, WaitThread.allOps]
  · rcases hpc with rfl | rfl <;> simp [i4, WaitPc.done, WaitThread.allOps]
  · intro hr
    simp only at hr
    subst hr
    exact i5.mpr rfl
  · intro ho
    simp only at ho
    subst ho
    rcases hpc with rfl | rfl
    · refine ⟨rfl, ?_⟩
      simp [HandoffSys.step, CondVar.Wait_step, WaitThread.afterMu, Mutex.Lock, hp]
    · have := i5.mpr rfl
      simp at this

/-- C15, amended, on the run in which the signalling thread holds the associated mutex
while it signals. -/
theorem Wait_acknowledges_before_Signal_returns_witness :
    8 ≠ 0 ∧
    (HandoffSys.init 8).run HandoffSys.signalFirstLocked
      = some HandoffSys.signalFirstLockedEnd ∧
    HandoffSys.signalFirstLockedEnd.s.pc = SignalPc.returned ∧
    CvOp.sem1Release ∈ HandoffSys.signalFirstLockedEnd.s.ops ∧
    ((HandoffSys.signalFirstLockedEnd.w.pc = WaitPc.lockMu ∨
        HandoffSys.signalFirstLockedEnd.w.pc = WaitPc.returned) ∧
    WaitOp.cv CvOp.sem1Wait ∈ HandoffSys.signalFirstLockedEnd.w.ops ∧
    WaitOp.cv CvOp.sem2Release ∈ HandoffSys.signalFirstLockedEnd.w.ops ∧
    (HandoffSys.signalFirstLockedEnd.w.pc = WaitPc.returned →
      HandoffSys.signalFirstLockedEnd.mu.owner = some 0) ∧
    (HandoffSys.signalFirstLockedEnd.mu.owner = some 1 →
      HandoffSys.signalFirstLockedEnd.w.pc = WaitPc.lockMu ∧
      HandoffSys.signalFirstLockedEnd.step HandoffAction.waiter = none)) :=
  ⟨by decide, by decide, rfl, by decide,
    Wait_acknowledges_before_Signal_returns 8 (by decide) HandoffSys.signalFirstLocked
      HandoffSys.signalFirstLockedEnd (by decide) rfl (by decide)⟩

end port

namespace port

/-! ### The waiter counter is never negative -/

/-- Replacing one element of a list changes the sum of a function over it by the
difference at that element. -/
theorem sum_map_set {α : Type} (f : α → Nat) (l : List α) (i : Nat) (t t1 : α)
    (h : l.get? i = some t) :
    ((l.set i t1).map f).sum + f t = (l.map f).sum + f t1 := by
  induction l generalizing i with
  | nil => simp at h
  | cons a l ih =>
      cases i with
      | zero =>
          simp only [List.get?_cons_zero, Option.some.injEq] at h
          subst h
          simp only [List.set_cons_zero, List.map_cons, List.sum_cons]
          omega
      | succ i =>
          rw [List.get?_cons_succ] at h
          have := ih i h
          simp only [List.set_cons_succ, List.map_cons, List.sum_cons]
          omega

/-- The value of a function at an element of a list is at most its sum over the list. -/
theorem le_sum_map_of_get {α : Type} (f : α → Nat) (l : List α) (i : Nat) (t : α)
    (h : l.get? i = some t) : f t ≤ (l.map f).sum := by
  induction l generalizing i with
  | nil => simp at h
  | cons a l ih =>
      cases i with
      | zero =>
          simp only [List.get?_cons_zero, Option.some.injEq] at h
          subst h
          simp only [List.map_cons, List.sum_cons]
          omega
      | succ i =>
          rw [List.get?_cons_succ] at h
          have := ih i h
          simp only [List.map_cons, List.sum_cons]
          omega

/-- What one statement of a thread does to `wait_mtx_` and to `waiting_`, given that a
thread between lock and unlock finds `wait_mtx_` held. -/
theorem CvThread_step_effect (cv : CondVar) (mu : Mutex) (self : Nat) (t : CvThread)
    (r : CondVar × Mutex × CvThread) (h : t.step cv mu self = some r)
    (hheld : 0 < t.atDec + t.holding → cv.wait_mtx_ = true) :
    t.atDec + t.holding ≤ 1 ∧ r.2.2.atDec + r.2.2.holding ≤ 1 ∧
    (if r.1.wait_mtx_ then 1 else 0) + (t.atDec + t.holding)
      = (if cv.wait_mtx_ then 1 else 0) + (r.2.2.atDec + r.2.2.holding) ∧
    (r.2.2.atDec = 1 →
      t.atDec = 0 ∧ t.holding = 1 ∧ 0 < cv.waiting_ ∧ r.1.waiting_ = cv.waiting_) ∧
    (r.2.2.atDec = 0 → cv.waiting_ - t.atDec ≤ r.1.waiting_) := by
  obtain ⟨w, wm, c1, c2⟩ := cv
  cases t with
  | wait t =>
      obtain ⟨pc, ops⟩ := t
      simp only [CvThread.step] at h
      cases hr : CondVar.Wait_step ⟨w, wm, c1, c2⟩ mu self ⟨pc, ops⟩ with
      | none => simp [hr] at h
      | some r1 =>
        simp only [hr, Option.some.injEq] at h
        subst h
        obtain ⟨cv1, mu1, t1⟩ := r1
        cases pc <;> simp only [CondVar.Wait_step, WaitThread.afterMu] at hr <;>
          simp only [CvThread.atDec, CvThread.holding] at hheld ⊢
        case assertHeld =>
          split at hr <;> simp at hr <;> obtain ⟨rfl, rfl, rfl⟩ := hr <;> simp
        case lockWaitMtx =>
          split at hr
          · simp at hr
          · simp at hr; obtain ⟨rfl, rfl, rfl⟩ := hr; simp_all
        case inc =>
          simp at hr; obtain ⟨rfl, rfl, rfl⟩ := hr; simp_all
        case unlockWaitMtx =>
          simp at hr; obtain ⟨rfl, rfl, rfl⟩ := hr; simp_all
        case unlockMu =>
          split at hr <;> simp at hr <;> obtain ⟨rfl, rfl, rfl⟩ := hr <;> simp
        case waitSem1 =>
          split at hr
          · simp at hr
          · simp at hr; obtain ⟨rfl, rfl, rfl⟩ := hr; simp
        case releaseSem2 =>
          simp at hr; obtain ⟨rfl, rfl, rfl⟩ := hr; simp
        case lockMu =>
          split at hr <;> simp at hr <;> obtain ⟨rfl, rfl, rfl⟩ := hr <;> simp
        case returned => simp at hr
        case aborted => simp at hr
        case undefined => simp at hr
  | signal t =>
      obtain ⟨pc, ops⟩ := t
      simp only [CvThread.step] at h
      cases hr : CondVar.Signal_step ⟨w, wm, c1, c2⟩ ⟨pc, ops⟩ with
      | none => simp [hr] at h
      | some r1 =>
        simp only [hr, Option.some.injEq] at h
        subst h
        obtain ⟨cv1, t1⟩ := r1
        cases pc <;> simp only [CondVar.Signal_step] at hr <;>
          simp only [CvThread.atDec, CvThread.holding] at hheld ⊢
        case lock =>
          split at hr
          · simp at hr
          · simp at hr; obtain ⟨rfl, rfl⟩ := hr; simp_all
        case test =>
          split at hr <;> simp at hr <;> obtain ⟨rfl, rfl⟩ := hr <;> simp_all
        case dec =>
          simp at hr; obtain ⟨rfl, rfl⟩ := hr; simp_all
        case release =>
          simp at hr; obtain ⟨rfl, rfl⟩ := hr; simp_all
        case waitSem2 =>
          split at hr
          · simp at hr
          · simp at hr; obtain ⟨rfl, rfl⟩ := hr; simp_all
        case unlock =>
          simp at hr; obtain ⟨rfl, rfl⟩ := hr; simp_all
        case returned => simp at hr
  | signalAll t =>
      obtain ⟨pc, i, ops⟩ := t
      simp only [CvThread.step] at h
      cases hr : CondVar.SignalAll_step ⟨w, wm, c1, c2⟩ ⟨pc, i, ops⟩ with
      | none => simp [hr] at h
      | some r1 =>
        simp only [hr, Option.some.injEq] at h
        subst h
        obtain ⟨cv1, t1⟩ := r1
        cases pc <;> simp only [CondVar.SignalAll_step] at hr <;>
          simp only [CvThread.atDec, CvThread.holding] at hheld ⊢
        case lock =>
          split at hr
          · simp at hr
          · simp at hr; obtain ⟨rfl, rfl⟩ := hr; simp_all
        case forInit =>
          simp at hr; obtain ⟨rfl, rfl⟩ := hr; simp_all
        case forTest =>
          split at hr <;> simp at hr <;> obtain ⟨rfl, rfl⟩ := hr <;> simp_all
        case release =>
          simp at hr; obtain ⟨rfl, rfl⟩ := hr; simp_all
        case whileTest =>
          split at hr <;> simp at hr <;> obtain ⟨rfl, rfl⟩ := hr <;> simp_all
        case dec =>
          simp at hr; obtain ⟨rfl, rfl⟩ := hr; simp_all
        case waitSem2 =>
          split at hr
          · simp at hr
          · simp at hr; obtain ⟨rfl, rfl⟩ := hr; simp_all
        case forInc =>
          simp at hr; obtain ⟨rfl, rfl⟩ := hr; simp_all
        case unlock =>
          simp at hr; obtain ⟨rfl, rfl⟩ := hr; simp_all
        case returned => simp at hr

/-- The invariant holds when the threads enter. -/
theorem CvSys_Inv_init (p : Nat) (calls : List CvCall) : (CvSys.init p calls).Inv := by
  have h0 : ∀ l : List CvCall,
      ((l.map CvThread.enter).map CvThread.atDec).sum = 0 ∧
      ((l.map CvThread.enter).map CvThread.holding).sum = 0 := by
    intro l
    induction l with
    | nil => simp
    | cons c l ih =>
        obtain ⟨h1, h2⟩ := ih
        cases c <;>
          simp [CvThread.enter, CvThread.atDec, CvThread.holding, WaitThread.enter,
            SignalThread.enter, SignalAllThread.enter] <;>
          simp_all
  obtain ⟨h1, h2⟩ := h0 calls
  unfold CvSys.Inv CvSys.init
  simp only
  rw [h1, h2]
  simp [CondVar.new]

/-- Every action preserves the invariant. -/
theorem CvSys_Inv_step (s s1 : CvSys) (a : CvAction) (hi : s.Inv)
    (hstep : s.step a = some s1) : s1.Inv := by
  obtain ⟨h1, h2⟩ := hi
  cases a with
  | step i =>
      simp only [CvSys.step] at hstep
      cases hg : s.threads.get? i with
      | none =>
        rw [List.get?_eq_getElem?] at hg
        simp [hg] at hstep
      | some t =>
        have hg1 := hg
        rw [List.get?_eq_getElem?] at hg1
        cases hr : t.step s.cv s.mu i with
        | none => simp [hg1, hr] at hstep
        | some r =>
          simp [hg1, hr] at hstep
          subst hstep
          have hd := sum_map_set CvThread.atDec s.threads i t r.2.2 hg
          have hk := sum_map_set CvThread.holding s.threads i t r.2.2 hg
          have hdle := le_sum_map_of_get CvThread.atDec s.threads i t hg
          have hkle := le_sum_map_of_get CvThread.holding s.threads i t hg
          have hwm : (if s.cv.wait_mtx_ = true then 1 else 0) ≤ 1 := by split <;> omega
          have hheld : 0 < t.atDec + t.holding → s.cv.wait_mtx_ = true := by
            intro hpos
            by_contra hc
            simp [hc] at h1
            omega
          obtain ⟨e1, e2, e3, e4, e5⟩ := CvThread_step_effect s.cv s.mu i t r hr hheld
          unfold CvSys.Inv
          simp only
          constructor
          · omega
          · by_cases hd1 : r.2.2.atDec = 1
            · obtain ⟨f1, f2, f3, f4⟩ := e4 hd1
              omega
            · have hd0 : r.2.2.atDec = 0 := by omega
              have := e5 hd0
              omega
  | lockMu i =>
      simp only [CvSys.step] at hstep
      split at hstep
      · simp at hstep; subst hstep; exact ⟨h1, h2⟩
      · simp at hstep
  | unlockMu i =>
      simp only [CvSys.step] at hstep
      split at hstep
      · simp at hstep; subst hstep; exact ⟨h1, h2⟩
      · simp at hstep

/-- Every run preserves the invariant. -/
theorem CvSys_Inv_run (as : List CvAction) (s s1 : CvSys) (hi : s.Inv)
    (hrun : s.run as = some s1) : s1.Inv := by
  induction as generalizing s with
  | nil => simp [CvSys.run] at hrun; subst hrun; exact hi
  | cons a as ih =>
      simp only [CvSys.run] at hrun
      cases hs : s.step a with
      | none => simp [hs] at hrun
      | some s2 =>
          simp [hs] at hrun
          exact ih s2 (CvSys_Inv_step s s2 a hi hs) hrun

/-- C14. The waiter counter is `0` after construction.  For any number of threads, each
calling `Wait`, `Signal` or `SignalAll` on the same condition variable, in every
interleaving of their statements from the constructed state: the counter is not negative,
and every further statement of any of the three functions (or action on the associated
mutex) leaves it not negative. -/
theorem waiting_never_negative (p : Nat) (calls : List CvCall) (as : List CvAction)
    (s : CvSys) (hrun : (CvSys.init p calls).run as = some s) :
    CondVar.new.waiting_ = 0 ∧ 0 ≤ s.cv.waiting_ ∧
    (∀ (a : CvAction) (s1 : CvSys), s.step a = some s1 → 0 ≤ s1.cv.waiting_) := by
  have hi := CvSys_Inv_run as _ s (CvSys_Inv_init p calls) hrun
  refine ⟨rfl, ?_, ?_⟩
  · have := hi.2
    omega
  · intro a s1 hs
    have := (CvSys_Inv_step s s1 a hi hs).2
    omega

/-- C14 on a run of three threads that ends with a signaller at `--waiting_`. -/
theorem waiting_never_negative_witness :
    (CvSys.init 8 [CvCall.Wait, CvCall.Signal, CvCall.SignalAll]).run CvSys.sampleActions
      = some CvSys.sample ∧
    (CondVar.new.waiting_ = 0 ∧ 0 ≤ CvSys.sample.cv.waiting_ ∧
    (∀ (a : CvAction) (s1 : CvSys), CvSys.sample.step a = some s1 → 0 ≤ s1.cv.waiting_)) :=
  ⟨by decide, waiting_never_negative 8 [CvCall.Wait, CvCall.Signal, CvCall.SignalAll]
    CvSys.sampleActions CvSys.sample (by decide)⟩

end port

/-! ## `NormalizePath` -/

theorem substr_middle (pre cur rest : List Char) :
    substr (pre ++ cur ++ rest) pre.length cur.length = cur := by
  simp [substr, List.append_assoc]

theorem NormalizePath.loop_nil (strDir : List Char) (v : NormalizePathVars) :
    NormalizePath.loop strDir [] v = v := rfl

theorem NormalizePath.loop_cons (strDir p1 : List Char) (v : NormalizePathVars) (c : Char) :
    NormalizePath.loop strDir (c :: p1) v =
    if c = NUL then v
    else if isSeparator c then
      loop strDir p1
        { iLast := v.iCur + 1, iCur := v.iCur + 1,
          vecParts :=
            if v.iLast ≠ v.iCur then v.vecParts ++ [substr strDir v.iLast (v.iCur - v.iLast)]
            else v.vecParts }
    else if c = ':' then
      loop strDir p1
        { iLast := v.iCur + 1, iCur := v.iCur + 1,
          vecParts :=
            if v.iLast ≠ v.iCur then
              v.vecParts ++ [substr strDir v.iLast (v.iCur - v.iLast) ++ [':']]
            else v.vecParts }
    else if c = '.' then
      if deref p1 0 ≠ NUL ∧ isSeparator (deref p1 0) then
        match p1 with
        | _ :: p2 => loop strDir p2 { v with iLast := v.iCur + 1, iCur := v.iCur + 1 + 1 }
        | [] => v
      else if deref p1 0 ≠ NUL ∧ deref p1 0 = '.' ∧
          deref p1 1 ≠ NUL ∧ isSeparator (deref p1 1) then
        match p1 with
        | _ :: _ :: p3 =>
          loop strDir p3
            { iLast := v.iCur + 3, iCur := v.iCur + 3,
              vecParts := if v.vecParts.length > 0 then v.vecParts.dropLast else v.vecParts }
        | _ => v
      else
        loop strDir p1 { v with iCur := v.iCur + 1 }
    else
      loop strDir p1 { v with iCur := v.iCur + 1 } := by
  cases p1 with
  | nil => rfl
  | cons a t =>
    cases t with
    | nil => rfl
    | cons b u => rfl

theorem NormalizePath.loop_NUL (strDir p1 : List Char) (v : NormalizePathVars) :
    NormalizePath.loop strDir (NUL :: p1) v = v := by
  rw [NormalizePath.loop_cons, if_pos rfl]

theorem NormalizePath.loop_separator (strDir p1 : List Char) (v : NormalizePathVars) (c : Char)
    (h0 : c ≠ NUL) (hsep : isSeparator c = true) :
    NormalizePath.loop strDir (c :: p1) v =
      NormalizePath.loop strDir p1
        { iLast := v.iCur + 1, iCur := v.iCur + 1,
          vecParts :=
            if v.iLast ≠ v.iCur then v.vecParts ++ [substr strDir v.iLast (v.iCur - v.iLast)]
            else v.vecParts } := by
  rw [NormalizePath.loop_cons, if_neg h0, if_pos hsep]

theorem NormalizePath.loop_plain (strDir p1 : List Char) (v : NormalizePathVars) (c : Char)
    (h0 : c ≠ NUL) (hsep : isSeparator c = false) (hcolon : c ≠ ':') (hdot : c ≠ '.') :
    NormalizePath.loop strDir (c :: p1) v =
      NormalizePath.loop strDir p1 { v with iCur := v.iCur + 1 } := by
  rw [NormalizePath.loop_cons, if_neg h0, if_neg (by simp [hsep]), if_neg hcolon, if_neg hdot]

theorem NormalizePath.loop_collect (strDir : List Char) (tl : List Char)
    (htl : tl = [] ∨ tl.head? = some NUL) :
    ∀ (rest pre cur : List Char) (vp : List (List Char)),
      strDir = pre ++ cur ++ rest →
      (∀ c ∈ rest, c ≠ NUL ∧ c ≠ '.' ∧ c ≠ ':') →
      (if (NormalizePath.loop strDir (rest ++ tl) ⟨pre.length, pre.length + cur.length, vp⟩).iCur ≠
            (NormalizePath.loop strDir (rest ++ tl) ⟨pre.length, pre.length + cur.length, vp⟩).iLast then
          (NormalizePath.loop strDir (rest ++ tl) ⟨pre.length, pre.length + cur.length, vp⟩).vecParts ++
            [substr strDir
              (NormalizePath.loop strDir (rest ++ tl) ⟨pre.length, pre.length + cur.length, vp⟩).iLast
              ((NormalizePath.loop strDir (rest ++ tl) ⟨pre.length, pre.length + cur.length, vp⟩).iCur -
                (NormalizePath.loop strDir (rest ++ tl) ⟨pre.length, pre.length + cur.length, vp⟩).iLast)]
        else
          (NormalizePath.loop strDir (rest ++ tl) ⟨pre.length, pre.length + cur.length, vp⟩).vecParts) =
        vp ++ NormalizePath.collect cur rest := by
  intro rest
  induction rest with
  | nil =>
    intro pre cur vp hs _
    have hl : NormalizePath.loop strDir ([] ++ tl) ⟨pre.length, pre.length + cur.length, vp⟩ =
        ⟨pre.length, pre.length + cur.length, vp⟩ := by
      rcases htl with rfl | h
      · exact NormalizePath.loop_nil _ _
      · cases tl with
        | nil => exact NormalizePath.loop_nil _ _
        | cons a t =>
          simp at h
          subst h
          exact NormalizePath.loop_NUL _ _ _
    rw [hl]
    subst hs
    cases cur with
    | nil => simp [NormalizePath.collect]
    | cons a t =>
      have := substr_middle pre (a :: t) []
      simp only [List.length_cons, List.append_nil] at this
      simp [NormalizePath.collect, this]
  | cons c r ih =>
    intro pre cur vp hs hr
    have hc := hr c (List.mem_cons_self _ _)
    have hr' : ∀ c ∈ r, c ≠ NUL ∧ c ≠ '.' ∧ c ≠ ':' :=
      fun x hx => hr x (List.mem_cons_of_mem _ hx)
    cases hsep : isSeparator c
    · have h1 := ih pre (cur ++ [c]) vp (by simp [hs]) hr'
      simp only [List.length_append, List.length_singleton, ← Nat.add_assoc] at h1
      rw [List.cons_append, NormalizePath.loop_plain _ _ _ _ hc.1 hsep hc.2.2 hc.2.1]
      simp only
      rw [h1]
      simp [NormalizePath.collect, hsep]
    · have h1 := ih (pre ++ cur ++ [c]) []
        (if pre.length ≠ pre.length + cur.length then vp ++ [cur] else vp) (by simp [hs]) hr'
      have hsub : substr strDir pre.length (pre.length + cur.length - pre.length) = cur := by
        rw [hs, Nat.add_sub_cancel_left]
        exact substr_middle pre cur (c :: r)
      simp only [List.length_append, List.length_singleton, List.length_nil, Nat.add_zero] at h1
      rw [List.cons_append, NormalizePath.loop_separator _ _ _ _ hc.1 hsep]
      simp only [hsub]
      rw [h1]
      cases cur with
      | nil => simp [NormalizePath.collect, hsep]
      | cons a t => simp [NormalizePath.collect, hsep]

theorem NormalizePath.collect_eq_runs (rest : List Char) :
    ∀ cur : List Char, (∀ c ∈ cur, isSeparator c = false) →
      NormalizePath.collect cur rest =
        ((cur ++ rest).splitOnP isSeparator).filter (fun r => r ≠ []) := by
  induction rest with
  | nil =>
    intro cur hcur
    rw [List.append_nil, List.splitOnP_eq_single _ _ (by simpa using hcur)]
    cases cur <;> simp [NormalizePath.collect]
  | cons c r ih =>
    intro cur hcur
    cases hsep : isSeparator c
    · have h1 := ih (cur ++ [c]) (by
        intro x hx
        rcases List.mem_append.1 hx with h | h
        · exact hcur x h
        · simp at h; subst h; exact hsep)
      simp only [NormalizePath.collect, hsep, Bool.false_eq_true, if_false]
      rw [h1, List.append_assoc, List.singleton_append]
    · have h1 := ih [] (by simp)
      rw [List.splitOnP_first _ _ (by simpa using hcur) c hsep]
      simp only [NormalizePath.collect, hsep, if_true]
      rw [h1, List.nil_append]
      cases cur <;> simp

theorem NormalizePath.collect_parts (rest : List Char) :
    ∀ cur : List Char, (∀ c ∈ cur, isSeparator c = false) →
      ∀ r ∈ NormalizePath.collect cur rest,
        r ≠ [] ∧ ∀ c ∈ r, isSeparator c = false ∧ (c ∈ cur ∨ c ∈ rest) := by
  induction rest with
  | nil =>
    intro cur hcur r hr
    cases cur with
    | nil => simp [NormalizePath.collect] at hr
    | cons a t =>
      simp [NormalizePath.collect] at hr
      subst hr
      exact ⟨by simp, fun c hc => ⟨hcur c hc, Or.inl hc⟩⟩
  | cons c rest ih =>
    intro cur hcur r hr
    cases hsep : isSeparator c
    · simp only [NormalizePath.collect, hsep, Bool.false_eq_true, if_false] at hr
      have h1 := ih (cur ++ [c]) (by
        intro x hx
        rcases List.mem_append.1 hx with h | h
        · exact hcur x h
        · simp at h; subst h; exact hsep) r hr
      refine ⟨h1.1, fun x hx => ⟨(h1.2 x hx).1, ?_⟩⟩
      rcases (h1.2 x hx).2 with h | h
      · rcases List.mem_append.1 h with h | h
        · exact Or.inl h
        · simp at h; subst h; exact Or.inr (List.mem_cons_self _ _)
      · exact Or.inr (List.mem_cons_of_mem _ h)
    · simp only [NormalizePath.collect, hsep, if_true] at hr
      rcases List.mem_append.1 hr with h | h
      · cases cur with
        | nil => simp at h
        | cons a t =>
          simp at h
          subst h
          exact ⟨by simp, fun x hx => ⟨hcur x hx, Or.inl hx⟩⟩
      · have h1 := ih [] (by simp) r h
        refine ⟨h1.1, fun x hx => ⟨(h1.2 x hx).1, ?_⟩⟩
        rcases (h1.2 x hx).2 with h | h
        · simp at h
        · exact Or.inr (List.mem_cons_of_mem _ h)

theorem NormalizePath.collect_eq_nil (rest : List Char) :
    ∀ cur : List Char,
      NormalizePath.collect cur rest = [] ↔ cur = [] ∧ ∀ c ∈ rest, isSeparator c = true := by
  induction rest with
  | nil => intro cur; cases cur <;> simp [NormalizePath.collect]
  | cons c rest ih =>
    intro cur
    cases hsep : isSeparator c
    · simp [NormalizePath.collect, hsep, ih]
    · cases cur <;> simp [NormalizePath.collect, hsep, ih]

theorem NormalizePath.collect_cons (cur rest : List Char) (c : Char) :
    NormalizePath.collect cur (c :: rest) =
      if isSeparator c then (if cur = [] then [] else [cur]) ++ NormalizePath.collect [] rest
      else NormalizePath.collect (cur ++ [c]) rest := rfl

theorem NormalizePath.collect_part (r : List Char) (hr : ∀ c ∈ r, isSeparator c = false)
    (rest : List Char) :
    ∀ cur : List Char,
      NormalizePath.collect cur (r ++ '\\' :: rest) =
        (if cur ++ r = [] then [] else [cur ++ r]) ++ NormalizePath.collect [] rest := by
  induction r with
  | nil =>
    intro cur
    have : isSeparator '\\' = true := by decide
    simp [NormalizePath.collect, this]
  | cons a t ih =>
    intro cur
    have ha := hr a (List.mem_cons_self _ _)
    have h1 := ih (fun c hc => hr c (List.mem_cons_of_mem _ hc)) (cur ++ [a])
    rw [List.cons_append, NormalizePath.collect_cons, ha]
    simp only [Bool.false_eq_true, if_false]
    rw [h1]
    simp

theorem NormalizePath.collect_join (rs : List (List Char)) (hrs : NormalizePath.Parts rs) :
    NormalizePath.collect [] (rs.flatMap (fun r => r ++ ['\\'])) = rs := by
  induction rs with
  | nil => simp [NormalizePath.collect]
  | cons r rs ih =>
    have hr := hrs r (List.mem_cons_self _ _)
    have h1 := ih (fun x hx => hrs x (List.mem_cons_of_mem _ hx))
    rw [List.flatMap_cons, List.append_assoc, List.singleton_append,
      NormalizePath.collect_part r hr.2, h1]
    simp [hr.1]

theorem NormalizePath.foldl_eq_flatMap (vecParts : List (List Char)) :
    ∀ strDir : List Char,
      vecParts.foldl (fun strDir part => strDir ++ part ++ ['\\']) strDir =
        strDir ++ vecParts.flatMap (fun r => r ++ ['\\']) := by
  induction vecParts with
  | nil => intro s; simp
  | cons r rs ih =>
    intro s
    rw [List.foldl_cons, ih]
    simp [List.append_assoc]

theorem NormalizePath.join_shape (rs : List (List Char)) (hrs : NormalizePath.Parts rs) :
    (rs.flatMap (fun r => r ++ ['\\'])).head? ≠ some '\\' ∧
    List.Chain' (fun a b => ¬ (a = '\\' ∧ b = '\\')) (rs.flatMap (fun r => r ++ ['\\'])) := by
  induction rs with
  | nil => simp
  | cons r rs ih =>
    have hr := hrs r (List.mem_cons_self _ _)
    have h1 := ih (fun x hx => hrs x (List.mem_cons_of_mem _ hx))
    rw [List.flatMap_cons, List.append_assoc, List.singleton_append]
    generalize rs.flatMap (fun r => r ++ ['\\']) = tail at h1 ⊢
    have hne : ∀ c ∈ r, c ≠ '\\' := by
      intro c hc h
      subst h
      have := hr.2 _ hc
      simp [isSeparator] at this
    obtain ⟨hr1, -⟩ := hr
    clear hrs ih
    constructor
    · cases r with
      | nil => exact absurd rfl hr1
      | cons a t =>
        simp only [List.cons_append, List.head?_cons, ne_eq, Option.some.injEq]
        exact hne a (List.mem_cons_self _ _)
    · clear hr1
      induction r with
      | nil =>
        rw [List.nil_append, List.chain'_cons']
        refine ⟨fun y hy h => ?_, h1.2⟩
        rw [Option.mem_def] at hy
        exact h1.1 (by rw [hy, h.2])
      | cons a t iht =>
        rw [List.cons_append, List.chain'_cons']
        refine ⟨fun y _ h => hne a (List.mem_cons_self _ _) h.1,
          iht (fun c hc => hne c (List.mem_cons_of_mem _ hc))⟩

theorem NormalizePath.join_last (rs : List (List Char)) (hne : rs ≠ []) :
    (rs.flatMap (fun r => r ++ ['\\'])).getLast? = some '\\' := by
  induction rs with
  | nil => exact absurd rfl hne
  | cons r rs ih =>
    cases rs with
    | nil => simp
    | cons r2 rs2 =>
      have h1 := ih (by simp)
      rw [List.flatMap_cons, List.getLast?_append, h1]
      rfl

theorem c_str_append_rest (lpszDir : List Char) :
    ∃ tl : List Char, (tl = [] ∨ tl.head? = some NUL) ∧ lpszDir = c_str lpszDir ++ tl := by
  refine ⟨lpszDir.dropWhile (fun c => c != NUL), ?_, (List.takeWhile_append_dropWhile _ _).symm⟩
  have h := List.head?_dropWhile_not (fun c => c != NUL) lpszDir
  cases hd : lpszDir.dropWhile (fun c => c != NUL) with
  | nil => exact Or.inl rfl
  | cons a t =>
    rw [hd] at h
    simp at h
    exact Or.inr (by simp [h])

theorem c_str_no_NUL (lpszDir : List Char) : ∀ c ∈ c_str lpszDir, c ≠ NUL := by
  intro c hc
  have := List.mem_takeWhile_imp hc
  simpa using this

theorem c_str_eq_self (s : List Char) (h : ∀ c ∈ s, c ≠ NUL) : c_str s = s :=
  List.takeWhile_eq_self_iff.2 (fun c hc => by simpa using h c hc)

theorem NormalizePath_eq_collect (lpszDir : List Char)
    (h : ∀ c ∈ c_str lpszDir, c ≠ '.' ∧ c ≠ ':') :
    NormalizePath lpszDir =
      (NormalizePath.collect [] (c_str lpszDir)).flatMap (fun r => r ++ ['\\']) := by
  obtain ⟨tl, htl, hmem⟩ := c_str_append_rest lpszDir
  have h1 := NormalizePath.loop_collect (c_str lpszDir) tl htl (c_str lpszDir) [] [] []
    (by simp) (fun c hc => ⟨c_str_no_NUL lpszDir c hc, h c hc⟩)
  rw [← hmem] at h1
  simp only [List.length_nil, Nat.add_zero, List.nil_append] at h1
  simp only [NormalizePath]
  rw [h1, NormalizePath.foldl_eq_flatMap, List.nil_append]

theorem isSeparator_iff (c : Char) : isSeparator c = true ↔ c = '\\' ∨ c = '/' := by
  simp [isSeparator]

/-- C21: for every input path without `.` and `:`, `NormalizePath` returns the
concatenation, in order, of the maximal non-empty runs of characters other than `\` and
`/`, each followed by one `\`.  The result is empty exactly when the path holds only
separators; a non-empty result ends with `\`; the result holds no `/`, does not start
with `\`, holds no two adjacent `\`, and `NormalizePath` returns it unchanged. -/
theorem NormalizePath_joins_runs (lpszDir : List Char)
    (hdot : '.' ∉ c_str lpszDir) (hcolon : ':' ∉ c_str lpszDir) :
    NormalizePath lpszDir = (runs (c_str lpszDir)).flatMap (fun r => r ++ ['\\']) ∧
    (NormalizePath lpszDir = [] ↔ ∀ c ∈ c_str lpszDir, c = '\\' ∨ c = '/') ∧
    (NormalizePath lpszDir ≠ [] → (NormalizePath lpszDir).getLast? = some '\\') ∧
    '/' ∉ NormalizePath lpszDir ∧
    (NormalizePath lpszDir).head? ≠ some '\\' ∧
    ¬ ['\\', '\\'] <:+: NormalizePath lpszDir ∧
    NormalizePath (NormalizePath lpszDir) = NormalizePath lpszDir := by
  have hpath : ∀ c ∈ c_str lpszDir, c ≠ '.' ∧ c ≠ ':' :=
    fun c hc => ⟨fun h => hdot (h ▸ hc), fun h => hcolon (h ▸ hc)⟩
  have hres := NormalizePath_eq_collect lpszDir hpath
  have hparts := NormalizePath.collect_parts (c_str lpszDir) [] (by simp)
  have hP : NormalizePath.Parts (NormalizePath.collect [] (c_str lpszDir)) :=
    fun r hr => ⟨(hparts r hr).1, fun c hc => ((hparts r hr).2 c hc).1⟩
  have hshape := NormalizePath.join_shape _ hP
  -- the characters of the result are `\` and characters of the path
  have hchars : ∀ c ∈ NormalizePath lpszDir,
      c = '\\' ∨ (isSeparator c = false ∧ c ∈ c_str lpszDir) := by
    intro c hc
    rw [hres, List.mem_flatMap] at hc
    obtain ⟨r, hr, hcr⟩ := hc
    rcases List.mem_append.1 hcr with h | h
    · have := (hparts r hr).2 c h
      exact Or.inr ⟨this.1, by simpa using this.2⟩
    · exact Or.inl (by simpa using h)
  refine ⟨?_, ?_, ?_, ?_, ?_, ?_, ?_⟩
  · rw [hres, runs, NormalizePath.collect_eq_runs _ [] (by simp), List.nil_append]
  · rw [hres, List.flatMap_eq_nil_iff]
    constructor
    · intro h c hc
      have hnil : NormalizePath.collect [] (c_str lpszDir) = [] := by
        cases hcol : NormalizePath.collect [] (c_str lpszDir) with
        | nil => rfl
        | cons r rs =>
          have := h r (by rw [hcol]; exact List.mem_cons_self _ _)
          simp at this
      exact (isSeparator_iff c).1 (((NormalizePath.collect_eq_nil _ []).1 hnil).2 c hc)
    · intro h
      have hnil : NormalizePath.collect [] (c_str lpszDir) = [] :=
        (NormalizePath.collect_eq_nil _ []).2 ⟨rfl, fun c hc => (isSeparator_iff c).2 (h c hc)⟩
      rw [hnil]
      simp
  · intro hne
    rw [hres] at hne ⊢
    exact NormalizePath.join_last _ (fun h => hne (by rw [h]; rfl))
  · intro hmem
    rcases hchars _ hmem with h | h
    · exact absurd h (by decide)
    · exact absurd h.1 (by decide)
  · rw [hres]
    exact hshape.1
  · intro hinf
    rw [hres] at hinf
    have := List.Chain'.infix hshape.2 hinf
    simp at this
  · have hnoNUL : ∀ c ∈ NormalizePath lpszDir, c ≠ NUL := by
      intro c hc
      rcases hchars c hc with h | h
      · rw [h]; decide
      · exact c_str_no_NUL lpszDir c h.2
    have hself := c_str_eq_self _ hnoNUL
    have hres2 := NormalizePath_eq_collect (NormalizePath lpszDir) (by
      rw [hself]
      intro c hc
      rcases hchars c hc with h | h
      · rw [h]; exact ⟨by decide, by decide⟩
      · exact hpath c h.2)
    rw [hres2, hself]
    conv_lhs => rw [hres, NormalizePath.collect_join _ hP]
    exact hres.symm

/-- C21 on the path `/ab/\c`: the result is `ab\c\`. -/
theorem NormalizePath_joins_runs_witness :
    ('.' ∉ c_str NormalizePath.sample ∧ ':' ∉ c_str NormalizePath.sample) ∧
    NormalizePath NormalizePath.sample = ['a', 'b', '\\', 'c', '\\'] ∧
    (NormalizePath NormalizePath.sample =
        (runs (c_str NormalizePath.sample)).flatMap (fun r => r ++ ['\\']) ∧
      (NormalizePath NormalizePath.sample = [] ↔
        ∀ c ∈ c_str NormalizePath.sample, c = '\\' ∨ c = '/') ∧
      (NormalizePath NormalizePath.sample ≠ [] →
        (NormalizePath NormalizePath.sample).getLast? = some '\\') ∧
      '/' ∉ NormalizePath NormalizePath.sample ∧
      (NormalizePath NormalizePath.sample).head? ≠ some '\\' ∧
      ¬ ['\\', '\\'] <:+: NormalizePath NormalizePath.sample ∧
      NormalizePath (NormalizePath NormalizePath.sample) = NormalizePath NormalizePath.sample) :=
  ⟨⟨by decide, by decide⟩, by decide,
    NormalizePath_joins_runs NormalizePath.sample (by decide) (by decide)⟩

end leveldb
